import Mathlib

/-!
# theoraplayer: a shallow embedding of `Utility.cpp` and `VideoClip_Theora.cpp`

The development follows the two source files of the repository:

* `src/theoraplayer/src/Utility.cpp`: `potCeil`, `checklanguage`;
* `src/theoraplayer/src/formats/Theora/VideoClip_Theora.cpp`: `findlanguage`, the audio stream
  selection of `_readTheoraVorbisHeaders`, `_readData`, `_decodeNextFrame`, `_decodeAudio`,
  `_executeRestart`, `_seekPage` and `_executeSeek`.

Conventions of the embedding.

* C++ `int` values are `Int`; the places where the source relies on the 32-bit width go through
  `wrapInt32`.  `std::string` is a list of characters.
* C++ `float` values are rationals: the embedding follows the comparisons and the arithmetic of the
  source exactly, without rounding.
* libogg, libtheora and libvorbis are external libraries.  Their observable answers are data of the
  embedding: a packet carries the answers the codec libraries give for it, a page carries the
  packets it completes, and the data source is the list of the outcomes of its future `read` calls.
  A statement quantified over all states therefore covers every behaviour of the libraries.
-/

namespace theoraplayer

/-! ## Utility.cpp -/

/-- The C++ `std::string`, as the list of its characters. -/
abbrev CppString := List Char

/-- Reinterpretation of an integer as a 32-bit two's-complement `int`. -/
def wrapInt32 (z : Int) : Int := (z + 2 ^ 31) % 2 ^ 32 - 2 ^ 31

/-- The function `potCeil` (Utility.cpp, lines 42-52) on a 32-bit `int`: `>>` is the arithmetic
shift and `|` the bitwise or of two's-complement integers. -/
def potCeil (value : Int) : Int :=
  let value := wrapInt32 (value - 1)
  let value := Int.lor value (value >>> 1)
  let value := Int.lor value (value >>> 2)
  let value := Int.lor value (value >>> 4)
  let value := Int.lor value (value >>> 8)
  let value := Int.lor value (value >>> 16)
  let value := wrapInt32 (value + 1)
  value

/-- The five steps `value |= value >> k` of `potCeil` on a natural number, where the shift and the
or are those of the binary digits. -/
def smear (n : Nat) : Nat :=
  let v := n ||| (n >>> 1)
  let v := v ||| (v >>> 2)
  let v := v ||| (v >>> 4)
  let v := v ||| (v >>> 8)
  v ||| (v >>> 16)

/-- Modelled from the spec: the enumeration `AudioLanguageMatch` is declared in `Utility.h`, which
is not part of the sources at hand.  The spec lists the four match strengths as strictly ordered
`none < lang_code < lang_code_exact < lang_and_country`; the constructors are in that order. -/
inductive AudioLanguageMatch where
  | LANGUAGE_MATCH_NONE
  | LANGUAGE_MATCH_LANG_CODE
  | LANGUAGE_MATCH_LANG_CODE_EXACT
  | LANGUAGE_MATCH_LANG_AND_COUNTRY
  deriving DecidableEq, Repr

namespace AudioLanguageMatch

/-- The integer value of an enumerator, by which the C++ `<` and `==` compare two of them. -/
def toNat : AudioLanguageMatch → Nat
  | LANGUAGE_MATCH_NONE => 0
  | LANGUAGE_MATCH_LANG_CODE => 1
  | LANGUAGE_MATCH_LANG_CODE_EXACT => 2
  | LANGUAGE_MATCH_LANG_AND_COUNTRY => 3

end AudioLanguageMatch

open AudioLanguageMatch

/-- The character `s[i]` of a `std::string`; the source only reads positions below the length. -/
def charAt (s : CppString) (i : Nat) : Char := s.getD i (Char.ofNat 0)

/-- The function `checklanguage` (Utility.cpp, lines 74-114), statement by statement. -/
def checklanguage (desired check : CppString) : AudioLanguageMatch :=
  let p1l := desired.length
  let p2l := check.length
  let stringsmatchlength := decide (p1l = p2l)
  let p1l := if p2l < p1l then p2l else p1l
  let p2l := 0
  -- 2 chars for language
  if p2l ≥ p1l then LANGUAGE_MATCH_NONE
  else if charAt desired p2l ≠ charAt check p2l then LANGUAGE_MATCH_NONE
  else
  let p2l := p2l + 1
  if p2l ≥ p1l then LANGUAGE_MATCH_NONE
  else if charAt desired p2l ≠ charAt check p2l then LANGUAGE_MATCH_NONE
  else
  let p2l := p2l + 1
  -- a matching language code here
  if p2l ≥ p1l then
    (if stringsmatchlength then LANGUAGE_MATCH_LANG_CODE_EXACT else LANGUAGE_MATCH_LANG_CODE)
  else if charAt desired p2l ≠ charAt check p2l ∨ charAt desired p2l ≠ '-' then
    LANGUAGE_MATCH_LANG_CODE
  else
  let p2l := p2l + 1
  if p2l ≥ p1l then LANGUAGE_MATCH_LANG_CODE
  else if charAt desired p2l ≠ charAt check p2l then LANGUAGE_MATCH_LANG_CODE
  else
  let p2l := p2l + 1
  if p2l ≥ p1l then LANGUAGE_MATCH_LANG_CODE
  else if charAt desired p2l ≠ charAt check p2l then LANGUAGE_MATCH_LANG_CODE
  else LANGUAGE_MATCH_LANG_AND_COUNTRY

/-! ## The container and codec libraries

libogg, libtheora and libvorbis are not part of the sources.  What they answer is carried by the
data they are asked about. -/

/-- An `ogg_packet`, with the answers of the codec libraries for it: what the header parsers
`th_decode_headerin` and `vorbis_synthesis_headerin` return for it (and the rate, the channels
and the user comments that the Vorbis header parser takes from it), what `th_decode_packetin`
returns for it and the granule position it reports, what `vorbis_synthesis` returns for it and
the PCM frames `vorbis_synthesis_blockin` then makes available. -/
structure ogg_packet where
  granulepos : Int
  th_decode_headerin : Int
  vorbis_synthesis_headerin : Int
  rate : Int
  channels : Int
  user_comments : List CppString
  th_decode_packetin : Int
  th_granulepos : Int
  vorbis_synthesis : Int
  pcm : List (List ℚ)

/-- One answer of `ogg_stream_packetout` other than "no packet yet": a hole in the data (the call
returns `-1`) or a packet (the call returns `1`). -/
inductive PacketOut where
  | hole
  | packet (op : ogg_packet)

/-- An `ogg_page`: serial number, granule position, the begin and end of stream flags, and the
packets (and holes) the page completes in its logical stream. -/
structure ogg_page where
  serialno : Int
  granulepos : Int
  bos : Bool
  eos : Bool
  packets : List PacketOut

/-- An `ogg_stream_state`: the serial number of the logical stream and what
`ogg_stream_packetout` is still to hand out. -/
structure ogg_stream_state where
  serialno : Int
  packets : List PacketOut

/-- The libogg call `ogg_stream_pagein`: a stream only accepts the pages that carry its serial
number. -/
def ogg_stream_pagein (os : ogg_stream_state) (og : ogg_page) : ogg_stream_state :=
  if og.serialno = os.serialno then { os with packets := os.packets ++ og.packets } else os

/-- The libogg call `ogg_stream_packetout`: the answer and the stream afterwards.  The call
returns `0` when no packet is complete yet (`none`), `-1` on a hole, which is reported once and
skipped, and `1` with a packet. -/
def ogg_stream_packetout (os : ogg_stream_state) : Option PacketOut × ogg_stream_state :=
  match os.packets with
  | [] => (none, os)
  | answer :: rest => (some answer, { os with packets := rest })

/-- The libogg call `ogg_stream_reset`. -/
def ogg_stream_reset (os : ogg_stream_state) : ogg_stream_state := { os with packets := [] }

/-- One answer of `ogg_sync_pageout` other than "need more data": bytes were skipped to regain
sync (the call returns `-1`) or a page (the call returns `1`). -/
inductive SyncOut where
  | unsynced
  | page (og : ogg_page)

/-- The `ogg_sync_state`: what `ogg_sync_pageout` is still to hand out from the bytes written so
far. -/
abbrev ogg_sync_state := List SyncOut

/-- The libogg call `ogg_sync_pageout`: the answer and the sync state afterwards.  The call
returns `0` when more data is needed (`none`), `-1` when bytes were skipped, and `1` with a
page. -/
def ogg_sync_pageout (oy : ogg_sync_state) : Option SyncOut × ogg_sync_state :=
  match oy with
  | [] => (none, [])
  | answer :: rest => (some answer, rest)

/-- The outcome of one `DataSource::read` call: the number of bytes read (`0` = exhaustion) and
what the sync layer can hand out once these bytes are written to it. -/
structure ReadResult where
  bytesRead : Nat
  synced : List SyncOut

/-- Modelled from the spec: the `DataSource` is an interface outside the sources at hand, with
`read` (`0` bytes = exhaustion), `seek` and `size`.  It is its size, the offsets it was asked to
seek to (latest first), and the outcomes of its future `read` calls; once the list is used up
every `read` returns `0`. -/
structure DataSource where
  size : Nat
  seeks : List Nat
  reads : List ReadResult

/-- The libogg call `ogg_sync_wrote` after a `read`: the bytes read become available to
`ogg_sync_pageout`. -/
def ogg_sync_wrote (oy : ogg_sync_state) (r : ReadResult) : ogg_sync_state :=
  if r.bytesRead = 0 then oy else oy ++ r.synced

/-- The call `DataSource::seek`. -/
def DataSource.seek (ds : DataSource) (offset : Nat) : DataSource :=
  { ds with seeks := offset :: ds.seeks }

/-! ## VideoClip_Theora.cpp: audio stream selection -/

/-- The function `findlanguage` (VideoClip_Theora.cpp, lines 669-677): the text after
`LANGUAGE=` in the first user comment that starts with it, the empty string when there is
none. -/
def findlanguage : List CppString → CppString
  | [] => []
  | comment :: rest =>
    if comment.take 9 = "LANGUAGE=".toList then comment.drop 9 else findlanguage rest

/-- The `TheoraVorbisInfoStruct` of a candidate audio stream: its stream state, the user comments
of its `VorbisComment`, the `rate` and `channels` of its `VorbisInfo`, the PCM frames its
`VorbisDSPState` holds ready for `vorbis_synthesis_pcmout`, `streamOrder` (assigned from
`audioStreams.size()`, hence a natural number) and `vorbisHeaders`. -/
structure TheoraVorbisInfoStruct where
  VorbisStreamState : ogg_stream_state
  VorbisComment : List CppString
  rate : Int
  channels : Int
  VorbisDSPState : List (List ℚ)
  streamOrder : Nat
  vorbisHeaders : Int

/-- The variables of the selection loop of `_readTheoraVorbisHeaders`: `info.VorbisData`,
`matchOrder` and `curLangMatch`. -/
structure Selection where
  VorbisData : Option TheoraVorbisInfoStruct
  matchOrder : Int
  curLangMatch : AudioLanguageMatch

/-- The score `chk` the selection loop gives a candidate (lines 847-852). -/
def languageScore (langPref : CppString) (cand : TheoraVorbisInfoStruct) : AudioLanguageMatch :=
  if ¬ langPref.isEmpty then checklanguage langPref (findlanguage cand.VorbisComment)
  else LANGUAGE_MATCH_NONE

/-- The body of the selection loop (lines 847-861) for one entry of `audioStreams`. -/
def selectStep (langPref : CppString) (sel : Selection) (cand : TheoraVorbisInfoStruct) :
    Selection :=
  let chk := languageScore langPref cand
  if sel.curLangMatch.toNat < chk.toNat ∨
      (sel.curLangMatch = chk ∧ sel.matchOrder < (cand.streamOrder : Int)) then
    { VorbisData := some cand, matchOrder := (cand.streamOrder : Int), curLangMatch := chk }
  else sel

/-- The selection loop of `_readTheoraVorbisHeaders` (lines 839-862) over the entries of
`audioStreams` in the order the map enumerates them, from `info.VorbisData = NULL`,
`matchOrder = -1` and `curLangMatch = LANGUAGE_MATCH_NONE`. -/
def selectAudioStream (langPref : CppString) (audioStreams : List (Int × TheoraVorbisInfoStruct)) :
    Selection :=
  audioStreams.foldl (fun sel entry => selectStep langPref sel entry.2)
    { VorbisData := none, matchOrder := -1, curLangMatch := LANGUAGE_MATCH_NONE }

/-- The pair (match strength, insertion order) of a candidate, in the lexicographic order. -/
def selectionKey (langPref : CppString) (cand : TheoraVorbisInfoStruct) : ℕ ×ₗ ℤ :=
  toLex ((languageScore langPref cand).toNat, (cand.streamOrder : Int))

/-- The pair (`curLangMatch`, `matchOrder`) of the selection loop, in the lexicographic order. -/
def Selection.key (sel : Selection) : ℕ ×ₗ ℤ := toLex (sel.curLangMatch.toNat, sel.matchOrder)

/-- The state of the selection loop before the first entry. -/
def Selection.init : Selection :=
  { VorbisData := none, matchOrder := -1, curLangMatch := LANGUAGE_MATCH_NONE }

/-- A candidate stream with the given user comments and insertion order, for the examples. -/
def candidateOf (serialno : Int) (comments : List CppString) (order : Nat) :
    TheoraVorbisInfoStruct :=
  { VorbisStreamState := { serialno := serialno, packets := [] }
    VorbisComment := comments
    rate := 44100
    channels := 2
    VorbisDSPState := []
    streamOrder := order
    vorbisHeaders := 3 }

/-! ## VideoClip_Theora.cpp: the clip -/

/-- Modelled from the spec: the presentation clock (`Timer`) is an interface outside the sources
at hand, with `now`, `pause`, `play`, `paused` and `seek`.  It is its time and its paused
flag. -/
structure Timer where
  time : ℚ
  paused : Bool

/-- Modelled from the spec: the frame slot (`VideoFrame`) is declared outside the sources at hand.
The spec gives it a time-to-display, a frame number, an iteration tag and an in-use flag, and the
frame queue commits ("publishes") a slot once it is decoded; `ready` is that commit. -/
structure VideoFrame where
  timeToDisplay : ℚ
  iteration : Int
  frameNumber : Int
  inUse : Bool
  ready : Bool

/-- Modelled from the spec: an audio packet owns its PCM samples and a sample count. -/
structure AudioPacket where
  pcmData : List ℚ
  samplesCount : Int

/-- The fields of `th_info` the clip reads. -/
structure th_info where
  version_major : Int
  version_minor : Int
  version_subminor : Int
  keyframe_granule_shift : Nat

/-- The decoder handle: the granule position last written through
`th_decode_ctl(TH_DECCTL_SET_GRANPOS)` since the handle was allocated. -/
structure th_dec_ctx where
  granpos : Option Int

/-- The member `info` (`TheoraInfoStruct`): the container state, the video stream and the
retained audio stream.  `th_granule_frame`, `th_granule_time` and `vorbis_granule_time` are the
granule conversions of the codec libraries for this stream. -/
structure TheoraInfoStruct where
  OggSyncState : ogg_sync_state
  TheoraStreamState : ogg_stream_state
  TheoraInfo : th_info
  TheoraDecoder : th_dec_ctx
  VorbisData : Option TheoraVorbisInfoStruct
  th_granule_frame : Int → Int
  th_granule_time : Int → ℚ
  vorbis_granule_time : Int → ℚ

/-- The fields of `VideoClip_Theora` (and of its base classes) that the embedded member functions
read or write.  `audioInterface` tells whether the pointer is non-null; `iteration` and
`droppedFramesCount` are C++ `int` counters, taken without a width; `lastDecodedFrameNumber` is
an `unsigned long`, `readAudioSamples` an `unsigned int`. -/
structure Clip where
  name : String
  log : List String
  stream : DataSource
  timer : Timer
  frameQueue : List VideoFrame
  audioPacketQueue : List AudioPacket
  audioInterface : Bool
  info : TheoraInfoStruct
  theoraStreams : Int
  endOfFile : Bool
  restarted : Bool
  autoRestart : Bool
  iteration : Int
  seekFrame : Int
  droppedFramesCount : Int
  lastDecodedFrameNumber : Nat
  readAudioSamples : Nat
  fps : ℚ
  frameDuration : ℚ
  audioFrequency : Int
  audioChannelsCount : Int
  audioGain : ℚ

/-- The constant `TH_DUPFRAME` of libtheora. -/
def TH_DUPFRAME : Int := 1

/-- Conversion to `unsigned long` (64 bits). -/
def toUnsignedLong (z : Int) : Nat := (z % 2 ^ 64).toNat

/-- Conversion to `unsigned int` (32 bits). -/
def toUnsignedInt (z : Int) : Nat := (z % 2 ^ 32).toNat

/-- Conversion of a `float` to `int`: truncation towards zero. -/
def truncToInt (q : ℚ) : Int := if 0 ≤ q then ⌊q⌋ else ⌈q⌉

/-- The result of one pass through a loop body: go round again, or leave the loop. -/
inductive LoopStep (σ τ : Type) where
  | next (s : σ)
  | leave (r : τ)

/-! ### `_readData` (lines 195-241) -/

/-- The body of the page loop of `_readData` (lines 226-237) for the page `og`: the page goes to
the video stream and to the retained audio stream by serial number.  `audioEos` and `audioTime`
are the locals. -/
def readDataPage (og : ogg_page) (st : Clip) (audioEos : Int) (audioTime : ℚ) :
    Clip × Int × ℚ :=
  let serno := og.serialno
  let st : Clip :=
    if serno = st.info.TheoraStreamState.serialno then
      { st with info.TheoraStreamState := ogg_stream_pagein st.info.TheoraStreamState og }
    else st
  match st.info.VorbisData with
  | some vorbis =>
    if st.audioInterface ∧ serno = vorbis.VorbisStreamState.serialno then
      let granule := og.granulepos
      let audioTime := st.info.vorbis_granule_time granule
      let audioEos : Int := if og.eos then 1 else 0
      let vorbis : TheoraVorbisInfoStruct :=
        { vorbis with VorbisStreamState := ogg_stream_pagein vorbis.VorbisStreamState og }
      ({ st with info.VorbisData := some vorbis }, audioEos, audioTime)
    else (st, audioEos, audioTime)
  | none => (st, audioEos, audioTime)

/-- The page loop of `_readData` (lines 224-238) over what `ogg_sync_pageout` hands out: it stops
when the call does not return a positive value. -/
def readDataPages : List SyncOut → Clip → Int → ℚ → Clip × Int × ℚ
  | [], st, audioEos, audioTime =>
    ({ st with info.OggSyncState := [] }, audioEos, audioTime)
  | SyncOut.unsynced :: rest, st, audioEos, audioTime =>
    ({ st with info.OggSyncState := rest }, audioEos, audioTime)
  | SyncOut.page og :: rest, st, audioEos, audioTime =>
    match readDataPage og st audioEos audioTime with
    | (st, audioEos, audioTime) => readDataPages rest st audioEos audioTime

/-- What `_readData` does when `read` returns no bytes (lines 213-221): `endOfFile` is set unless
`autoRestart` is on. -/
def readDataExhausted (st : Clip) : Clip :=
  if ¬ st.autoRestart then
    { st with endOfFile := true, log := (st.name ++ " finished playing") :: st.log }
  else st

/-- The `do ... while` loop of `_readData` (lines 208-239) over the outcomes of the `read` calls
to come. -/
def readDataRounds (time : ℚ) : List ReadResult → Clip → Int → ℚ → Clip × Bool
  | [], st, _, _ => (readDataExhausted { st with stream.reads := [] }, false)
  | r :: rest, st, audioEos, audioTime =>
    let st : Clip :=
      { st with stream.reads := rest
                info.OggSyncState := ogg_sync_wrote st.info.OggSyncState r }
    if r.bytesRead = 0 then (readDataExhausted st, false)
    else
      match readDataPages st.info.OggSyncState st audioEos audioTime with
      | (st, audioEos, audioTime) =>
        if st.audioInterface ∧ st.info.VorbisData.isSome ∧ audioEos = 0 ∧
            audioTime < time + 1 then
          readDataRounds time rest st audioEos audioTime
        else (st, true)

/-- The member function `_readData` (lines 195-241): the clip afterwards and the return value. -/
def readData (st : Clip) : Clip × Bool :=
  let time := if st.restarted then 0 else st.timer.time
  readDataRounds time st.stream.reads st 0 0

/-! ### The frame queue and the audio packet queue -/

/-- Modelled from the spec: `FrameQueue::requestEmptyFrame` is outside the sources at hand.  The
spec's request-empty returns a writable slot, or nothing if the queue is full: the first slot
that is not in use is marked in use and not ready; the answer is its index and the queue
afterwards. -/
def requestEmptyFrame : List VideoFrame → Option (Nat × List VideoFrame)
  | [] => none
  | frame :: rest =>
    if ¬ frame.inUse then some (0, { frame with inUse := true, ready := false } :: rest)
    else
      match requestEmptyFrame rest with
      | some (index, rest) => some (index + 1, frame :: rest)
      | none => none

/-- Write access to the slot a `VideoFrame*` points to. -/
def updateFrame (f : VideoFrame → VideoFrame) : Nat → List VideoFrame → List VideoFrame
  | _, [] => []
  | 0, frame :: rest => f frame :: rest
  | index + 1, frame :: rest => frame :: updateFrame f index rest

/-- Modelled from the spec: `_resetFrameQueue` (reset-all) clears the in-use flag of every slot. -/
def resetFrameQueue (queue : List VideoFrame) : List VideoFrame :=
  queue.map (fun frame => { frame with inUse := false, ready := false })

/-- Modelled from the spec: `addAudioPacket` is outside the sources at hand.  The spec enqueues
the ready frames as one audio packet, applying `audioGain` channel-wise; the packet holds the
interleaved samples and counts `length * audioChannelsCount` of them. -/
def addAudioPacket (st : Clip) (pcm : List (List ℚ)) (length : Int) (gain : ℚ) : Clip :=
  { st with audioPacketQueue := st.audioPacketQueue ++
      [{ pcmData := (pcm.map (fun frame => frame.map (fun sample => sample * gain))).flatten
         samplesCount := length * st.audioChannelsCount }] }

/-- Modelled from the spec: `getAudioPacketQueueLength`, the length of the audio queue in
seconds, is the number of queued samples over `audioFrequency * audioChannelsCount`. -/
def getAudioPacketQueueLength (st : Clip) : ℚ :=
  (((st.audioPacketQueue.map (fun packet => packet.samplesCount)).sum : Int) : ℚ) /
    (((st.audioFrequency * st.audioChannelsCount : Int)) : ℚ)

/-! ### `_decodeAudio` (lines 322-377) -/

/-- The end of a pass through the loop of `_decodeAudio` in which no audio packet was available
(lines 358-363): the loop is left when enough audio is buffered ahead of the video or when
`_readData` fails. -/
def decodeAudioStarved (st : Clip) (timeStamp : ℚ) (readPastTimestamp : Bool) :
    LoopStep (Clip × ℚ × Bool) (Clip × ℚ) :=
  let factor : ℚ := 1 / (st.audioFrequency : ℚ)
  let videoTime : ℚ := (st.lastDecodedFrameNumber : ℚ) / st.fps
  let min : ℚ := (st.frameQueue.length : ℚ) / st.fps + 1
  let audioTime : ℚ := (st.readAudioSamples : ℚ) * factor
  if audioTime - videoTime ≥ min then LoopStep.leave (st, timeStamp)
  else
    match readData st with
    | (st, false) => LoopStep.leave (st, timeStamp)
    | (st, true) => LoopStep.next (st, timeStamp, readPastTimestamp)

/-- One pass through the `while (true)` loop of `_decodeAudio` (lines 339-374); `timeStamp` and
`readPastTimestamp` are the locals, the answer on leaving is the clip and `timeStamp`.  The source
dereferences `info.VorbisData` without a test: with a null pointer the embedding leaves the
loop. -/
def decodeAudioBody (st : Clip) (timeStamp : ℚ) (readPastTimestamp : Bool) :
    LoopStep (Clip × ℚ × Bool) (Clip × ℚ) :=
  match st.info.VorbisData with
  | none => LoopStep.leave (st, timeStamp)
  | some vorbis =>
    let pcm := vorbis.VorbisDSPState
    let length : Int := pcm.length
    if length = 0 then
      match ogg_stream_packetout vorbis.VorbisStreamState with
      | (some (PacketOut.packet opVorbis), os) =>
        if opVorbis.vorbis_synthesis = 0 then
          let timeStamp' : ℚ :=
            if timeStamp < 0 ∧ opVorbis.granulepos ≥ 0 then
              st.info.vorbis_granule_time opVorbis.granulepos
            else timeStamp
          let readPastTimestamp' : Bool :=
            if timeStamp < 0 ∧ opVorbis.granulepos ≥ 0 then readPastTimestamp
            else if timeStamp ≥ 0 then true
            else readPastTimestamp
          let vorbis : TheoraVorbisInfoStruct :=
            { vorbis with VorbisStreamState := os
                          VorbisDSPState := vorbis.VorbisDSPState ++ opVorbis.pcm }
          LoopStep.next ({ st with info.VorbisData := some vorbis }, timeStamp', readPastTimestamp')
        else
          let vorbis : TheoraVorbisInfoStruct := { vorbis with VorbisStreamState := os }
          LoopStep.next ({ st with info.VorbisData := some vorbis }, timeStamp, readPastTimestamp)
      | (_, os) =>
        let vorbis : TheoraVorbisInfoStruct := { vorbis with VorbisStreamState := os }
        decodeAudioStarved { st with info.VorbisData := some vorbis } timeStamp readPastTimestamp
    else
      let st := addAudioPacket st pcm length st.audioGain
      let st : Clip := { st with readAudioSamples := toUnsignedInt (st.readAudioSamples + length) }
      let timeStamp : ℚ :=
        if readPastTimestamp then timeStamp + (length : ℚ) / (vorbis.rate : ℚ) else timeStamp
      let vorbis : TheoraVorbisInfoStruct := { vorbis with VorbisDSPState := [] }
      LoopStep.next ({ st with info.VorbisData := some vorbis }, timeStamp, readPastTimestamp)

/-- The `while (true)` loop of `_decodeAudio`, for at most `fuel` passes. -/
def decodeAudioLoop : Nat → Clip → ℚ → Bool → Option (Clip × ℚ)
  | 0, _, _, _ => none
  | fuel + 1, st, timeStamp, readPastTimestamp =>
    match decodeAudioBody st timeStamp readPastTimestamp with
    | LoopStep.next (st, timeStamp, readPastTimestamp) =>
      decodeAudioLoop fuel st timeStamp readPastTimestamp
    | LoopStep.leave result => some result

/-- The member function `_decodeAudio` (lines 322-377): the clip afterwards and the returned
`timeStamp`; `none` when the loop is not left within `fuel` passes. -/
def decodeAudio (fuel : Nat) (st : Clip) : Option (Clip × ℚ) :=
  if st.restarted then some (st, -1)
  else decodeAudioLoop fuel st (-1) false

/-! ### `_executeRestart` (lines 554-590) -/

/-- The loop of `_executeRestart` that empties the audio stream into the synthesizer (lines
571-577): it runs while `ogg_stream_packetout` returns a positive value. -/
def restartDrain : List PacketOut → List (List ℚ) → List PacketOut × List (List ℚ)
  | [], dsp => ([], dsp)
  | PacketOut.hole :: rest, dsp => (rest, dsp)
  | PacketOut.packet opVorbis :: rest, dsp =>
    if opVorbis.vorbis_synthesis = 0 then restartDrain rest (dsp ++ opVorbis.pcm)
    else restartDrain rest dsp

/-- The member function `_executeRestart` (lines 554-590). -/
def executeRestart (st : Clip) : Clip :=
  let paused := st.timer.paused
  let st : Clip := if ¬ paused then { st with timer.paused := true } else st
  -- the decoder is freed and allocated anew, the video stream reset
  let st : Clip :=
    { st with info.TheoraDecoder := { granpos := none }
              info.TheoraStreamState := ogg_stream_reset st.info.TheoraStreamState }
  let st : Clip :=
    if st.audioInterface then
      match st.info.VorbisData with
      | some vorbis =>
        match restartDrain vorbis.VorbisStreamState.packets vorbis.VorbisDSPState with
        | (packets, dsp) =>
          let os : ogg_stream_state := { vorbis.VorbisStreamState with packets := packets }
          let vorbis : TheoraVorbisInfoStruct :=
            { vorbis with VorbisStreamState := ogg_stream_reset os, VorbisDSPState := dsp }
          { st with readAudioSamples := 0, info.VorbisData := some vorbis }
      | none => { st with readAudioSamples := 0 }
    else st
  let st : Clip :=
    { st with info.OggSyncState := []
              stream := st.stream.seek 0
              info.TheoraDecoder := { granpos := some 0 }
              endOfFile := false
              restarted := true }
  if ¬ paused then { st with timer.paused := false } else st

/-! ### `_decodeNextFrame` (lines 243-320) -/

/-- The retry loop around `ogg_stream_packetout` (lines 267-270): the call is repeated while it
returns a negative value, `attempts` times at most; with no attempt left the result is the
negative one. -/
def packetoutAttempts : Nat → ogg_stream_state → Option PacketOut × ogg_stream_state
  | 0, os => (some PacketOut.hole, os)
  | attempts + 1, os =>
    match ogg_stream_packetout os with
    | (some PacketOut.hole, os) => packetoutAttempts attempts os
    | answer => answer

/-- The statements of `_decodeNextFrame` that stamp and publish the frame slot (lines 289-299).
The call `frame->decode` of line 299 is outside the sources at hand; modelled from the spec, it
commits the slot, which is then ready for the consumer. -/
def publishFrame (st : Clip) (frame : Nat) (time : ℚ) (frameNumber : Nat) : Clip :=
  { st with
    frameQueue := updateFrame (fun slot =>
      { slot with timeToDisplay := time - st.frameDuration
                  iteration := st.iteration
                  frameNumber := wrapInt32 frameNumber
                  ready := true }) frame st.frameQueue
    lastDecodedFrameNumber := frameNumber }

/-- One pass through the `while (true)` loop of `_decodeNextFrame` (lines 263-308) for the frame
slot `frame`; on leaving, the answer is the clip and `shouldRestart`. -/
def decodeNextFrameBody (frame : Nat) (st : Clip) : LoopStep Clip (Clip × Bool) :=
  match packetoutAttempts 100 st.info.TheoraStreamState with
  | (some (PacketOut.packet opTheora), os) =>
    let st : Clip := { st with info.TheoraStreamState := os }
    let status := opTheora.th_decode_packetin
    let granulePos := opTheora.th_granulepos
    if status ≠ 0 ∧ status ≠ TH_DUPFRAME then LoopStep.next st
    else
      let time : ℚ := st.info.th_granule_time granulePos
      let frameNumber : Nat := toUnsignedLong (st.info.th_granule_frame granulePos)
      if time < st.timer.time ∧ ¬ st.restarted ∧ frameNumber % 16 ≠ 0 then
        LoopStep.next { st with droppedFramesCount := st.droppedFramesCount + 1 }
      else LoopStep.leave (publishFrame st frame time frameNumber, false)
  | (_, os) =>
    let st : Clip := { st with info.TheoraStreamState := os }
    match readData st with
    | (st, false) =>
      LoopStep.leave
        ({ st with frameQueue :=
            updateFrame (fun slot => { slot with inUse := false }) frame st.frameQueue },
          st.autoRestart)
    | (st, true) => LoopStep.next st

/-- The `while (true)` loop of `_decodeNextFrame`, for at most `fuel` passes. -/
def decodeNextFrameLoop (frame : Nat) : Nat → Clip → Option (Clip × Bool)
  | 0, _ => none
  | fuel + 1, st =>
    match decodeNextFrameBody frame st with
    | LoopStep.next st => decodeNextFrameLoop frame fuel st
    | LoopStep.leave result => some result

/-- The member function `_decodeNextFrame` (lines 243-320): the clip afterwards and the return
value; `none` when one of its loops is not left within `fuel` passes. -/
def decodeNextFrame (fuel : Nat) (st : Clip) : Option (Clip × Bool) :=
  if st.endOfFile then some (st, false)
  else
    match requestEmptyFrame st.frameQueue with
    | none => some (st, false)
    | some (frame, queue) =>
      match decodeNextFrameLoop frame fuel { st with frameQueue := queue } with
      | none => none
      | some (st, shouldRestart) =>
        let afterAudio : Option Clip :=
          if st.audioInterface then (decodeAudio fuel st).map (fun result => result.1)
          else some st
        match afterAudio with
        | none => none
        | some st =>
          if shouldRestart then
            some (executeRestart { st with iteration := st.iteration + 1 }, true)
          else some (st, true)

/-- Whether the loop of `_decodeNextFrame` is left, within `fuel` passes, through the failure of
`_readData` (lines 302-307) rather than with a decoded frame (line 300): the data source is
exhausted before any frame is decoded. -/
def frameLoopExhausted (frame : Nat) : Nat → Clip → Bool
  | 0, _ => false
  | fuel + 1, st =>
    match decodeNextFrameBody frame st with
    | LoopStep.next st => frameLoopExhausted frame fuel st
    | LoopStep.leave _ =>
      match packetoutAttempts 100 st.info.TheoraStreamState with
      | (some (PacketOut.packet _), _) => false
      | _ => true

/-- The fields of the clip that neither `_readData`, nor `_decodeAudio`, nor `_seekPage`, nor the
fine seek loop writes: `seekFrame`, `audioInterface`, `lastDecodedFrameNumber`, `iteration`,
`autoRestart`, `restarted` and the frame queue. -/
@[reducible]
def Clip.bookkeeping (st : Clip) : Int × Bool × Nat × Int × Bool × Bool × List VideoFrame :=
  (st.seekFrame, st.audioInterface, st.lastDecodedFrameNumber, st.iteration, st.autoRestart,
    st.restarted, st.frameQueue)

/-- The clip `st'` comes from `st` by steps that leave the bookkeeping fields as they are and do
not clear `endOfFile`. -/
def Clip.keptBy (st st' : Clip) : Prop :=
  st'.bookkeeping = st.bookkeeping ∧ (st.endOfFile = true → st'.endOfFile = true)

/-! ### `_seekPage` (lines 592-667) -/

/-- The locals `seekMin`, `seekMax`, `frame` and `granule` of `_seekPage`. -/
structure SeekPageLocals where
  seekMin : Nat
  seekMax : Nat
  frame : Int
  granule : Int

/-- The inner `while (i < 1000)` loop of `_seekPage` (lines 612-651), for at most `fuel` passes.
The flag of the answer tells whether the loop was left through `i = 1000`, the target being
close enough. -/
def seekPageProbe (targetFrame : Int) :
    Nat → Clip → SeekPageLocals → Option (Clip × SeekPageLocals × Bool)
  | 0, _, _ => none
  | fuel + 1, st, loc =>
    match ogg_sync_pageout st.info.OggSyncState with
    | (some (SyncOut.page og), oy) =>
      let st : Clip := { st with info.OggSyncState := oy }
      if og.serialno = st.info.TheoraStreamState.serialno then
        let granule := og.granulepos
        let loc : SeekPageLocals := { loc with granule := granule }
        if granule ≥ 0 then
          let frame := st.info.th_granule_frame granule
          let loc : SeekPageLocals := { loc with frame := frame }
          if frame < targetFrame ∧ targetFrame - frame < 10 then some (st, loc, true)
          else if targetFrame - 1 > frame then
            some (st, { loc with seekMin := loc.seekMin / 2 + loc.seekMax / 2 }, false)
          else
            some (st, { loc with seekMax := loc.seekMin / 2 + loc.seekMax / 2 }, false)
        else seekPageProbe targetFrame fuel st loc
      else seekPageProbe targetFrame fuel st loc
    | (_, oy) =>
      let st : Clip := { st with info.OggSyncState := oy }
      match st.stream.reads with
      | [] => some (st, loc, false)
      | r :: rest =>
        let st : Clip := { st with stream.reads := rest }
        if r.bytesRead = 0 then some (st, loc, false)
        else
          seekPageProbe targetFrame fuel
            { st with info.OggSyncState := ogg_sync_wrote st.info.OggSyncState r } loc

/-- The `for` loop of `_seekPage` (lines 606-652) with `remaining` iterations to go: every
iteration resets the sync state and seeks the data source to `seekMin / 2 + seekMax / 2`. -/
def seekPageFor (targetFrame : Int) (fuel : Nat) :
    Nat → Clip → SeekPageLocals → Option (Clip × SeekPageLocals)
  | 0, st, loc => some (st, loc)
  | remaining + 1, st, loc =>
    let st : Clip :=
      { st with info.OggSyncState := []
                stream := st.stream.seek (loc.seekMin / 2 + loc.seekMax / 2) }
    match seekPageProbe targetFrame fuel st loc with
    | none => none
    | some (st, loc, true) => some (st, loc)
    | some (st, loc, false) => seekPageFor targetFrame fuel remaining st loc

/-- The member function `_seekPage` (lines 592-667): the clip afterwards and the return value;
`none` when a probe is not finished within `fuel` passes. -/
def seekPage (fuel : Nat) (st : Clip) (targetFrame : Int) (returnKeyFrame : Bool) :
    Option (Clip × Int) :=
  let loc : SeekPageLocals :=
    { seekMin := 0, seekMax := st.stream.size, frame := 0, granule := 0 }
  let st : Clip := if targetFrame = 0 then { st with stream := st.stream.seek 0 } else st
  let searched : Option (Clip × SeekPageLocals) :=
    if targetFrame ≠ 0 then seekPageFor targetFrame fuel 100 st loc else some (st, loc)
  match searched with
  | none => none
  | some (st, loc) =>
    if returnKeyFrame then
      some (st, loc.granule >>> st.info.TheoraInfo.keyframe_granule_shift)
    else
      let st : Clip := { st with info.OggSyncState := [] }
      if targetFrame = 0 then some (st, -1)
      else
        some ({ st with stream := st.stream.seek ((loc.seekMin + loc.seekMax) % 2 ^ 64 / 2) }, -1)

/-- What it is for a run of probes to follow the bounds of the binary search, in a stream of
`size` bytes.  The offsets `probes` are in the order in which they were sought; `lo` and `hi` are
the bounds before the first of them, `lo'` and `hi'` the bounds after the last.  Both bounds are
within the stream, every probe goes to `lo / 2 + hi / 2` of the bounds current at that probe, and
a probe leaves the bounds as they are, sets `lo` to its offset, or sets `hi` to its offset. -/
def probesFollowBounds (size : Nat) : Nat → Nat → List Nat → Nat → Nat → Prop
  | lo, hi, [], lo', hi' => lo ≤ size ∧ hi ≤ size ∧ lo' = lo ∧ hi' = hi
  | lo, hi, offset :: rest, lo', hi' =>
    lo ≤ size ∧ hi ≤ size ∧ offset = lo / 2 + hi / 2 ∧
      (probesFollowBounds size lo hi rest lo' hi' ∨
        probesFollowBounds size offset hi rest lo' hi' ∨
        probesFollowBounds size lo offset rest lo' hi')

/-! ### `_executeSeek` (lines 387-552) -/

/-- How a run of `_executeSeek` ends: it returns, it is still in one of its loops after `fuel`
passes, or it reads outside an array (undefined behaviour). -/
inductive Outcome (α : Type) where
  | returned (value : α)
  | outOfFuel
  | undefinedBehaviour

/-- The clip a run ends with when it returns. -/
def Outcome.returnedClip : Outcome Clip → Option Clip
  | Outcome.returned st => some st
  | _ => none

/-- How the fine seek loop of `_executeSeek` ends: the loop is left with the current `frame`, or
`_readData` failed and `_executeSeek` returns at line 472. -/
inductive FineSeek where
  | reached (st : Clip) (frame : Int)
  | failed (st : Clip)

/-- One pass through the fine seek loop `while (seekFrame != 0)` of `_executeSeek` (lines
444-474); `granuleSet` and `frame` are the locals. -/
def fineSeekBody (st : Clip) (granuleSet : Bool) (frame : Int) :
    LoopStep (Clip × Bool × Int) FineSeek :=
  if st.seekFrame ≠ 0 then
    match ogg_stream_packetout st.info.TheoraStreamState with
    | (some (PacketOut.packet opTheora), os) =>
      let st : Clip := { st with info.TheoraStreamState := os }
      if ¬ granuleSet ∧ opTheora.granulepos < 0 then LoopStep.next (st, granuleSet, frame)
      else
        let st : Clip :=
          if ¬ granuleSet then
            { st with info.TheoraDecoder := { granpos := some opTheora.granulepos } }
          else st
        let status := opTheora.th_decode_packetin
        if status ≠ 0 ∧ status ≠ TH_DUPFRAME then LoopStep.next (st, true, frame)
        else
          let frame := wrapInt32 (st.info.th_granule_frame opTheora.th_granulepos)
          if frame ≥ st.seekFrame - 1 then LoopStep.leave (FineSeek.reached st frame)
          else LoopStep.next (st, true, frame)
    | (_, os) =>
      match readData { st with info.TheoraStreamState := os } with
      | (st, false) =>
        LoopStep.leave (FineSeek.failed
          { st with
            log := (st.name ++ " [seek]: fineseeking failed, _readData failed!") :: st.log })
      | (st, true) => LoopStep.next (st, granuleSet, frame)
  else LoopStep.leave (FineSeek.reached st frame)

/-- The fine seek loop of `_executeSeek`, for at most `fuel` passes. -/
def fineSeekLoop : Nat → Clip → Bool → Int → Option FineSeek
  | 0, _, _, _ => none
  | fuel + 1, st, granuleSet, frame =>
    match fineSeekBody st granuleSet frame with
    | LoopStep.next (st, granuleSet, frame) => fineSeekLoop fuel st granuleSet frame
    | LoopStep.leave result => some result

/-- The loop of `_executeSeek` that reads audio until `_decodeAudio` returns a time stamp (lines
483-491), for at most `rounds` passes. -/
def seekAudioWait (fuel : Nat) : Nat → Clip → Option (Clip × ℚ)
  | 0, _ => none
  | rounds + 1, st =>
    match decodeAudio fuel st with
    | none => none
    | some (st, timeStamp) =>
      if timeStamp ≥ 0 then some (st, timeStamp)
      else seekAudioWait fuel rounds (readData st).1

/-- The read `pcmData[k]` of an array of `float`: `none` outside the array. -/
def readAt (pcmData : List ℚ) (k : Int) : Option ℚ :=
  if 0 ≤ k then pcmData[k.toNat]? else none

/-- The write `pcmData[k] = x` of an array of `float`: `none` outside the array. -/
def writeAt (pcmData : List ℚ) (k : Int) (x : ℚ) : Option (List ℚ) :=
  if 0 ≤ k ∧ k.toNat < pcmData.length then some (pcmData.set k.toNat x) else none

/-- The copy loop `for (...; i < bound; ++i, ++j) target[j] = source[i]` shared by the two
branches of the audio re-alignment, with `count` passes to go; `inPlace` tells that `source` and
`target` are the same array (line 512), so that a write is seen by the later reads. -/
def copyLoop (inPlace : Bool) : Nat → Int → Int → List ℚ → List ℚ → Option (List ℚ)
  | 0, _, _, _, target => some target
  | count + 1, readIndex, writeIndex, source, target =>
    match readAt source readIndex with
    | none => none
    | some x =>
      match writeAt target writeIndex x with
      | none => none
      | some target =>
        copyLoop inPlace count (readIndex + 1) (writeIndex + 1)
          (if inPlace then target else source) target

/-- The trimming branch of the audio re-alignment (the loop of lines 499-520) over the audio
packet queue; `none` when the copy loop of lines 510-513 leaves its array. -/
def seekTrimQueue (time timeStamp rate : ℚ) : List AudioPacket → ℚ → Option (List AudioPacket)
  | [], _ => some []
  | head :: rest, queuedTime =>
    if time ≤ timeStamp - queuedTime + (head.samplesCount : ℚ) / rate then
      let trimmedCount : Int :=
        truncToInt ((timeStamp - queuedTime + (head.samplesCount : ℚ) / rate - time) * rate)
      if head.samplesCount - trimmedCount ≤ 0 then some rest
      else
        match copyLoop true (head.samplesCount - trimmedCount).toNat trimmedCount 0
            head.pcmData head.pcmData with
        | none => none
        | some pcmData =>
          some ({ pcmData := pcmData, samplesCount := head.samplesCount - trimmedCount } :: rest)
    else seekTrimQueue time timeStamp rate rest (queuedTime - (head.samplesCount : ℚ) / rate)

/-- The silence branch of the audio re-alignment (lines 523-542) on the audio packet queue: the
new array of `missingCount + samplesCount` samples starts with `missingCount` zeros, and the copy
loop of lines 535-538 runs with `i` and `j` both from `0`; `none` when the copy loop leaves an
array. -/
def seekPadQueue (time timeStamp rate queuedTime : ℚ) : List AudioPacket →
    Option (List AudioPacket)
  | [] => some []
  | head :: rest =>
    let missingCount : Int := truncToInt ((timeStamp - queuedTime - time) * rate)
    if missingCount > 0 then
      let samples : List ℚ := List.replicate (missingCount + head.samplesCount).toNat 0
      match copyLoop false (missingCount + head.samplesCount).toNat 0 0 head.pcmData samples with
      | none => none
      | some samples => some ({ head with pcmData := samples } :: rest)
    else some (head :: rest)

/-- The audio part of `_executeSeek` after the fine seek (lines 478-546), for the seek time
`time`. -/
def seekRealignAudio (fuel : Nat) (st : Clip) (time : ℚ) : Outcome Clip :=
  match seekAudioWait fuel fuel st with
  | none => Outcome.outOfFuel
  | some (st, timeStamp) =>
    let rate : ℚ := (st.audioFrequency : ℚ) * (st.audioChannelsCount : ℚ)
    let queuedTime : ℚ := getAudioPacketQueueLength st
    let queue : Option (List AudioPacket) :=
      if time > timeStamp - queuedTime then
        seekTrimQueue time timeStamp rate st.audioPacketQueue queuedTime
      else seekPadQueue time timeStamp rate queuedTime st.audioPacketQueue
    match queue with
    | none => Outcome.undefinedBehaviour
    | some queue =>
      Outcome.returned
        { st with audioPacketQueue := queue
                  lastDecodedFrameNumber := toUnsignedLong st.seekFrame
                  readAudioSamples :=
                    toUnsignedInt (truncToInt (timeStamp * (st.audioFrequency : ℚ))) }

/-- The part of `_executeSeek` up to the fine seek loop (lines 392-440): the clip, the seek time
`time`, the flag `paused`, and the locals `granuleSet` and `frame` with which the loop starts. -/
def seekPrepare (fuel : Nat) (st : Clip) : Option (Clip × ℚ × Bool × Bool × Int) :=
  let time : ℚ := (st.seekFrame : ℚ) / st.fps
  let st : Clip := { st with timer.time := time }
  let paused := st.timer.paused
  let st : Clip := if ¬ paused then { st with timer.paused := true } else st
  let st : Clip :=
    { st with endOfFile := false
              restarted := false
              frameQueue := resetFrameQueue st.frameQueue
              info.TheoraStreamState := ogg_stream_reset st.info.TheoraStreamState
              info.TheoraDecoder := { granpos := none } }
  let st : Clip :=
    if st.audioInterface then
      { st with
        info.VorbisData := st.info.VorbisData.map (fun vorbis =>
          { vorbis with VorbisStreamState := ogg_stream_reset vorbis.VorbisStreamState
                        VorbisDSPState := [] })
        audioPacketQueue := [] }
    else st
  match seekPage fuel st st.seekFrame true with
  | none => none
  | some (st, keyFrame) =>
    let frame : Int := wrapInt32 keyFrame
    match seekPage fuel st (max 0 (frame - 1)) false with
    | none => none
    | some (st, _) =>
      if frame ≤ 1 then
        let granulePos : Int :=
          if st.info.TheoraInfo.version_major = 3 ∧ st.info.TheoraInfo.version_minor = 2 ∧
              st.info.TheoraInfo.version_subminor = 0 then 0
          else 1
        some ({ st with info.TheoraDecoder := { granpos := some granulePos } },
          time, paused, true, frame)
      else some (st, time, paused, false, frame)

/-- The member function `_executeSeek` (lines 387-552). -/
def executeSeek (fuel : Nat) (st : Clip) : Outcome Clip :=
  match seekPrepare fuel st with
  | none => Outcome.outOfFuel
  | some (st, time, paused, granuleSet, frame) =>
    match fineSeekLoop fuel st granuleSet frame with
    | none => Outcome.outOfFuel
    | some (FineSeek.failed st) => Outcome.returned st
    | some (FineSeek.reached st _) =>
      let realigned : Outcome Clip :=
        if st.audioInterface then seekRealignAudio fuel st time else Outcome.returned st
      match realigned with
      | Outcome.returned st =>
        let st : Clip := if ¬ paused then { st with timer.paused := false } else st
        Outcome.returned { st with seekFrame := -1 }
      | Outcome.outOfFuel => Outcome.outOfFuel
      | Outcome.undefinedBehaviour => Outcome.undefinedBehaviour

/-- Whether a run of `_executeSeek` ends in the failure branch of its fine seek loop, the `return`
of line 472. -/
def fineSeekFails (fuel : Nat) (st : Clip) : Bool :=
  match seekPrepare fuel st with
  | none => false
  | some (st, _, _, granuleSet, frame) =>
    match fineSeekLoop fuel st granuleSet frame with
    | some (FineSeek.failed _) => true
    | _ => false

/-! ### `_readTheoraVorbisHeaders` (lines 679-885) -/

/-- The locals of `_readTheoraVorbisHeaders` next to the clip: the map `audioStreams` from serial
numbers to candidate audio streams, as the list of its entries in the order of the keys, and
`tempOggPacket` (`none` while nothing was written to it). -/
structure HeaderLocals where
  audioStreams : List (Int × TheoraVorbisInfoStruct)
  tempOggPacket : Option ogg_packet

/-- The assignment `audioStreams[serialnum] = vorbinfo` for a serial number that is not in the map
yet: the entries stay in the order of the keys. -/
def mapInsert (serialnum : Int) (vorbinfo : TheoraVorbisInfoStruct) :
    List (Int × TheoraVorbisInfoStruct) → List (Int × TheoraVorbisInfoStruct)
  | [] => [(serialnum, vorbinfo)]
  | entry :: rest =>
    if serialnum < entry.1 then (serialnum, vorbinfo) :: entry :: rest
    else entry :: mapInsert serialnum vorbinfo rest

/-- The lookup `audioStreams.find(serialnum)` followed by `ogg_stream_pagein` into the stream
found, if any (lines 725-729 and 818-822). -/
def mapPagein (og : ogg_page) (audioStreams : List (Int × TheoraVorbisInfoStruct)) :
    List (Int × TheoraVorbisInfoStruct) :=
  audioStreams.map (fun entry =>
    if entry.1 = og.serialno then
      (entry.1,
        { entry.2 with VorbisStreamState := ogg_stream_pagein entry.2.VorbisStreamState og })
    else entry)

/-- The routing of a page that is not a first header page (lines 721-729 and 813-822). -/
def routeHeaderPage (st : Clip) (loc : HeaderLocals) (og : ogg_page) : Clip × HeaderLocals :=
  let st : Clip :=
    if st.theoraStreams > 0 then
      { st with info.TheoraStreamState := ogg_stream_pagein st.info.TheoraStreamState og }
    else st
  (st, { loc with audioStreams := mapPagein og loc.audioStreams })

/-- What `th_decode_headerin` returns for `tempOggPacket`; nothing is accepted from a packet that
was never written. -/
def theoraHeaderin : Option ogg_packet → Int
  | some op => op.th_decode_headerin
  | none => -1

/-- What `vorbis_synthesis_headerin` returns for `tempOggPacket`; nothing is accepted from a
packet that was never written. -/
def vorbisHeaderin : Option ogg_packet → Int
  | some op => op.vorbis_synthesis_headerin
  | none => -1

/-- The page loop of the first phase (lines 713-761) over what `ogg_sync_pageout` hands out; the
flag of the answer is `done`. -/
def bootstrapPages (decodeAudio : Bool) :
    List SyncOut → Clip → HeaderLocals → Clip × HeaderLocals × Bool
  | [], st, loc => ({ st with info.OggSyncState := [] }, loc, false)
  | SyncOut.unsynced :: rest, st, loc => ({ st with info.OggSyncState := rest }, loc, false)
  | SyncOut.page og :: rest, st, loc =>
    let serialnum := og.serialno
    if ¬ og.bos then
      match routeHeaderPage st loc og with
      | (st, loc) => ({ st with info.OggSyncState := rest }, loc, true)
    else
      let oggStateTest : ogg_stream_state :=
        ogg_stream_pagein { serialno := serialnum, packets := [] } og
      match ogg_stream_packetout oggStateTest with
      | (answer, oggStateTest) =>
        let loc : HeaderLocals :=
          match answer with
          | some (PacketOut.packet op) => { loc with tempOggPacket := some op }
          | _ => loc
        if st.theoraStreams = 0 ∧ theoraHeaderin loc.tempOggPacket > 0 then
          bootstrapPages decodeAudio rest
            { st with info.TheoraStreamState := oggStateTest, theoraStreams := 1 } loc
        else if decodeAudio ∧ vorbisHeaderin loc.tempOggPacket ≥ 0 then
          if loc.audioStreams.all (fun entry => entry.1 ≠ serialnum) then
            let vorbinfo : TheoraVorbisInfoStruct :=
              { VorbisStreamState := oggStateTest
                VorbisComment := (loc.tempOggPacket.map (fun op => op.user_comments)).getD []
                rate := (loc.tempOggPacket.map (fun op => op.rate)).getD 0
                channels := (loc.tempOggPacket.map (fun op => op.channels)).getD 0
                VorbisDSPState := []
                streamOrder := loc.audioStreams.length
                vorbisHeaders := 1 }
            bootstrapPages decodeAudio rest st
              { loc with audioStreams := mapInsert serialnum vorbinfo loc.audioStreams }
          else bootstrapPages decodeAudio rest st loc
        else bootstrapPages decodeAudio rest st loc

/-- The first phase of `_readTheoraVorbisHeaders` (lines 704-762) over the outcomes of the `read`
calls to come: pages are taken in until the first page that is not a first header page. -/
def bootstrapRounds (decodeAudio : Bool) : List ReadResult → Clip → HeaderLocals →
    Clip × HeaderLocals
  | [], st, loc => ({ st with stream.reads := [] }, loc)
  | r :: rest, st, loc =>
    let st : Clip :=
      { st with stream.reads := rest
                info.OggSyncState := ogg_sync_wrote st.info.OggSyncState r }
    if r.bytesRead = 0 then (st, loc)
    else
      match bootstrapPages decodeAudio st.info.OggSyncState st loc with
      | (st, loc, true) => (st, loc)
      | (st, loc, false) => bootstrapRounds decodeAudio rest st loc

/-- The loop over the further Theora header packets (lines 769-780): the packets left, the header
count and `tempOggPacket`, or the exception thrown. -/
def theoraHeaders : List PacketOut → Int → Option ogg_packet →
    Except String (List PacketOut × Int × Option ogg_packet)
  | [], theoraStreams, temp => Except.ok ([], theoraStreams, temp)
  | answer :: rest, theoraStreams, temp =>
    if theoraStreams > 0 ∧ theoraStreams < 3 then
      match answer with
      | PacketOut.hole => Except.error "Error parsing Theora stream headers!"
      | PacketOut.packet op =>
        if op.th_decode_headerin = 0 then Except.error "Invalid theora stream!"
        else theoraHeaders rest (theoraStreams + 1) (some op)
    else Except.ok (answer :: rest, theoraStreams, temp)

/-- The loop over the further Vorbis header packets of one candidate (lines 790-803): a hole or a
rejected packet is consumed and ends the loop for this round. -/
def vorbisHeaders : List PacketOut → TheoraVorbisInfoStruct → Option ogg_packet →
    TheoraVorbisInfoStruct × Option ogg_packet
  | [], vorbinfo, temp =>
    ({ vorbinfo with VorbisStreamState := { vorbinfo.VorbisStreamState with packets := [] } }, temp)
  | answer :: rest, vorbinfo, temp =>
    if vorbinfo.vorbisHeaders < 3 then
      match answer with
      | PacketOut.hole =>
        ({ vorbinfo with
            VorbisStreamState := { vorbinfo.VorbisStreamState with packets := rest } }, temp)
      | PacketOut.packet op =>
        if op.vorbis_synthesis_headerin ≠ 0 then
          ({ vorbinfo with
              VorbisStreamState := { vorbinfo.VorbisStreamState with packets := rest } }, some op)
        else
          vorbisHeaders rest
            { vorbinfo with VorbisComment := vorbinfo.VorbisComment ++ op.user_comments
                            vorbisHeaders := vorbinfo.vorbisHeaders + 1 } (some op)
    else
      ({ vorbinfo with
          VorbisStreamState := { vorbinfo.VorbisStreamState with packets := answer :: rest } },
        temp)

/-- The loop over the entries of `audioStreams` (lines 786-808): the entries afterwards,
`tempOggPacket`, and `done`. -/
def vorbisHeadersAll : List (Int × TheoraVorbisInfoStruct) → Option ogg_packet → Bool →
    List (Int × TheoraVorbisInfoStruct) × Option ogg_packet × Bool
  | [], temp, done => ([], temp, done)
  | entry :: rest, temp, done =>
    match vorbisHeaders entry.2.VorbisStreamState.packets entry.2 temp with
    | (vorbinfo, temp) =>
      let done : Bool :=
        if vorbinfo.vorbisHeaders > 0 ∧ vorbinfo.vorbisHeaders < 3 then false else done
      match vorbisHeadersAll rest temp done with
      | (rest, temp, done) => ((entry.1, vorbinfo) :: rest, temp, done)

/-- One pass through the second `while (!done)` loop (lines 765-837): the exception thrown, or
the clip, the locals and `done`. -/
def headersBody (st : Clip) (loc : HeaderLocals) : Except String (Clip × HeaderLocals × Bool) :=
  match theoraHeaders st.info.TheoraStreamState.packets st.theoraStreams loc.tempOggPacket with
  | Except.error e => Except.error e
  | Except.ok (packets, theoraStreams, temp) =>
    let st : Clip :=
      { st with info.TheoraStreamState := { st.info.TheoraStreamState with packets := packets }
                theoraStreams := theoraStreams }
    let done : Bool := if st.theoraStreams > 0 ∧ st.theoraStreams < 3 then false else true
    match vorbisHeadersAll loc.audioStreams temp done with
    | (audioStreams, temp, done) =>
      let loc : HeaderLocals := { audioStreams := audioStreams, tempOggPacket := temp }
      match ogg_sync_pageout st.info.OggSyncState with
      | (some (SyncOut.page og), oy) =>
        match routeHeaderPage { st with info.OggSyncState := oy } loc og with
        | (st, loc) => Except.ok (st, loc, done)
      | (_, oy) =>
        let st : Clip := { st with info.OggSyncState := oy }
        match st.stream.reads with
        | [] =>
          if st.theoraStreams > 0 ∧ st.theoraStreams < 3 then
            Except.error "End of file found prematurely!"
          else Except.ok (st, loc, true)
        | r :: rest =>
          let st : Clip :=
            { st with stream.reads := rest
                      info.OggSyncState := ogg_sync_wrote st.info.OggSyncState r }
          if r.bytesRead = 0 then
            if st.theoraStreams > 0 ∧ st.theoraStreams < 3 then
              Except.error "End of file found prematurely!"
            else Except.ok (st, loc, true)
          else Except.ok (st, loc, done)

/-- The second `while (!done)` loop (lines 765-837), for at most `fuel` passes. -/
def headersLoop : Nat → Clip → HeaderLocals → Option (Except String (Clip × HeaderLocals))
  | 0, _, _ => none
  | fuel + 1, st, loc =>
    match headersBody st loc with
    | Except.error e => some (Except.error e)
    | Except.ok (st, loc, true) => some (Except.ok (st, loc))
    | Except.ok (st, loc, false) => headersLoop fuel st loc

/-- The member function `_readTheoraVorbisHeaders` (lines 679-885) for the host settings
`decodeAudio` (an audio interface factory is installed) and `langPref` (the audio language
preference): the exception thrown, or the clip with the video stream and the retained audio stream
`info.VorbisData`; `none` when the second loop is not left within `fuel` passes. -/
def readTheoraVorbisHeaders (fuel : Nat) (decodeAudio : Bool) (langPref : CppString)
    (st : Clip) : Option (Except String Clip) :=
  let st : Clip :=
    { st with info.OggSyncState := []
              info.TheoraStreamState := { serialno := 0, packets := [] }
              info.VorbisData := none }
  match bootstrapRounds decodeAudio st.stream.reads st
      { audioStreams := [], tempOggPacket := none } with
  | (st, loc) =>
    match headersLoop fuel st loc with
    | none => none
    | some (Except.error e) => some (Except.error e)
    | some (Except.ok (st, loc)) =>
      some (Except.ok
        { st with info.VorbisData := (selectAudioStream langPref loc.audioStreams).VorbisData })

/-! ### Sizes for the termination arguments -/

/-- The weight of what the sync layer is still to hand out: a page can put each of its packets
into both the video and the audio stream. -/
def syncWeight : List SyncOut → Nat
  | [] => 0
  | SyncOut.unsynced :: rest => 1 + syncWeight rest
  | SyncOut.page og :: rest => 1 + 4 * og.packets.length + syncWeight rest

/-- The weight of the `read` calls to come. -/
def readsWeight : List ReadResult → Nat
  | [] => 0
  | r :: rest => 1 + syncWeight r.synced + readsWeight rest

/-- The weight of the retained audio stream: its packets, and one for PCM frames held ready. -/
def vorbisWeight : Option TheoraVorbisInfoStruct → Nat
  | none => 0
  | some vorbis =>
    2 * vorbis.VorbisStreamState.packets.length + (if vorbis.VorbisDSPState.isEmpty then 0 else 1)

/-- The size of the input a clip still has before it: every pass through a loop of
`_decodeNextFrame` or `_decodeAudio` that goes round again makes it smaller. -/
def clipMeasure (st : Clip) : Nat :=
  2 * st.info.TheoraStreamState.packets.length + vorbisWeight st.info.VorbisData +
    syncWeight st.info.OggSyncState + readsWeight st.stream.reads

/-- The clip `st` with the fields that `_readData` writes replaced: the `read` outcomes to come,
the sync state, the two streams, `endOfFile` and the log. -/
def Clip.withInput (st : Clip) (reads : List ReadResult) (sync : ogg_sync_state)
    (theora : ogg_stream_state) (vorbis : Option TheoraVorbisInfoStruct) (endOfFile : Bool)
    (log : List String) : Clip :=
  { st with stream.reads := reads
            info.OggSyncState := sync
            info.TheoraStreamState := theora
            info.VorbisData := vorbis
            endOfFile := endOfFile
            log := log }

/-! ### Example clips -/

/-- A packet for the examples: the header parsers answer `theoraHeader` and `vorbisHeader`, the
video decoder answers `status` and reports a granule position `granule`. -/
def examplePacket (theoraHeader vorbisHeader status granule : Int) : ogg_packet :=
  { granulepos := granule
    th_decode_headerin := theoraHeader
    vorbis_synthesis_headerin := vorbisHeader
    rate := 44100
    channels := 2
    user_comments := []
    th_decode_packetin := status
    th_granulepos := granule
    vorbis_synthesis := 0
    pcm := [] }

/-- A clip for the examples: nothing loaded, one free frame slot, no audio interface, a 25 fps
stream whose granule positions are frame numbers, and a data source that holds the given `read`
outcomes. -/
def exampleClip (reads : List ReadResult) : Clip :=
  { name := "clip"
    log := []
    stream := { size := 100000, seeks := [], reads := reads }
    timer := { time := 0, paused := false }
    frameQueue := [{ timeToDisplay := 0, iteration := 0, frameNumber := 0,
                     inUse := false, ready := false }]
    audioPacketQueue := []
    audioInterface := false
    info :=
      { OggSyncState := []
        TheoraStreamState := { serialno := 1, packets := [] }
        TheoraInfo := { version_major := 3, version_minor := 2, version_subminor := 1,
                        keyframe_granule_shift := 6 }
        TheoraDecoder := { granpos := none }
        VorbisData := none
        th_granule_frame := fun granule => granule
        th_granule_time := fun granule => (granule : ℚ) / 25
        vorbis_granule_time := fun granule => (granule : ℚ) / 44100 }
    theoraStreams := 0
    endOfFile := false
    restarted := false
    autoRestart := false
    iteration := 0
    seekFrame := -1
    droppedFramesCount := 0
    lastDecodedFrameNumber := 0
    readAudioSamples := 0
    fps := 25
    frameDuration := 1 / 25
    audioFrequency := 44100
    audioChannelsCount := 2
    audioGain := 1 }

/-- A file whose audio stream is cut short: the first header page of a Theora stream (serial 1),
the first header page of a Vorbis stream (serial 2), a page with the two further Theora headers,
and then the end of the data. -/
def truncatedAudioReads : List ReadResult :=
  [{ bytesRead := 4096
     synced :=
      [SyncOut.page { serialno := 1, granulepos := 0, bos := true, eos := false
                      packets := [PacketOut.packet (examplePacket 1 (-1) 0 0)] },
       SyncOut.page { serialno := 2, granulepos := 0, bos := true, eos := false
                      packets := [PacketOut.packet (examplePacket (-1) 0 0 0)] },
       SyncOut.page { serialno := 1, granulepos := 0, bos := false, eos := false
                      packets := [PacketOut.packet (examplePacket 1 (-1) 0 0),
                                  PacketOut.packet (examplePacket 1 (-1) 0 0)] }] }]

/-- A file whose second Vorbis header is rejected: as `truncatedAudioReads`, followed by a page
of the Vorbis stream whose packet `vorbis_synthesis_headerin` refuses. -/
def rejectedAudioReads : List ReadResult :=
  truncatedAudioReads ++
  [{ bytesRead := 4096
     synced :=
      [SyncOut.page { serialno := 2, granulepos := 0, bos := false, eos := false
                      packets := [PacketOut.packet (examplePacket (-1) (-133) 0 0)] }] }]

/-- A three-frame video asked to seek beyond its end.  The first `read`, made by the coarse seek,
hands out a page of the video stream with granule position 3; the second, made by the fine seek,
hands out a page with the packets of frames 1 and 2; then the data is exhausted. -/
def shortVideoReads : List ReadResult :=
  [{ bytesRead := 4096
     synced :=
      [SyncOut.page { serialno := 1, granulepos := 3, bos := false, eos := false
                      packets := [] }] },
   { bytesRead := 4096
     synced :=
      [SyncOut.page { serialno := 1, granulepos := 2, bos := false, eos := true
                      packets := [PacketOut.packet (examplePacket 0 0 0 1),
                                  PacketOut.packet (examplePacket 0 0 0 2)] }] }]

/-- A video whose only packet the decoder rejects: one `read` hands out a page of the video
stream with a packet for which `th_decode_packetin` answers `-1`; then the data is exhausted. -/
def rejectedVideoReads : List ReadResult :=
  [{ bytesRead := 4096
     synced :=
      [SyncOut.page { serialno := 1, granulepos := 0, bos := false, eos := true
                      packets := [PacketOut.packet (examplePacket 0 0 (-1) 0)] }] }]

/-- An audio packet of ten samples, each holding its own position in the packet. -/
def tenSamples : AudioPacket :=
  { pcmData := [0, 1, 2, 3, 4, 5, 6, 7, 8, 9], samplesCount := 10 }

/-- A three-frame video that is asked to seek to frame 2.  The first `read`, made by the coarse
seek, hands out a page of the video stream with granule position 1, which is close enough to the
target; the second, made by the fine seek, hands out a page with the packets of frames 1 and 2. -/
def seekableVideoReads : List ReadResult :=
  [{ bytesRead := 4096
     synced :=
      [SyncOut.page { serialno := 1, granulepos := 1, bos := false, eos := false
                      packets := [] }] },
   { bytesRead := 4096
     synced :=
      [SyncOut.page { serialno := 1, granulepos := 2, bos := false, eos := true
                      packets := [PacketOut.packet (examplePacket 0 0 0 1),
                                  PacketOut.packet (examplePacket 0 0 0 2)] }] }]

/-- A clip as `exampleClip` with an audio interface and a retained audio stream of serial
number 2. -/
def audioClip (reads : List ReadResult) : Clip :=
  { exampleClip reads with
    audioInterface := true
    info.VorbisData := some (candidateOf 2 [] 0) }

/-- The data of `seekableVideoReads` with audio: the second `read` also hands out the last page of
the audio stream, with one packet at granule position 0 that decodes to two PCM frames. -/
def seekableAudioReads : List ReadResult :=
  [{ bytesRead := 4096
     synced :=
      [SyncOut.page { serialno := 1, granulepos := 1, bos := false, eos := false
                      packets := [] }] },
   { bytesRead := 4096
     synced :=
      [SyncOut.page { serialno := 1, granulepos := 2, bos := false, eos := true
                      packets := [PacketOut.packet (examplePacket 0 0 0 1),
                                  PacketOut.packet (examplePacket 0 0 0 2)] },
       SyncOut.page { serialno := 2, granulepos := 0, bos := false, eos := true
                      packets := [PacketOut.packet
                        { examplePacket 0 0 0 0 with pcm := [[1, 2], [3, 4]] }] }] }]

/-- An audio packet of two samples whose buffer holds exactly these samples. -/
def twoSamples : AudioPacket := { pcmData := [5, 6], samplesCount := 2 }

/-- An audio packet of two samples in a buffer with room for a third element. -/
def twoSamplesSpare : AudioPacket := { pcmData := [5, 6, 9], samplesCount := 2 }

/-- A clip as `exampleClip` whose data source is three bytes long. -/
def threeByteClip (reads : List ReadResult) : Clip :=
  { exampleClip reads with stream := { size := 3, seeks := [], reads := reads } }

/-- Three page observations for a coarse seek to frame 100: a page of the video stream at frame
0, far before the target, and then two pages at frame 200, beyond it. -/
def crossingReads : List ReadResult :=
  [{ bytesRead := 4096
     synced :=
      [SyncOut.page { serialno := 1, granulepos := 0, bos := false, eos := false
                      packets := [] }] },
   { bytesRead := 4096
     synced :=
      [SyncOut.page { serialno := 1, granulepos := 200, bos := false, eos := false
                      packets := [] }] },
   { bytesRead := 4096
     synced :=
      [SyncOut.page { serialno := 1, granulepos := 200, bos := false, eos := false
                      packets := [] }] }]

/-! ## Theorems -/

/-- One smearing step `v |= v >> w` doubles the window of bits gathered into each position. -/
theorem smear_step (n v w : Nat)
    (h : ∀ i, v.testBit i = true ↔ ∃ j, j < w ∧ n.testBit (i + j) = true) :
    ∀ i, (v ||| (v >>> w)).testBit i = true ↔ ∃ j, j < 2 * w ∧ n.testBit (i + j) = true := by
  intro i
  rw [Nat.testBit_or, Nat.testBit_shiftRight, Bool.or_eq_true, h, h]
  constructor
  · rintro (⟨j, hj, hb⟩ | ⟨j, hj, hb⟩)
    · exact ⟨j, by omega, hb⟩
    · exact ⟨w + j, by omega, by rw [← hb]; congr 1; omega⟩
  · rintro ⟨j, hj, hb⟩
    by_cases hjw : j < w
    · exact Or.inl ⟨j, hjw, hb⟩
    · exact Or.inr ⟨j - w, by omega, by rw [← hb]; congr 1; omega⟩

/-- After the five steps, a binary digit is set exactly when one of the 32 digits from its position
upwards was set. -/
theorem smear_testBit (n i : Nat) :
    (smear n).testBit i = true ↔ ∃ j, j < 32 ∧ n.testBit (i + j) = true := by
  have h0 : ∀ i, n.testBit i = true ↔ ∃ j, j < 1 ∧ n.testBit (i + j) = true := by
    intro i
    constructor
    · intro h; exact ⟨0, by omega, h⟩
    · rintro ⟨j, hj, hb⟩
      have : j = 0 := by omega
      subst this; exact hb
  have h1 := smear_step n _ 1 h0
  have h2 := smear_step n _ 2 h1
  have h3 := smear_step n _ 4 h2
  have h4 := smear_step n _ 8 h3
  have h5 := smear_step n _ 16 h4
  exact h5 i

/-- The five steps fill every binary digit below the top digit of a 32-bit number. -/
theorem smear_eq (n : Nat) (hn : n < 2 ^ 32) : smear n = 2 ^ n.size - 1 := by
  apply Nat.eq_of_testBit_eq
  intro i
  rw [Nat.testBit_two_pow_sub_one]
  by_cases hi : i < n.size
  · rw [decide_eq_true hi, smear_testBit]
    -- the top bit of `n`
    have hpos : 2 ^ (n.size - 1) ≤ n := by
      apply Nat.lt_size.mp; omega
    have hex : ∃ m, n.size - 1 ≤ m ∧ n.testBit m = true := by
      by_contra hcon
      push_neg at hcon
      have := Nat.lt_pow_two_of_testBit n (fun m hm => by
        have := hcon m hm
        simpa using this)
      omega
    obtain ⟨m, hm, hb⟩ := hex
    have hm32 : m < 32 := by
      by_contra h32
      have : n < 2 ^ m := lt_of_lt_of_le hn (Nat.pow_le_pow_right (by norm_num) (by omega))
      rw [Nat.testBit_lt_two_pow this] at hb
      exact Bool.false_ne_true hb
    have hms : m < n.size := by
      by_contra hge
      have : n < 2 ^ m :=
        lt_of_lt_of_le (Nat.lt_size_self n) (Nat.pow_le_pow_right (by norm_num) (by omega))
      rw [Nat.testBit_lt_two_pow this] at hb
      exact Bool.false_ne_true hb
    exact ⟨m - i, by omega, by rw [← hb]; congr 1; omega⟩
  · rw [decide_eq_false hi]
    rw [Bool.eq_false_iff]
    intro h
    rw [smear_testBit] at h
    obtain ⟨j, _, hb⟩ := h
    have : n < 2 ^ (i + j) :=
      lt_of_lt_of_le (Nat.lt_size_self n) (Nat.pow_le_pow_right (by norm_num) (by omega))
    rw [Nat.testBit_lt_two_pow this] at hb
    exact Bool.false_ne_true hb

/-- An integer in the 32-bit range is its own 32-bit reinterpretation. -/
theorem wrapInt32_of_range (z : Int) (h0 : -2 ^ 31 ≤ z) (h1 : z < 2 ^ 31) : wrapInt32 z = z := by
  unfold wrapInt32
  rw [Int.emod_eq_of_lt (by omega) (by omega)]
  ring

/-- On `n + 1` with `n < 2^30`, `potCeil` is two to the number of binary digits of `n`. -/
theorem potCeil_eq_two_pow_size (n : Nat) (hn : n < 2 ^ 30) :
    potCeil ((n : Int) + 1) = 2 ^ n.size := by
  have hs : n.size ≤ 30 := Nat.size_le.mpr hn
  have hp : (2 : Nat) ^ n.size ≤ 2 ^ 30 := Nat.pow_le_pow_right (by norm_num) hs
  have hpos : 0 < 2 ^ n.size := Nat.pos_pow_of_pos _ (by norm_num)
  have hsm : smear n = 2 ^ n.size - 1 := smear_eq n (lt_of_lt_of_le hn (by norm_num))
  unfold potCeil
  simp only [add_sub_cancel_right]
  rw [wrapInt32_of_range (n : Int) (by omega) (by omega)]
  show wrapInt32 (((smear n : Nat) : Int) + 1) = 2 ^ n.size
  rw [hsm]
  have h1 : (((2 ^ n.size - 1 : Nat) : Int) + 1) = ((2 ^ n.size : Nat) : Int) := by
    omega
  rw [h1, wrapInt32_of_range _ (by omega) (by omega)]
  push_cast
  rfl

/-- C2. For every 32-bit integer `x` with `1 ≤ x ≤ 2^30`, `potCeil x` is `x` when `x` is a power
of two and otherwise the smallest power of two greater than `x`; in particular
`potCeil 1 = 1`, `potCeil 2 = 2`, `potCeil 3 = 4`, `potCeil 1023 = 1024`, `potCeil 1024 = 1024`. -/
theorem potCeil_spec :
    (∀ x : Int, 1 ≤ x → x ≤ 2 ^ 30 →
      ((∃ k : Nat, x = 2 ^ k) → potCeil x = x) ∧
      ((¬ ∃ k : Nat, x = 2 ^ k) →
        ∃ k : Nat, potCeil x = 2 ^ k ∧ x < 2 ^ k ∧ ∀ j : Nat, x < 2 ^ j → (2 : Int) ^ k ≤ 2 ^ j)) ∧
    potCeil 1 = 1 ∧ potCeil 2 = 2 ∧ potCeil 3 = 4 ∧ potCeil 1023 = 1024 ∧
    potCeil 1024 = 1024 := by
  refine ⟨?_, by decide, by decide, by decide, by decide, by decide⟩
  intro x h1 h2
  obtain ⟨n, rfl⟩ : ∃ n : Nat, x = (n : Int) + 1 := ⟨(x - 1).toNat, by omega⟩
  have hn : n < 2 ^ 30 := by
    have : (n : Int) < 2 ^ 30 := by omega
    exact_mod_cast this
  have hpc := potCeil_eq_two_pow_size n hn
  have hlt : n < 2 ^ n.size := Nat.lt_size_self n
  have hle : (n : Int) + 1 ≤ 2 ^ n.size := by
    have : n + 1 ≤ 2 ^ n.size := hlt
    exact_mod_cast this
  constructor
  · rintro ⟨k, hk⟩
    rw [hpc, hk]
    have hkn : n + 1 = 2 ^ k := by exact_mod_cast hk
    have hks : k ≤ n.size := by
      by_contra hcon
      have : 2 ^ n.size < 2 ^ k := Nat.pow_lt_pow_right (by norm_num) (by omega)
      omega
    have hsk : n.size ≤ k := Nat.size_le.mpr (by omega)
    have : n.size = k := le_antisymm hsk hks
    rw [this]
  · intro hnp
    refine ⟨n.size, hpc, ?_, ?_⟩
    · rcases lt_or_eq_of_le hle with h | h
      · exact h
      · exact absurd ⟨n.size, h⟩ hnp
    · intro j hj
      have hj2 : n < 2 ^ j := by
        have : (n : Int) < 2 ^ j := by omega
        exact_mod_cast this
      have : n.size ≤ j := Nat.size_le.mpr hj2
      exact pow_le_pow_right₀ (by norm_num) this

/-- Witness of C2 at `x = 3`, which is not a power of two: the answer is a power of two above
`3` that no smaller power of two above `3` undercuts. -/
theorem potCeil_spec_witness :
    ∃ k : Nat, potCeil 3 = 2 ^ k ∧ (3 : Int) < 2 ^ k ∧
      ∀ j : Nat, (3 : Int) < 2 ^ j → (2 : Int) ^ k ≤ 2 ^ j :=
  (potCeil_spec.1 3 (by decide) (by norm_num)).2 (by
    rintro ⟨k, hk⟩
    cases k with
    | zero => norm_num at hk
    | succ k => rw [pow_succ] at hk; omega)

/-- The top score of `checklanguage` in terms of the lengths and the characters read. -/
theorem checklanguage_lac_chars (p c : CppString) :
    checklanguage p c = LANGUAGE_MATCH_LANG_AND_COUNTRY ↔
      ((5 ≤ p.length ∧ 5 ≤ c.length) ∧ charAt p 0 = charAt c 0 ∧ charAt p 1 = charAt c 1 ∧
        charAt p 2 = charAt c 2 ∧ charAt p 2 = '-' ∧ charAt p 3 = charAt c 3 ∧
        charAt p 4 = charAt c 4) := by
  unfold checklanguage
  simp only [ge_iff_le, zero_add, Nat.reduceAdd]
  have hm : 5 ≤ (if c.length < p.length then c.length else p.length) ↔
      (5 ≤ p.length ∧ 5 ≤ c.length) := by
    split_ifs <;> omega
  rw [← hm]
  generalize (if c.length < p.length then c.length else p.length) = m
  clear hm
  by_cases h0 : m ≤ 0
  · rw [if_pos h0]; exact ⟨fun h => absurd h (by decide), fun h => by omega⟩
  rw [if_neg h0]
  by_cases e0 : charAt p 0 ≠ charAt c 0
  · rw [if_pos e0]; exact ⟨fun h => absurd h (by decide), fun h => absurd h.2.1 e0⟩
  rw [if_neg e0]
  by_cases h1 : m ≤ 1
  · rw [if_pos h1]; exact ⟨fun h => absurd h (by decide), fun h => by omega⟩
  rw [if_neg h1]
  by_cases e1 : charAt p 1 ≠ charAt c 1
  · rw [if_pos e1]; exact ⟨fun h => absurd h (by decide), fun h => absurd h.2.2.1 e1⟩
  rw [if_neg e1]
  by_cases h2 : m ≤ 2
  · rw [if_pos h2]
    exact ⟨fun h => by split at h <;> exact absurd h (by decide), fun h => by omega⟩
  rw [if_neg h2]
  by_cases e2 : charAt p 2 ≠ charAt c 2 ∨ charAt p 2 ≠ '-'
  · rw [if_pos e2]
    refine ⟨fun h => absurd h (by decide), fun h => ?_⟩
    rcases e2 with e | e
    · exact absurd h.2.2.2.1 e
    · exact absurd h.2.2.2.2.1 e
  rw [if_neg e2]
  by_cases h3 : m ≤ 3
  · rw [if_pos h3]; exact ⟨fun h => absurd h (by decide), fun h => by omega⟩
  rw [if_neg h3]
  by_cases e3 : charAt p 3 ≠ charAt c 3
  · rw [if_pos e3]; exact ⟨fun h => absurd h (by decide), fun h => absurd h.2.2.2.2.2.1 e3⟩
  rw [if_neg e3]
  by_cases h4 : m ≤ 4
  · rw [if_pos h4]; exact ⟨fun h => absurd h (by decide), fun h => by omega⟩
  rw [if_neg h4]
  by_cases e4 : charAt p 4 ≠ charAt c 4
  · rw [if_pos e4]; exact ⟨fun h => absurd h (by decide), fun h => absurd h.2.2.2.2.2.2 e4⟩
  rw [if_neg e4]
  push_neg at e0 e1 e2 e3 e4
  exact ⟨fun _ => ⟨by omega, e0, e1, e2.1, e2.2, e3, e4⟩, fun _ => rfl⟩

/-- C4. `checklanguage p c` is `LANGUAGE_MATCH_LANG_AND_COUNTRY` if and only if both strings have
at least five characters, agree on positions 0 to 4 and have `'-'` at position 2; what follows
position 4, and the total lengths, play no part: the answer is that of the two five-character
prefixes. -/
theorem checklanguage_lang_and_country_iff (p c : CppString) :
    (checklanguage p c = LANGUAGE_MATCH_LANG_AND_COUNTRY ↔
      (5 ≤ p.length ∧ 5 ≤ c.length ∧ p.take 5 = c.take 5 ∧ p[2]? = some '-')) ∧
    (checklanguage p c = LANGUAGE_MATCH_LANG_AND_COUNTRY ↔
      (5 ≤ p.length ∧ 5 ≤ c.length ∧
        checklanguage (p.take 5) (c.take 5) = LANGUAGE_MATCH_LANG_AND_COUNTRY)) := by
  rw [checklanguage_lac_chars, checklanguage_lac_chars]
  rcases p with _ | ⟨p0, _ | ⟨p1, _ | ⟨p2, _ | ⟨p3, _ | ⟨p4, p⟩⟩⟩⟩⟩ <;>
    try (simp only [List.length_nil, List.length_cons]; constructor <;> constructor <;> omega)
  rcases c with _ | ⟨c0, _ | ⟨c1, _ | ⟨c2, _ | ⟨c3, _ | ⟨c4, c⟩⟩⟩⟩⟩ <;>
    try (simp only [List.length_nil, List.length_cons]; constructor <;> constructor <;> omega)
  simp [charAt]
  tauto

/-- C5 (amended). With preference `en-GB`, `checklanguage` scores the candidate tags `en-US`,
`en` and `fr` as `lang_code`, `lang_code` and `none`. -/
theorem checklanguage_enGB_scores :
    checklanguage "en-GB".toList "en-US".toList = LANGUAGE_MATCH_LANG_CODE ∧
    checklanguage "en-GB".toList "en".toList = LANGUAGE_MATCH_LANG_CODE ∧
    checklanguage "en-GB".toList "fr".toList = LANGUAGE_MATCH_NONE := by
  decide

/-- C5, counterexample. The three scores are not `lang_code`, `lang_code_exact`, `none`: the tag
`en` is shorter than the preference `en-GB` and scores `lang_code`. -/
theorem checklanguage_enGB_scores_counterexample :
    ¬ (checklanguage "en-GB".toList "en-US".toList = LANGUAGE_MATCH_LANG_CODE ∧
       checklanguage "en-GB".toList "en".toList = LANGUAGE_MATCH_LANG_CODE_EXACT ∧
       checklanguage "en-GB".toList "fr".toList = LANGUAGE_MATCH_NONE) := by
  decide

/-! ### Audio stream selection -/

/-- Distinct enumerators have distinct integer values. -/
theorem AudioLanguageMatch.toNat_injective : Function.Injective AudioLanguageMatch.toNat := by
  intro a b h
  cases a <;> cases b <;> first | rfl | exact absurd h (by decide)

/-- The test of the selection loop is the strict comparison of the two lexicographic pairs. -/
theorem selectStep_eq (langPref : CppString) (sel : Selection) (cand : TheoraVorbisInfoStruct) :
    selectStep langPref sel cand =
      if sel.key < selectionKey langPref cand then
        { VorbisData := some cand, matchOrder := (cand.streamOrder : Int),
          curLangMatch := languageScore langPref cand }
      else sel := by
  unfold selectStep
  have : (sel.curLangMatch.toNat < (languageScore langPref cand).toNat ∨
      (sel.curLangMatch = languageScore langPref cand ∧
        sel.matchOrder < (cand.streamOrder : Int))) ↔
      sel.key < selectionKey langPref cand := by
    unfold Selection.key selectionKey
    rw [Prod.Lex.lt_iff]
    simp only [ofLex_toLex]
    constructor
    · rintro (h | ⟨h1, h2⟩)
      · exact Or.inl h
      · exact Or.inr ⟨by rw [h1], h2⟩
    · rintro (h | ⟨h1, h2⟩)
      · exact Or.inl h
      · exact Or.inr ⟨AudioLanguageMatch.toNat_injective h1, h2⟩
  simp only [this]

/-- The selection loop over a list extended by one entry is one more pass of its body. -/
theorem selectAudioStream_concat (langPref : CppString)
    (l : List (Int × TheoraVorbisInfoStruct)) (e : Int × TheoraVorbisInfoStruct) :
    selectAudioStream langPref (l ++ [e]) =
      selectStep langPref (selectAudioStream langPref l) e.2 := by
  unfold selectAudioStream
  rw [List.foldl_append]
  rfl

/-- Invariant of the selection loop: before any entry the state is the initial one; afterwards the
retained candidate is an entry seen, the state holds its pair, and no entry seen has a greater
pair. -/
theorem selectAudioStream_invariant (langPref : CppString)
    (l : List (Int × TheoraVorbisInfoStruct)) :
    (l = [] ∧ selectAudioStream langPref l = Selection.init) ∨
    (∃ e ∈ l, (selectAudioStream langPref l).VorbisData = some e.2 ∧
      (selectAudioStream langPref l).key = selectionKey langPref e.2 ∧
      ∀ d ∈ l, selectionKey langPref d.2 ≤ selectionKey langPref e.2) := by
  induction l using List.reverseRecOn with
  | nil => exact Or.inl ⟨rfl, rfl⟩
  | append_singleton l x ih =>
    right
    rw [selectAudioStream_concat, selectStep_eq]
    rcases ih with ⟨hl, hs⟩ | ⟨e, he, hv, hk, hmax⟩
    · subst hl
      have hlt : (selectAudioStream langPref []).key < selectionKey langPref x.2 := by
        rw [hs]
        unfold Selection.init Selection.key selectionKey
        rw [Prod.Lex.lt_iff]
        simp only [ofLex_toLex]
        rcases Nat.eq_zero_or_pos (languageScore langPref x.2).toNat with h | h
        · right
          refine ⟨h.symm ▸ rfl, ?_⟩
          have : (0 : Int) ≤ (x.2.streamOrder : Int) := Int.natCast_nonneg _
          omega
        · left; exact h
      rw [if_pos hlt]
      refine ⟨x, by simp, rfl, rfl, ?_⟩
      intro d hd
      simp only [List.nil_append, List.mem_singleton] at hd
      rw [hd]
    · by_cases hlt : (selectAudioStream langPref l).key < selectionKey langPref x.2
      · rw [if_pos hlt]
        refine ⟨x, by simp, rfl, rfl, ?_⟩
        intro d hd
        rcases List.mem_append.mp hd with hd | hd
        · exact le_trans (hmax d hd) (by rw [← hk]; exact le_of_lt hlt)
        · simp only [List.mem_singleton] at hd
          rw [hd]
      · rw [if_neg hlt]
        refine ⟨e, List.mem_append_left _ he, hv, hk, ?_⟩
        intro d hd
        rcases List.mem_append.mp hd with hd | hd
        · exact hmax d hd
        · simp only [List.mem_singleton] at hd
          rw [hd, ← hk]
          exact not_lt.mp hlt

/-- Two entries with distinct insertion orders have distinct pairs, so in a list whose insertion
orders are pairwise distinct two entries with the same pair are the same entry. -/
theorem eq_of_selectionKey_eq (langPref : CppString)
    (l : List (Int × TheoraVorbisInfoStruct))
    (hd : l.Pairwise (fun a b => a.2.streamOrder ≠ b.2.streamOrder))
    (a b : Int × TheoraVorbisInfoStruct) (ha : a ∈ l) (hb : b ∈ l)
    (hk : selectionKey langPref a.2 = selectionKey langPref b.2) : a = b := by
  by_contra hne
  have hord : a.2.streamOrder = b.2.streamOrder := by
    have := congrArg (fun k => (ofLex k).2) hk
    simp only [selectionKey, ofLex_toLex] at this
    exact_mod_cast this
  have hsym : Symmetric (fun a b : Int × TheoraVorbisInfoStruct =>
      a.2.streamOrder ≠ b.2.streamOrder) := fun _ _ h => Ne.symm h
  exact (List.Pairwise.forall hsym hd ha hb hne) hord

/-- C1. For every non-empty set of candidate audio streams with pairwise distinct insertion orders
and every language preference, the selection loop retains exactly the candidate whose pair
(match strength, insertion order) is lexicographically greatest, in whatever order the map
enumerates the candidates.  With the streams `en-US` (order 0) and `fr` (order 1) it retains
`en-US` under the preference `en-US` and `fr` under the empty preference. -/
theorem selectAudioStream_retains_lex_greatest :
    (∀ (langPref : CppString) (audioStreams : List (Int × TheoraVorbisInfoStruct)),
      audioStreams ≠ [] →
      audioStreams.Pairwise (fun a b => a.2.streamOrder ≠ b.2.streamOrder) →
      ∃ best ∈ audioStreams,
        (selectAudioStream langPref audioStreams).VorbisData = some best.2 ∧
        (∀ other ∈ audioStreams, other ≠ best →
          selectionKey langPref other.2 < selectionKey langPref best.2) ∧
        (∀ enumeration : List (Int × TheoraVorbisInfoStruct), enumeration.Perm audioStreams →
          (selectAudioStream langPref enumeration).VorbisData = some best.2)) ∧
    (selectAudioStream "en-US".toList
        [(10, candidateOf 10 ["LANGUAGE=en-US".toList] 0),
         (11, candidateOf 11 ["LANGUAGE=fr".toList] 1)]).VorbisData
      = some (candidateOf 10 ["LANGUAGE=en-US".toList] 0) ∧
    (selectAudioStream "".toList
        [(10, candidateOf 10 ["LANGUAGE=en-US".toList] 0),
         (11, candidateOf 11 ["LANGUAGE=fr".toList] 1)]).VorbisData
      = some (candidateOf 11 ["LANGUAGE=fr".toList] 1) := by
  refine ⟨?_, by rfl, by rfl⟩
  intro langPref audioStreams hne hd
  rcases selectAudioStream_invariant langPref audioStreams with ⟨h, _⟩ | ⟨e, he, hv, _, hmax⟩
  · exact absurd h hne
  refine ⟨e, he, hv, ?_, ?_⟩
  · intro other ho hoe
    rcases lt_or_eq_of_le (hmax other ho) with h | h
    · exact h
    · exact absurd (eq_of_selectionKey_eq langPref audioStreams hd other e ho he h) hoe
  · intro enumeration hp
    have hsym : Symmetric (fun a b : Int × TheoraVorbisInfoStruct =>
        a.2.streamOrder ≠ b.2.streamOrder) := fun _ _ h => Ne.symm h
    rcases selectAudioStream_invariant langPref enumeration with ⟨h, _⟩ | ⟨e2, he2, hv2, _, hmax2⟩
    · subst h
      exact absurd (List.Perm.eq_nil hp.symm) hne
    · have he2l : e2 ∈ audioStreams := hp.mem_iff.mp he2
      have h1 := hmax e2 he2l
      have h2 := hmax2 e (hp.mem_iff.mpr he)
      have := eq_of_selectionKey_eq langPref audioStreams hd e2 e he2l he (le_antisymm h1 h2)
      rw [hv2, this]

/-- Witness of C1: the two streams `en-US` (order 0) and `fr` (order 1) under the preference
`en-GB`. -/
theorem selectAudioStream_retains_lex_greatest_witness :
    ∃ best ∈ [((10 : Int), candidateOf 10 ["LANGUAGE=en-US".toList] 0),
              (11, candidateOf 11 ["LANGUAGE=fr".toList] 1)],
      (selectAudioStream "en-GB".toList
        [(10, candidateOf 10 ["LANGUAGE=en-US".toList] 0),
         (11, candidateOf 11 ["LANGUAGE=fr".toList] 1)]).VorbisData = some best.2 ∧
      (∀ other ∈ [((10 : Int), candidateOf 10 ["LANGUAGE=en-US".toList] 0),
              (11, candidateOf 11 ["LANGUAGE=fr".toList] 1)], other ≠ best →
          selectionKey "en-GB".toList other.2 < selectionKey "en-GB".toList best.2) ∧
      (∀ enumeration : List (Int × TheoraVorbisInfoStruct),
          enumeration.Perm [((10 : Int), candidateOf 10 ["LANGUAGE=en-US".toList] 0),
              (11, candidateOf 11 ["LANGUAGE=fr".toList] 1)] →
          (selectAudioStream "en-GB".toList enumeration).VorbisData = some best.2) :=
  selectAudioStream_retains_lex_greatest.1 "en-GB".toList _ (by simp)
    (by simp [candidateOf])

/-- With the empty preference every candidate scores `LANGUAGE_MATCH_NONE`. -/
theorem languageScore_empty (cand : TheoraVorbisInfoStruct) :
    languageScore [] cand = LANGUAGE_MATCH_NONE := by
  simp [languageScore]

/-- C6 (amended). With the empty preference every candidate scores `none`; a candidate replaces
the current selection of strength `none` exactly when its insertion order is higher than
`matchOrder`, and for one or more candidates the loop retains a candidate of highest insertion
order, wherever the map enumerates it. -/
theorem selectAudioStream_empty_preference :
    (∀ (sel : Selection) (cand : TheoraVorbisInfoStruct),
      sel.curLangMatch = LANGUAGE_MATCH_NONE →
      selectStep [] sel cand =
        if sel.matchOrder < (cand.streamOrder : Int) then
          { VorbisData := some cand, matchOrder := (cand.streamOrder : Int),
            curLangMatch := LANGUAGE_MATCH_NONE }
        else sel) ∧
    (∀ audioStreams : List (Int × TheoraVorbisInfoStruct), audioStreams ≠ [] →
      ∃ best ∈ audioStreams,
        (selectAudioStream [] audioStreams).VorbisData = some best.2 ∧
        ∀ other ∈ audioStreams, other.2.streamOrder ≤ best.2.streamOrder) := by
  constructor
  · intro sel cand hs
    unfold selectStep
    simp only [languageScore_empty, hs, lt_self_iff_false, true_and, false_or]
  · intro audioStreams hne
    rcases selectAudioStream_invariant [] audioStreams with ⟨h, _⟩ | ⟨e, he, hv, _, hmax⟩
    · exact absurd h hne
    refine ⟨e, he, hv, ?_⟩
    intro other ho
    have h := hmax other ho
    unfold selectionKey at h
    rw [languageScore_empty, languageScore_empty, Prod.Lex.le_iff] at h
    simp only [ofLex_toLex, lt_self_iff_false, true_and, false_or] at h
    exact_mod_cast h

/-- Witness of C6 (amended): two candidates, the one enumerated second has the higher insertion
order and replaces the first. -/
theorem selectAudioStream_empty_preference_witness :
    (selectStep []
        { VorbisData := some (candidateOf 10 ["LANGUAGE=en-US".toList] 0), matchOrder := 0,
          curLangMatch := LANGUAGE_MATCH_NONE }
        (candidateOf 11 ["LANGUAGE=fr".toList] 1) =
      if ((0 : Int) < ((candidateOf 11 ["LANGUAGE=fr".toList] 1).streamOrder : Int)) then
        { VorbisData := some (candidateOf 11 ["LANGUAGE=fr".toList] 1),
          matchOrder := ((candidateOf 11 ["LANGUAGE=fr".toList] 1).streamOrder : Int),
          curLangMatch := LANGUAGE_MATCH_NONE }
      else
        { VorbisData := some (candidateOf 10 ["LANGUAGE=en-US".toList] 0), matchOrder := 0,
          curLangMatch := LANGUAGE_MATCH_NONE }) ∧
    (∃ best ∈ [((10 : Int), candidateOf 10 ["LANGUAGE=en-US".toList] 0),
              (11, candidateOf 11 ["LANGUAGE=fr".toList] 1)],
      (selectAudioStream []
        [(10, candidateOf 10 ["LANGUAGE=en-US".toList] 0),
         (11, candidateOf 11 ["LANGUAGE=fr".toList] 1)]).VorbisData = some best.2 ∧
      ∀ other ∈ [((10 : Int), candidateOf 10 ["LANGUAGE=en-US".toList] 0),
              (11, candidateOf 11 ["LANGUAGE=fr".toList] 1)],
        other.2.streamOrder ≤ best.2.streamOrder) :=
  ⟨selectAudioStream_empty_preference.1 _ _ rfl,
    selectAudioStream_empty_preference.2 _ (by simp)⟩

/-- C6, counterexample. With the empty preference and the two candidates enumerated in the order
of their serial numbers, `en-US` (serial 10, insertion order 0) first and `fr` (serial 11,
insertion order 1) second, the loop does not retain the candidate it enumerates first: the second
one replaces it. -/
theorem selectAudioStream_empty_preference_counterexample :
    (selectAudioStream []
        [(10, candidateOf 10 ["LANGUAGE=en-US".toList] 0),
         (11, candidateOf 11 ["LANGUAGE=fr".toList] 1)]).VorbisData
      = some (candidateOf 11 ["LANGUAGE=fr".toList] 1) ∧
    (selectAudioStream []
        [(10, candidateOf 10 ["LANGUAGE=en-US".toList] 0),
         (11, candidateOf 11 ["LANGUAGE=fr".toList] 1)]).VorbisData
      ≠ some (candidateOf 10 ["LANGUAGE=en-US".toList] 0) :=
  ⟨by rfl, fun h =>
    absurd (congrArg (Option.map TheoraVorbisInfoStruct.streamOrder) h) (by decide)⟩

/-! ### Input consumption and termination -/

/-- The call `ogg_stream_pagein` adds at most the packets of the page to the stream. -/
theorem ogg_stream_pagein_length (os : ogg_stream_state) (og : ogg_page) :
    (ogg_stream_pagein os og).packets.length ≤ os.packets.length + og.packets.length := by
  unfold ogg_stream_pagein
  split_ifs
  · simp
  · omega

/-- The body of the page loop of `_readData` writes the two streams only, and puts at most the
packets of the page into each. -/
theorem readDataPage_shape (og : ogg_page) (st : Clip) (audioEos : Int) (audioTime : ℚ) :
    ∃ ts vd, (readDataPage og st audioEos audioTime).1 =
        { st with info.TheoraStreamState := ts, info.VorbisData := vd } ∧
      2 * ts.packets.length + vorbisWeight vd ≤
        2 * st.info.TheoraStreamState.packets.length + vorbisWeight st.info.VorbisData +
          4 * og.packets.length := by
  have hth := ogg_stream_pagein_length st.info.TheoraStreamState og
  obtain ⟨ts, hts, hlen⟩ : ∃ ts : ogg_stream_state,
      (if og.serialno = st.info.TheoraStreamState.serialno then
        ({ st with
            info.TheoraStreamState := ogg_stream_pagein st.info.TheoraStreamState og } : Clip)
      else st) = { st with info.TheoraStreamState := ts } ∧
      ts.packets.length ≤ st.info.TheoraStreamState.packets.length + og.packets.length := by
    by_cases h1 : og.serialno = st.info.TheoraStreamState.serialno
    · exact ⟨_, if_pos h1, hth⟩
    · exact ⟨st.info.TheoraStreamState, if_neg h1, by omega⟩
  unfold readDataPage
  simp only [hts]
  cases hv : st.info.VorbisData with
  | none =>
    refine ⟨ts, none, ?_, ?_⟩
    · simp only [← hv]
    · simp only [vorbisWeight]; omega
  | some vorbis =>
    have hvo := ogg_stream_pagein_length vorbis.VorbisStreamState og
    by_cases h2 : st.audioInterface = true ∧ og.serialno = vorbis.VorbisStreamState.serialno
    · simp only [h2, and_self, if_true]
      refine ⟨ts, _, rfl, ?_⟩
      simp only [vorbisWeight]
      omega
    · simp only [h2, if_false]
      refine ⟨ts, some vorbis, ?_, ?_⟩
      · simp only [← hv]
      · simp only [vorbisWeight]; omega

/-- The page loop of `_readData` on a page followed by further answers. -/
theorem readDataPages_cons_page (og : ogg_page) (rest : List SyncOut) (st : Clip)
    (audioEos : Int) (audioTime : ℚ) :
    readDataPages (SyncOut.page og :: rest) st audioEos audioTime =
      readDataPages rest (readDataPage og st audioEos audioTime).1
        (readDataPage og st audioEos audioTime).2.1 (readDataPage og st audioEos audioTime).2.2 :=
  rfl

/-- The page loop of `_readData` writes the sync state and the two streams only, and what it
puts into the streams it takes out of the sync state. -/
theorem readDataPages_shape (l : List SyncOut) :
    ∀ (st : Clip) (audioEos : Int) (audioTime : ℚ),
      ∃ sy ts vd, (readDataPages l st audioEos audioTime).1 =
          st.withInput st.stream.reads sy ts vd st.endOfFile st.log ∧
        2 * ts.packets.length + vorbisWeight vd + syncWeight sy ≤
          2 * st.info.TheoraStreamState.packets.length + vorbisWeight st.info.VorbisData +
            syncWeight l := by
  induction l with
  | nil =>
    intro st e t
    exact ⟨[], st.info.TheoraStreamState, st.info.VorbisData, rfl, by simp [syncWeight]⟩
  | cons x rest ih =>
    intro st e t
    cases x with
    | unsynced =>
      exact ⟨rest, st.info.TheoraStreamState, st.info.VorbisData, rfl, by simp [syncWeight]⟩
    | page og =>
      rw [readDataPages_cons_page]
      obtain ⟨ts1, vd1, h1, hb1⟩ := readDataPage_shape og st e t
      obtain ⟨sy, ts, vd, h2, hb2⟩ := ih (readDataPage og st e t).1
        (readDataPage og st e t).2.1 (readDataPage og st e t).2.2
      refine ⟨sy, ts, vd, ?_, ?_⟩
      · rw [h2, h1]; rfl
      · rw [h1] at hb2
        simp only [syncWeight] at hb2 ⊢
        omega

/-- The size of the input of a clip whose input fields were replaced. -/
theorem clipMeasure_withInput (st : Clip) (rs : List ReadResult) (sy : ogg_sync_state)
    (ts : ogg_stream_state) (vd : Option TheoraVorbisInfoStruct) (eof : Bool)
    (lg : List String) :
    clipMeasure (st.withInput rs sy ts vd eof lg) =
      2 * ts.packets.length + vorbisWeight vd + syncWeight sy + readsWeight rs := rfl

/-- The weight of two lists of sync answers in a row. -/
theorem syncWeight_append (a b : List SyncOut) :
    syncWeight (a ++ b) = syncWeight a + syncWeight b := by
  induction a with
  | nil => simp [syncWeight]
  | cons x rest ih =>
    rw [List.cons_append]
    cases x <;> simp only [syncWeight] <;> rw [ih] <;> omega

/-- Writing the bytes of a `read` adds at most the weight of what they hold. -/
theorem syncWeight_wrote (oy : ogg_sync_state) (r : ReadResult) :
    syncWeight (ogg_sync_wrote oy r) ≤ syncWeight oy + syncWeight r.synced := by
  unfold ogg_sync_wrote
  split_ifs
  · omega
  · rw [syncWeight_append]

/-- On exhaustion `_readData` writes `endOfFile` and the log only. -/
theorem readDataExhausted_shape (st : Clip) :
    ∃ eof lg, readDataExhausted st = { st with endOfFile := eof, log := lg } := by
  unfold readDataExhausted
  split_ifs
  · exact ⟨st.endOfFile, st.log, rfl⟩
  · exact ⟨_, _, rfl⟩

/-- The rounds of `_readData` write the input fields of the clip only; the input left is no
larger than before, and smaller when the answer is `true`. -/
theorem readDataRounds_shape (time : ℚ) (l : List ReadResult) :
    ∀ (st : Clip) (audioEos : Int) (audioTime : ℚ),
      ∃ rs sy ts vd eof lg, (readDataRounds time l st audioEos audioTime).1 =
          st.withInput rs sy ts vd eof lg ∧
        2 * ts.packets.length + vorbisWeight vd + syncWeight sy + readsWeight rs ≤
          2 * st.info.TheoraStreamState.packets.length + vorbisWeight st.info.VorbisData +
            syncWeight st.info.OggSyncState + readsWeight l ∧
        ((readDataRounds time l st audioEos audioTime).2 = true →
          2 * ts.packets.length + vorbisWeight vd + syncWeight sy + readsWeight rs <
          2 * st.info.TheoraStreamState.packets.length + vorbisWeight st.info.VorbisData +
            syncWeight st.info.OggSyncState + readsWeight l) := by
  induction l with
  | nil =>
    intro st e t
    unfold readDataRounds
    obtain ⟨eof, lg, he⟩ := readDataExhausted_shape { st with stream.reads := [] }
    rw [he]
    exact ⟨[], st.info.OggSyncState, st.info.TheoraStreamState, st.info.VorbisData,
      eof, lg, rfl, by simp [readsWeight], by simp⟩
  | cons r rest ih =>
    intro st e t
    have hw := syncWeight_wrote st.info.OggSyncState r
    unfold readDataRounds
    simp only []
    by_cases hr : r.bytesRead = 0
    · rw [if_pos hr]
      obtain ⟨eof, lg, he⟩ := readDataExhausted_shape
        { st with stream.reads := rest
                  info.OggSyncState := ogg_sync_wrote st.info.OggSyncState r }
      rw [he]
      refine ⟨rest, _, st.info.TheoraStreamState, st.info.VorbisData,
        eof, lg, rfl, ?_, by simp⟩
      simp only [readsWeight]; omega
    · rw [if_neg hr]
      obtain ⟨sy1, ts1, vd1, h1, hb1⟩ := readDataPages_shape
        (ogg_sync_wrote st.info.OggSyncState r)
        ({ st with stream.reads := rest
                   info.OggSyncState := ogg_sync_wrote st.info.OggSyncState r }) e t
      simp only [] at h1 hb1
      split_ifs with hc
      · obtain ⟨rs, sy, ts, vd, eof, lg, h2, hb2, _⟩ := ih
          (readDataPages (ogg_sync_wrote st.info.OggSyncState r)
            ({ st with stream.reads := rest
                       info.OggSyncState := ogg_sync_wrote st.info.OggSyncState r }) e t).1
          (readDataPages (ogg_sync_wrote st.info.OggSyncState r)
            ({ st with stream.reads := rest
                       info.OggSyncState := ogg_sync_wrote st.info.OggSyncState r }) e t).2.1
          (readDataPages (ogg_sync_wrote st.info.OggSyncState r)
            ({ st with stream.reads := rest
                       info.OggSyncState := ogg_sync_wrote st.info.OggSyncState r }) e t).2.2
        refine ⟨rs, sy, ts, vd, eof, lg, ?_, ?_, ?_⟩
        · rw [h2, h1]; rfl
        · rw [h1] at hb2
          simp only [Clip.withInput, readsWeight] at hb2 ⊢
          omega
        · intro _
          rw [h1] at hb2
          simp only [Clip.withInput, readsWeight] at hb2 ⊢
          omega
      · refine ⟨rest, sy1, ts1, vd1, st.endOfFile, st.log, ?_, ?_, ?_⟩
        · rw [h1]; rfl
        · simp only [readsWeight]; omega
        · intro _
          simp only [readsWeight]; omega

/-- The call `_readData` writes the input fields of the clip only; the input left is no larger than
before, and smaller when the answer is `true`. -/
theorem readData_shape (st : Clip) :
    ∃ rs sy ts vd eof lg, (readData st).1 = st.withInput rs sy ts vd eof lg ∧
      clipMeasure (readData st).1 ≤ clipMeasure st ∧
      ((readData st).2 = true → clipMeasure (readData st).1 < clipMeasure st) := by
  obtain ⟨rs, sy, ts, vd, eof, lg, h, hb, hs⟩ := readDataRounds_shape
    (if st.restarted then 0 else st.timer.time) st.stream.reads st 0 0
  refine ⟨rs, sy, ts, vd, eof, lg, h, ?_, ?_⟩
  · unfold readData
    simp only []
    rw [h, clipMeasure_withInput]
    exact hb
  · unfold readData
    simp only []
    intro ht
    rw [h, clipMeasure_withInput]
    exact hs ht

/-- The retry loop around `ogg_stream_packetout` only takes packets out of the stream, and takes
at least the packet it answers with. -/
theorem packetoutAttempts_length (attempts : Nat) :
    ∀ os : ogg_stream_state,
      (packetoutAttempts attempts os).2.packets.length ≤ os.packets.length ∧
      (∀ op, (packetoutAttempts attempts os).1 = some (PacketOut.packet op) →
        (packetoutAttempts attempts os).2.packets.length < os.packets.length) := by
  induction attempts with
  | zero => intro os; simp [packetoutAttempts]
  | succ n ih =>
    intro os
    unfold packetoutAttempts ogg_stream_packetout
    cases hp : os.packets with
    | nil => simp [hp]
    | cons x rest =>
      cases x with
      | hole =>
        simp only []
        have := ih { os with packets := rest }
        simp only [List.length_cons] at this ⊢
        exact ⟨by omega, fun op h => by have := this.2 op h; omega⟩
      | packet op => simp

/-- The size of the input of a clip whose video stream was replaced. -/
theorem clipMeasure_theora (st stx : Clip) (os : ogg_stream_state)
    (hstx : stx = { st with info.TheoraStreamState := os }) :
    clipMeasure stx + 2 * st.info.TheoraStreamState.packets.length
      = clipMeasure st + 2 * os.packets.length := by
  subst hstx
  simp only [clipMeasure]; omega

/-- A pass through the loop of `_decodeNextFrame` that goes round again leaves less input; a
pass that leaves the loop leaves no more input. -/
theorem decodeNextFrameBody_measure (frame : Nat) (st : Clip) :
    (∀ st', decodeNextFrameBody frame st = LoopStep.next st' →
      clipMeasure st' < clipMeasure st) ∧
    (∀ st' b, decodeNextFrameBody frame st = LoopStep.leave (st', b) →
      clipMeasure st' ≤ clipMeasure st) := by
  have hat := packetoutAttempts_length 100 st.info.TheoraStreamState
  unfold decodeNextFrameBody
  rcases hpo : packetoutAttempts 100 st.info.TheoraStreamState with ⟨ans, os⟩
  rw [hpo] at hat
  simp only [] at hat
  obtain ⟨stx, hstx⟩ : ∃ stx : Clip, stx = { st with info.TheoraStreamState := os } := ⟨_, rfl⟩
  have hm := clipMeasure_theora st stx os hstx
  obtain ⟨rs, sy, ts, vd, eof, lg, hsh, hle, hlt⟩ := readData_shape stx
  have key : (∀ st', (match readData stx with
        | (st, false) => (LoopStep.leave
            ({ st with frameQueue :=
                updateFrame (fun slot => { slot with inUse := false }) frame st.frameQueue },
              st.autoRestart) : LoopStep Clip (Clip × Bool))
        | (st, true) => LoopStep.next st) = LoopStep.next st' →
        clipMeasure st' < clipMeasure st) ∧
      (∀ st' b, (match readData stx with
        | (st, false) => (LoopStep.leave
            ({ st with frameQueue :=
                updateFrame (fun slot => { slot with inUse := false }) frame st.frameQueue },
              st.autoRestart) : LoopStep Clip (Clip × Bool))
        | (st, true) => LoopStep.next st) = LoopStep.leave (st', b) →
        clipMeasure st' ≤ clipMeasure st) := by
    rcases hr : readData stx with ⟨st1, ok⟩
    rw [hr] at hle hlt
    simp only [] at hle hlt
    cases ok with
    | false =>
      simp only [reduceCtorEq, false_implies, implies_true, true_and, LoopStep.leave.injEq,
        Prod.mk.injEq, and_imp]
      intro st' b h1 _
      rw [← h1]
      show clipMeasure st1 ≤ _
      omega
    | true =>
      simp only [reduceCtorEq, false_implies, implies_true, and_true, LoopStep.next.injEq]
      intro st' h1
      rw [← h1]
      have := hlt rfl
      omega
  cases ans with
  | none => subst hstx; exact key
  | some a =>
    cases a with
    | hole => subst hstx; exact key
    | packet op =>
      simp only []
      have hlt2 := hat.2 op rfl
      constructor
      · intro st' h
        split_ifs at h with h1 h2
        · simp only [LoopStep.next.injEq] at h
          rw [← h, ← hstx]; omega
        · simp only [LoopStep.next.injEq] at h
          rw [← h]
          show clipMeasure { st with info.TheoraStreamState := os } < _
          rw [← hstx]
          omega
      · intro st' b h
        split_ifs at h with h1 h2
        simp only [LoopStep.leave.injEq, Prod.mk.injEq] at h
        rw [← h.1]
        show clipMeasure { st with info.TheoraStreamState := os } ≤ _
        rw [← hstx]
        omega

/-- The loop of `_decodeNextFrame` is left within as many passes as the clip has input before
it, and leaves no more input than it found. -/
theorem decodeNextFrameLoop_terminates (frame : Nat) (fuel : Nat) :
    ∀ st : Clip, clipMeasure st < fuel →
      ∃ st' b, decodeNextFrameLoop frame fuel st = some (st', b) ∧
        clipMeasure st' ≤ clipMeasure st := by
  induction fuel with
  | zero => intro st h; omega
  | succ n ih =>
    intro st h
    unfold decodeNextFrameLoop
    have hb := decodeNextFrameBody_measure frame st
    cases hbody : decodeNextFrameBody frame st with
    | next st1 =>
      have h1 := hb.1 st1 hbody
      obtain ⟨st', b, h2, h3⟩ := ih st1 (by omega)
      exact ⟨st', b, h2, by omega⟩
    | leave r =>
      obtain ⟨st1, b⟩ := r
      exact ⟨st1, b, rfl, hb.2 st1 b hbody⟩

/-- The size of the input of a clip whose retained audio stream was replaced. -/
theorem clipMeasure_vorbis (st stx : Clip) (vd : Option TheoraVorbisInfoStruct)
    (hstx : stx = { st with info.VorbisData := vd }) :
    clipMeasure stx + vorbisWeight st.info.VorbisData = clipMeasure st + vorbisWeight vd := by
  subst hstx
  simp only [clipMeasure]; omega

/-- The end of a pass of `_decodeAudio` without a packet goes round again with less input, or
leaves the loop with no more input. -/
theorem decodeAudioStarved_measure (st : Clip) (timeStamp : ℚ) (readPast : Bool) :
    (∀ st' t' r', decodeAudioStarved st timeStamp readPast = LoopStep.next (st', t', r') →
      clipMeasure st' < clipMeasure st) ∧
    (∀ st' t', decodeAudioStarved st timeStamp readPast = LoopStep.leave (st', t') →
      clipMeasure st' ≤ clipMeasure st) := by
  unfold decodeAudioStarved
  simp only []
  obtain ⟨rs, sy, ts, vd, eof, lg, hsh, hle, hlt⟩ := readData_shape st
  rcases hr : readData st with ⟨st1, ok⟩
  rw [hr] at hle hlt
  simp only [] at hle hlt
  constructor
  · intro st' t' r' h
    split_ifs at h
    cases ok with
    | false => simp at h
    | true =>
      simp only [LoopStep.next.injEq, Prod.mk.injEq] at h
      rw [← h.1]
      exact hlt rfl
  · intro st' t' h
    split_ifs at h
    · simp only [LoopStep.leave.injEq, Prod.mk.injEq] at h
      rw [← h.1]
    · cases ok with
      | false =>
        simp only [LoopStep.leave.injEq, Prod.mk.injEq] at h
        rw [← h.1]; exact hle
      | true => simp at h

/-- A pass through the loop of `_decodeAudio` that goes round again leaves less input; a pass
that leaves the loop leaves no more input. -/
theorem decodeAudioBody_measure (st : Clip) (timeStamp : ℚ) (readPast : Bool) :
    (∀ st' t' r', decodeAudioBody st timeStamp readPast = LoopStep.next (st', t', r') →
      clipMeasure st' < clipMeasure st) ∧
    (∀ st' t', decodeAudioBody st timeStamp readPast = LoopStep.leave (st', t') →
      clipMeasure st' ≤ clipMeasure st) := by
  unfold decodeAudioBody
  cases hv : st.info.VorbisData with
  | none =>
    simp only [reduceCtorEq, false_implies, implies_true, true_and, LoopStep.leave.injEq,
      Prod.mk.injEq, and_imp]
    intro st' t' h _
    rw [← h]
  | some vorbis =>
    simp only []
    by_cases hlen : ((vorbis.VorbisDSPState.length : Nat) : Int) = 0
    · rw [if_pos hlen]
      have hdsp : vorbis.VorbisDSPState = [] := by
        have : vorbis.VorbisDSPState.length = 0 := by exact_mod_cast hlen
        exact List.length_eq_zero.mp this
      unfold ogg_stream_packetout
      have starved : ∀ os : ogg_stream_state,
          os.packets.length ≤ vorbis.VorbisStreamState.packets.length →
          (∀ st' t' r', decodeAudioStarved
              { st with info.VorbisData := some { vorbis with VorbisStreamState := os } }
              timeStamp readPast = LoopStep.next (st', t', r') →
            clipMeasure st' < clipMeasure st) ∧
          (∀ st' t', decodeAudioStarved
              { st with info.VorbisData := some { vorbis with VorbisStreamState := os } }
              timeStamp readPast = LoopStep.leave (st', t') →
            clipMeasure st' ≤ clipMeasure st) := by
        intro os hos
        obtain ⟨stx, hstx⟩ : ∃ stx : Clip, stx =
            { st with info.VorbisData := some { vorbis with VorbisStreamState := os } } :=
          ⟨_, rfl⟩
        have hm := clipMeasure_vorbis st stx _ hstx
        rw [hv] at hm
        simp only [vorbisWeight] at hm
        have hs := decodeAudioStarved_measure stx timeStamp readPast
        have res : (∀ st' t' r', decodeAudioStarved stx timeStamp readPast =
              LoopStep.next (st', t', r') → clipMeasure st' < clipMeasure st) ∧
            (∀ st' t', decodeAudioStarved stx timeStamp readPast = LoopStep.leave (st', t') →
              clipMeasure st' ≤ clipMeasure st) :=
          ⟨fun st' t' r' h => by have := hs.1 st' t' r' h; omega,
            fun st' t' h => by have := hs.2 st' t' h; omega⟩
        rw [hstx] at res
        exact res
      cases hp : vorbis.VorbisStreamState.packets with
      | nil => exact starved vorbis.VorbisStreamState (le_refl _)
      | cons x rest =>
        cases x with
        | hole =>
          exact starved { vorbis.VorbisStreamState with packets := rest } (by simp [hp])
        | packet op =>
          simp only []
          refine ⟨?_, ?_⟩
          · intro st' t' r' h
            by_cases hs : op.vorbis_synthesis = 0
            · rw [if_pos hs] at h
              simp only [LoopStep.next.injEq, Prod.mk.injEq] at h
              rw [← h.1]
              simp only [clipMeasure, vorbisWeight, hv, hp, List.length_cons]
              split_ifs <;> omega
            · rw [if_neg hs] at h
              simp only [LoopStep.next.injEq, Prod.mk.injEq] at h
              rw [← h.1]
              simp only [clipMeasure, vorbisWeight, hv, hp, List.length_cons]
              split_ifs <;> omega
          · intro st' t' h
            split_ifs at h
    · rw [if_neg hlen]
      have hdsp : vorbis.VorbisDSPState.isEmpty = false := by
        cases hd : vorbis.VorbisDSPState with
        | nil => rw [hd] at hlen; simp at hlen
        | cons _ _ => rfl
      constructor
      · intro st' t' r' h
        simp only [LoopStep.next.injEq, Prod.mk.injEq] at h
        rw [← h.1]
        simp only [clipMeasure, addAudioPacket, hv, vorbisWeight, hdsp, List.isEmpty_nil,
          if_true, Bool.false_eq_true, if_false]
        omega
      · intro st' t' h
        simp at h

/-- The loop of `_decodeAudio` is left within as many passes as the clip has input before it,
and leaves no more input than it found. -/
theorem decodeAudioLoop_terminates (fuel : Nat) :
    ∀ (st : Clip) (timeStamp : ℚ) (readPast : Bool), clipMeasure st < fuel →
      ∃ st' t', decodeAudioLoop fuel st timeStamp readPast = some (st', t') ∧
        clipMeasure st' ≤ clipMeasure st := by
  induction fuel with
  | zero => intro st _ _ h; omega
  | succ n ih =>
    intro st timeStamp readPast h
    unfold decodeAudioLoop
    have hb := decodeAudioBody_measure st timeStamp readPast
    cases hbody : decodeAudioBody st timeStamp readPast with
    | next r =>
      obtain ⟨st1, t1, r1⟩ := r
      have h1 := hb.1 st1 t1 r1 hbody
      obtain ⟨st', t', h2, h3⟩ := ih st1 t1 r1 (by omega)
      exact ⟨st', t', h2, by omega⟩
    | leave r =>
      obtain ⟨st1, t1⟩ := r
      exact ⟨st1, t1, rfl, hb.2 st1 t1 hbody⟩

/-- The call `_decodeAudio` returns within as many passes as the clip has input before it. -/
theorem decodeAudio_terminates (fuel : Nat) (st : Clip) (h : clipMeasure st < fuel) :
    ∃ st' t', decodeAudio fuel st = some (st', t') ∧ clipMeasure st' ≤ clipMeasure st := by
  unfold decodeAudio
  split_ifs
  · exact ⟨st, -1, rfl, le_refl _⟩
  · exact decodeAudioLoop_terminates fuel st (-1) false h

/-! ### `_decodeNextFrame` -/

/-- C8 (amended). `_decodeNextFrame` returns `false` exactly when `endOfFile` is already set or
the frame queue has no empty slot, and then leaves the clip as it is; every other call returns
`true`, whether it publishes a frame or ends on the exhaustion of the data source.  The call
returns once its loops are given as many passes as the clip has input before it. -/
theorem decodeNextFrame_returns :
    (∀ (fuel : Nat) (st : Clip) (result : Clip × Bool),
      decodeNextFrame fuel st = some result →
      (result.2 = false ↔
        (st.endOfFile = true ∨ requestEmptyFrame st.frameQueue = none)) ∧
      (result.2 = false → result.1 = st)) ∧
    (∀ (fuel : Nat) (st : Clip), clipMeasure st < fuel →
      ∃ result, decodeNextFrame fuel st = some result) := by
  constructor
  · intro fuel st result h
    unfold decodeNextFrame at h
    by_cases he : st.endOfFile = true
    · rw [if_pos he] at h
      simp only [Option.some.injEq] at h
      subst h
      exact ⟨⟨fun _ => Or.inl he, fun _ => rfl⟩, fun _ => rfl⟩
    · rw [if_neg he] at h
      cases hq : requestEmptyFrame st.frameQueue with
      | none =>
        rw [hq] at h
        simp only [Option.some.injEq] at h
        subst h
        exact ⟨⟨fun _ => Or.inr rfl, fun _ => rfl⟩, fun _ => rfl⟩
      | some slot =>
        obtain ⟨frame, queue⟩ := slot
        rw [hq] at h
        simp only [] at h
        have htrue : result.2 = true := by
          cases hl : decodeNextFrameLoop frame fuel { st with frameQueue := queue } with
          | none => rw [hl] at h; simp at h
          | some r =>
            obtain ⟨st1, shouldRestart⟩ := r
            rw [hl] at h
            simp only [] at h
            split at h
            · simp at h
            · split_ifs at h <;> simp only [Option.some.injEq] at h <;> rw [← h]
        refine ⟨⟨fun hf => ?_, fun hor => ?_⟩, fun hf => ?_⟩
        · rw [htrue] at hf; exact absurd hf (by decide)
        · rcases hor with h1 | h1
          · exact absurd h1 he
          · simp at h1
        · rw [htrue] at hf; exact absurd hf (by decide)
  · intro fuel st hm
    unfold decodeNextFrame
    by_cases he : st.endOfFile = true
    · rw [if_pos he]; exact ⟨_, rfl⟩
    · rw [if_neg he]
      cases hq : requestEmptyFrame st.frameQueue with
      | none => exact ⟨_, rfl⟩
      | some slot =>
        obtain ⟨frame, queue⟩ := slot
        simp only []
        have hm1 : clipMeasure { st with frameQueue := queue } < fuel := hm
        obtain ⟨st1, shouldRestart, hl, hle⟩ :=
          decodeNextFrameLoop_terminates frame fuel { st with frameQueue := queue } hm1
        rw [hl]
        simp only []
        by_cases ha : st1.audioInterface = true
        · have hm2 : clipMeasure st1 < fuel := lt_of_le_of_lt hle hm1
          obtain ⟨st2, t2, hd, _⟩ := decodeAudio_terminates fuel st1 hm2
          rw [if_pos ha, hd]
          simp only [Option.map_some']
          split_ifs <;> exact ⟨_, rfl⟩
        · rw [if_neg ha]
          simp only []
          split_ifs <;> exact ⟨_, rfl⟩

/-- Witness of C8 (amended): a clip with a free slot, no packet and an exhausted data source.  The
call returns, and what it returns is `true`. -/
theorem decodeNextFrame_returns_witness :
    (∃ result, decodeNextFrame 1 (exampleClip []) = some result) ∧
    (((exampleClip []).endOfFile = true ∨
        requestEmptyFrame (exampleClip []).frameQueue = none) → False) :=
  ⟨decodeNextFrame_returns.2 1 (exampleClip []) (by decide),
    fun h => absurd
      ((decodeNextFrame_returns.1 1 (exampleClip [])
        ((decodeNextFrame 1 (exampleClip [])).get (by decide)) (by simp)).1.2 h)
      (by decide)⟩

/-- C8, counterexample. On a clip with a free slot, no video packet and an exhausted data source
(and `autoRestart` off) `_decodeNextFrame` returns `true` although it published no frame: no
slot is ready before or after the call, the slot it had taken is released,
`lastDecodedFrameNumber` is still 0 and `endOfFile` is set. -/
theorem decodeNextFrame_true_without_publishing :
    (exampleClip []).frameQueue.map (fun slot => (slot.ready, slot.inUse)) = [(false, false)] ∧
    (exampleClip []).lastDecodedFrameNumber = 0 ∧
    (decodeNextFrame 1 (exampleClip [])).map
        (fun result => (result.2, result.1.frameQueue.map (fun slot => (slot.ready, slot.inUse)),
          result.1.lastDecodedFrameNumber, result.1.endOfFile)) =
      some (true, [(false, false)], 0, true) :=
  ⟨rfl, rfl, rfl⟩

/-- C9. In `_decodeNextFrame`, a packet decoded with status success or duplicate-frame, with
granule time `t` and frame number `n`, is dropped (`droppedFramesCount` goes up by exactly one,
the frame slots and `lastDecodedFrameNumber` stay as they are, and the loop goes round again) if
and only if `t < clock.now()`, `restarted` is false and `n mod 16 ≠ 0`; otherwise, and so whenever
`n` is a multiple of 16, the frame is stamped and published and the loop is left. -/
theorem decodeNextFrame_drop_policy (frame : Nat) (st : Clip) (opTheora : ogg_packet)
    (os : ogg_stream_state)
    (hout : packetoutAttempts 100 st.info.TheoraStreamState =
      (some (PacketOut.packet opTheora), os))
    (hstatus : opTheora.th_decode_packetin = 0 ∨ opTheora.th_decode_packetin = TH_DUPFRAME) :
    ((∃ st', decodeNextFrameBody frame st = LoopStep.next st' ∧
        st'.droppedFramesCount = st.droppedFramesCount + 1 ∧
        st'.frameQueue = st.frameQueue ∧
        st'.lastDecodedFrameNumber = st.lastDecodedFrameNumber) ↔
      (st.info.th_granule_time opTheora.th_granulepos < st.timer.time ∧ st.restarted = false ∧
        toUnsignedLong (st.info.th_granule_frame opTheora.th_granulepos) % 16 ≠ 0)) ∧
    (¬ (st.info.th_granule_time opTheora.th_granulepos < st.timer.time ∧ st.restarted = false ∧
        toUnsignedLong (st.info.th_granule_frame opTheora.th_granulepos) % 16 ≠ 0) →
      ∃ st', decodeNextFrameBody frame st = LoopStep.leave (st', false) ∧
        st' = publishFrame { st with info.TheoraStreamState := os } frame
          (st.info.th_granule_time opTheora.th_granulepos)
          (toUnsignedLong (st.info.th_granule_frame opTheora.th_granulepos)) ∧
        st'.droppedFramesCount = st.droppedFramesCount ∧
        st'.lastDecodedFrameNumber =
          toUnsignedLong (st.info.th_granule_frame opTheora.th_granulepos) ∧
        st'.frameQueue = updateFrame (fun slot =>
          { slot with
            timeToDisplay := st.info.th_granule_time opTheora.th_granulepos - st.frameDuration
            iteration := st.iteration
            frameNumber :=
              wrapInt32 (toUnsignedLong (st.info.th_granule_frame opTheora.th_granulepos))
            ready := true }) frame st.frameQueue) ∧
    (toUnsignedLong (st.info.th_granule_frame opTheora.th_granulepos) % 16 = 0 →
      decodeNextFrameBody frame st =
        LoopStep.leave (publishFrame { st with info.TheoraStreamState := os } frame
          (st.info.th_granule_time opTheora.th_granulepos)
          (toUnsignedLong (st.info.th_granule_frame opTheora.th_granulepos)), false)) ∧
    ((st.info.th_granule_time opTheora.th_granulepos < st.timer.time ∧ st.restarted = false ∧
        toUnsignedLong (st.info.th_granule_frame opTheora.th_granulepos) % 16 ≠ 0) →
      ∀ fuel, decodeNextFrameLoop frame (fuel + 1) st =
        decodeNextFrameLoop frame fuel
          { st with info.TheoraStreamState := os
                    droppedFramesCount := st.droppedFramesCount + 1 }) ∧
    (¬ (st.info.th_granule_time opTheora.th_granulepos < st.timer.time ∧ st.restarted = false ∧
        toUnsignedLong (st.info.th_granule_frame opTheora.th_granulepos) % 16 ≠ 0) →
      ∀ fuel, decodeNextFrameLoop frame (fuel + 1) st =
        some (publishFrame { st with info.TheoraStreamState := os } frame
          (st.info.th_granule_time opTheora.th_granulepos)
          (toUnsignedLong (st.info.th_granule_frame opTheora.th_granulepos)), false)) := by
  have hst : ¬ (opTheora.th_decode_packetin ≠ 0 ∧ opTheora.th_decode_packetin ≠ TH_DUPFRAME) := by
    rintro ⟨h0, h1⟩
    rcases hstatus with h | h
    · exact h0 h
    · exact h1 h
  have hbody : decodeNextFrameBody frame st =
      if st.info.th_granule_time opTheora.th_granulepos < st.timer.time ∧ ¬ st.restarted = true ∧
          toUnsignedLong (st.info.th_granule_frame opTheora.th_granulepos) % 16 ≠ 0 then
        LoopStep.next { st with info.TheoraStreamState := os
                                droppedFramesCount := st.droppedFramesCount + 1 }
      else
        LoopStep.leave (publishFrame { st with info.TheoraStreamState := os } frame
          (st.info.th_granule_time opTheora.th_granulepos)
          (toUnsignedLong (st.info.th_granule_frame opTheora.th_granulepos)), false) := by
    unfold decodeNextFrameBody
    rw [hout]
    simp only []
    rw [if_neg hst]
  have hr : (st.info.th_granule_time opTheora.th_granulepos < st.timer.time ∧
        st.restarted = false ∧
        toUnsignedLong (st.info.th_granule_frame opTheora.th_granulepos) % 16 ≠ 0) ↔
      (st.info.th_granule_time opTheora.th_granulepos < st.timer.time ∧
        ¬ st.restarted = true ∧
        toUnsignedLong (st.info.th_granule_frame opTheora.th_granulepos) % 16 ≠ 0) := by
    cases st.restarted <;> simp
  have hloop : ∀ fuel, decodeNextFrameLoop frame (fuel + 1) st =
      match decodeNextFrameBody frame st with
      | LoopStep.next st => decodeNextFrameLoop frame fuel st
      | LoopStep.leave result => some result := fun _ => rfl
  refine ⟨⟨?_, ?_⟩, ?_, ?_, ?_, ?_⟩
  · rintro ⟨st', h, _⟩
    by_contra hc
    rw [hbody, if_neg (fun h' => hc (hr.mpr h'))] at h
    exact absurd h (by simp)
  · intro hc
    rw [hbody, if_pos (hr.mp hc)]
    exact ⟨_, rfl, rfl, rfl, rfl⟩
  · intro hc
    rw [hbody, if_neg (fun h' => hc (hr.mpr h'))]
    exact ⟨_, rfl, rfl, rfl, rfl, rfl⟩
  · intro h16
    rw [hbody, if_neg (fun hc => hc.2.2 h16)]
  · intro hc fuel
    rw [hloop, hbody, if_pos (hr.mp hc)]
  · intro hc fuel
    rw [hloop, hbody, if_neg (fun h' => hc (hr.mpr h'))]

/-- Witness of C9: frame 16 arrives late (granule time `16 / 25`, clock at `100`) on a clip that
is not restarted; being a multiple of 16 it is published. -/
theorem decodeNextFrame_drop_policy_witness :
    decodeNextFrameBody 0
        { exampleClip [] with
          timer := { time := 100, paused := false }
          info.TheoraStreamState :=
            { serialno := 1, packets := [PacketOut.packet (examplePacket 0 0 0 16)] } } =
      LoopStep.leave (publishFrame
        { exampleClip [] with
          timer := { time := 100, paused := false }
          info.TheoraStreamState := { serialno := 1, packets := [] } } 0 ((16 : ℚ) / 25) 16,
        false) :=
  (decodeNextFrame_drop_policy 0
    { exampleClip [] with
      timer := { time := 100, paused := false }
      info.TheoraStreamState :=
        { serialno := 1, packets := [PacketOut.packet (examplePacket 0 0 0 16)] } }
    (examplePacket 0 0 0 16) { serialno := 1, packets := [] } rfl (Or.inl rfl)).2.2.1 (by decide)

/-! ### `_readTheoraVorbisHeaders` -/

/-- C7, the code at an incomplete audio stream.  The selection loop retains a candidate that is
the only one whatever its header count, and `_readTheoraVorbisHeaders` hands it such candidates:
in the first file the data ends after the first Vorbis header; in the second the second Vorbis
header is rejected by `vorbis_synthesis_headerin`.  In both the call returns normally, with the
three Theora headers read and the data used up, and retains the audio stream of serial number 2
although it has absorbed one header only. -/
theorem readTheoraVorbisHeaders_retains_incomplete_audio :
    (∀ (langPref : CppString) (serialnum : Int) (vorbinfo : TheoraVorbisInfoStruct),
      (selectAudioStream langPref [(serialnum, vorbinfo)]).VorbisData = some vorbinfo) ∧
    ((readTheoraVorbisHeaders 5 true [] (exampleClip truncatedAudioReads)).bind
        Except.toOption).map
        (fun st => (st.theoraStreams, st.stream.reads.length,
          st.info.VorbisData.map (fun vorbis =>
            (vorbis.VorbisStreamState.serialno, vorbis.vorbisHeaders)))) =
      some (3, 0, some (2, 1)) ∧
    ((readTheoraVorbisHeaders 5 true [] (exampleClip rejectedAudioReads)).bind
        Except.toOption).map
        (fun st => (st.theoraStreams, st.stream.reads.length,
          st.info.VorbisData.map (fun vorbis =>
            (vorbis.VorbisStreamState.serialno, vorbis.vorbisHeaders)))) =
      some (3, 0, some (2, 1)) := by
  refine ⟨?_, rfl, rfl⟩
  intro langPref serialnum vorbinfo
  rcases selectAudioStream_invariant langPref [(serialnum, vorbinfo)] with
    ⟨h, _⟩ | ⟨e, he, hv, _⟩
  · simp at h
  · simp only [List.mem_singleton] at he
    rw [hv, he]

/-! ### `_executeSeek` -/

/-- The call `_readData` leaves `seekFrame` as it is. -/
theorem readData_seekFrame (st : Clip) : (readData st).1.seekFrame = st.seekFrame := by
  obtain ⟨rs, sy, ts, vd, eof, lg, h, _⟩ := readData_shape st
  rw [h]; rfl

/-- A probe of `_seekPage` leaves `seekFrame` as it is. -/
theorem seekPageProbe_seekFrame (targetFrame : Int) (fuel : Nat) :
    ∀ (st : Clip) (loc : SeekPageLocals) (result : Clip × SeekPageLocals × Bool),
      seekPageProbe targetFrame fuel st loc = some result →
      result.1.seekFrame = st.seekFrame := by
  induction fuel with
  | zero => intro st loc result h; simp [seekPageProbe] at h
  | succ n ih =>
    intro st loc result h
    unfold seekPageProbe ogg_sync_pageout at h
    cases hs : st.info.OggSyncState with
    | nil =>
      rw [hs] at h
      simp only [] at h
      cases hr : st.stream.reads with
      | nil =>
        rw [hr] at h
        simp only [Option.some.injEq] at h
        rw [← h]
      | cons r rest =>
        rw [hr] at h
        simp only [] at h
        split_ifs at h
        · simp only [Option.some.injEq] at h
          rw [← h]
        · exact (ih _ _ _ h).trans rfl
    | cons x rest =>
      rw [hs] at h
      cases x with
      | unsynced =>
        simp only [] at h
        cases hr : st.stream.reads with
        | nil =>
          rw [hr] at h
          simp only [Option.some.injEq] at h
          rw [← h]
        | cons r rest =>
          rw [hr] at h
          simp only [] at h
          split_ifs at h
          · simp only [Option.some.injEq] at h
            rw [← h]
          · exact (ih _ _ _ h).trans rfl
      | page og =>
        simp only [] at h
        split_ifs at h
        all_goals first
          | (simp only [Option.some.injEq] at h
             rw [← h])
          | exact (ih _ _ _ h).trans rfl

/-- The probes of `_seekPage` leave `seekFrame` as it is. -/
theorem seekPageFor_seekFrame (targetFrame : Int) (fuel : Nat) (remaining : Nat) :
    ∀ (st : Clip) (loc : SeekPageLocals) (result : Clip × SeekPageLocals),
      seekPageFor targetFrame fuel remaining st loc = some result →
      result.1.seekFrame = st.seekFrame := by
  induction remaining with
  | zero =>
    intro st loc result h
    simp only [seekPageFor, Option.some.injEq] at h
    rw [← h]
  | succ n ih =>
    intro st loc result h
    unfold seekPageFor at h
    simp only [] at h
    cases hp : seekPageProbe targetFrame fuel
        { st with info.OggSyncState := []
                  stream := st.stream.seek (loc.seekMin / 2 + loc.seekMax / 2) } loc with
    | none => rw [hp] at h; simp at h
    | some r =>
      obtain ⟨st1, loc1, close⟩ := r
      have h1 := seekPageProbe_seekFrame targetFrame fuel _ _ _ hp
      rw [hp] at h
      cases close with
      | true =>
        simp only [Option.some.injEq] at h
        rw [← h]; exact h1
      | false =>
        simp only [] at h
        rw [ih _ _ _ h]; exact h1

/-- The call `_seekPage` leaves `seekFrame` as it is. -/
theorem seekPage_seekFrame (fuel : Nat) (st : Clip) (targetFrame : Int) (returnKeyFrame : Bool)
    (result : Clip × Int) (h : seekPage fuel st targetFrame returnKeyFrame = some result) :
    result.1.seekFrame = st.seekFrame := by
  unfold seekPage at h
  simp only [] at h
  by_cases ht : targetFrame = 0
  · simp only [ht, if_true, ne_eq, not_true_eq_false, if_false] at h
    split_ifs at h <;> simp only [Option.some.injEq] at h <;> rw [← h]
  · simp only [ht, if_false, ne_eq, not_false_eq_true, if_true] at h
    cases hf : seekPageFor targetFrame fuel 100 st
        { seekMin := 0, seekMax := st.stream.size, frame := 0, granule := 0 } with
    | none => rw [hf] at h; simp at h
    | some r =>
      obtain ⟨st1, loc1⟩ := r
      have h1 := seekPageFor_seekFrame targetFrame fuel 100 _ _ _ hf
      rw [hf] at h
      simp only [] at h
      split_ifs at h <;> simp only [Option.some.injEq] at h <;> rw [← h] <;> exact h1

/-- The part of `_executeSeek` before the fine seek loop leaves `seekFrame` as it is. -/
theorem seekPrepare_seekFrame (fuel : Nat) (st : Clip)
    (result : Clip × ℚ × Bool × Bool × Int) (h : seekPrepare fuel st = some result) :
    result.1.seekFrame = st.seekFrame := by
  unfold seekPrepare at h
  simp only [] at h
  split at h
  · simp at h
  · rename_i st1 keyFrame hk
    have h1 := seekPage_seekFrame _ _ _ _ _ hk
    split at h
    · simp at h
    · rename_i st2 x hk2
      have h2 := seekPage_seekFrame _ _ _ _ _ hk2
      simp only [] at h1 h2
      have h3 : st1.seekFrame = st.seekFrame := by
        rw [h1]; split_ifs <;> rfl
      split_ifs at h <;> simp only [Option.some.injEq] at h <;> rw [← h] <;>
        simp only [] <;> rw [h2, h3]

/-- A pass through the fine seek loop leaves `seekFrame` as it is, whether it goes round again or
ends in failure. -/
theorem fineSeekBody_seekFrame (st : Clip) (granuleSet : Bool) (frame : Int) :
    (∀ st' g f, fineSeekBody st granuleSet frame = LoopStep.next (st', g, f) →
      st'.seekFrame = st.seekFrame) ∧
    (∀ st', fineSeekBody st granuleSet frame = LoopStep.leave (FineSeek.failed st') →
      st'.seekFrame = st.seekFrame) := by
  unfold fineSeekBody ogg_stream_packetout
  have starved : ∀ os : ogg_stream_state,
      (∀ st' g f, (match readData { st with info.TheoraStreamState := os } with
          | (st, false) => (LoopStep.leave (FineSeek.failed
              { st with log :=
                  (st.name ++ " [seek]: fineseeking failed, _readData failed!") :: st.log }) :
                LoopStep (Clip × Bool × Int) FineSeek)
          | (st, true) => LoopStep.next (st, granuleSet, frame)) = LoopStep.next (st', g, f) →
        st'.seekFrame = st.seekFrame) ∧
      (∀ st', (match readData { st with info.TheoraStreamState := os } with
          | (st, false) => (LoopStep.leave (FineSeek.failed
              { st with log :=
                  (st.name ++ " [seek]: fineseeking failed, _readData failed!") :: st.log }) :
                LoopStep (Clip × Bool × Int) FineSeek)
          | (st, true) => LoopStep.next (st, granuleSet, frame)) =
            LoopStep.leave (FineSeek.failed st') →
        st'.seekFrame = st.seekFrame) := by
    intro os
    have hrd := readData_seekFrame { st with info.TheoraStreamState := os }
    rcases hr : readData { st with info.TheoraStreamState := os } with ⟨st1, ok⟩
    rw [hr] at hrd
    simp only [] at hrd
    cases ok with
    | false =>
      refine ⟨fun st' g f h => by simp at h, fun st' h => ?_⟩
      simp only [LoopStep.leave.injEq, FineSeek.failed.injEq] at h
      rw [← h]; exact hrd
    | true =>
      refine ⟨fun st' g f h => ?_, fun st' h => by simp at h⟩
      simp only [LoopStep.next.injEq, Prod.mk.injEq] at h
      rw [← h.1]; exact hrd
  by_cases hz : st.seekFrame ≠ 0
  · rw [if_pos hz]
    cases hp : st.info.TheoraStreamState.packets with
    | nil => exact starved _
    | cons x rest =>
      cases x with
      | hole => exact starved _
      | packet op =>
        simp only []
        constructor
        · intro st' g f h
          split_ifs at h <;> simp only [LoopStep.next.injEq, Prod.mk.injEq] at h <;>
            rw [← h.1]
        · intro st' h
          split_ifs at h <;> simp at h
  · rw [if_neg hz]
    exact ⟨fun st' g f h => by simp at h, fun st' h => by simp at h⟩

/-- A fine seek loop that ends in failure leaves `seekFrame` as it is. -/
theorem fineSeekLoop_failed_seekFrame (fuel : Nat) :
    ∀ (st : Clip) (granuleSet : Bool) (frame : Int) (st' : Clip),
      fineSeekLoop fuel st granuleSet frame = some (FineSeek.failed st') →
      st'.seekFrame = st.seekFrame := by
  induction fuel with
  | zero => intro st g f st' h; simp [fineSeekLoop] at h
  | succ n ih =>
    intro st g f st' h
    unfold fineSeekLoop at h
    have hb := fineSeekBody_seekFrame st g f
    cases hbody : fineSeekBody st g f with
    | next r =>
      obtain ⟨st1, g1, f1⟩ := r
      rw [hbody] at h
      simp only [] at h
      rw [ih _ _ _ _ h]
      exact hb.1 _ _ _ hbody
    | leave r =>
      rw [hbody] at h
      simp only [Option.some.injEq] at h
      rw [h] at hbody
      exact hb.2 _ hbody

/-- C10, the code at a failing seek.  Whenever `_executeSeek` ends in the failure branch of its
fine seek loop it returns at line 472 with `seekFrame` as it was, so a pending seek stays pending.
A three-frame clip asked to seek to frame 5 is such a run: the coarse seek finds the page of
frame 3, the fine seek decodes frames 1 and 2 and then `_readData` reports exhaustion; the clip is
left with `seekFrame` 5, not -1, and with the clock, which was playing, paused.  The same happens
on a clip whose data source has nothing left at all. -/
theorem executeSeek_failed_seek_stays_pending :
    (∀ (fuel : Nat) (st : Clip), fineSeekFails fuel st = true →
      (executeSeek fuel st).returnedClip.map (fun st' => st'.seekFrame) = some st.seekFrame) ∧
    (executeSeek 5 { exampleClip shortVideoReads with seekFrame := 5 }).returnedClip.map
        (fun st => (st.seekFrame, st.timer.paused, st.endOfFile, st.stream.reads.length,
          st.info.TheoraStreamState.packets.length, st.log)) =
      some (5, true, true, 0, 0,
        ["clip [seek]: fineseeking failed, _readData failed!", "clip finished playing"]) ∧
    (executeSeek 1 { exampleClip [] with seekFrame := 5 }).returnedClip.map
        (fun st => (st.seekFrame, st.timer.paused, st.endOfFile, st.log)) =
      some (5, true, true,
        ["clip [seek]: fineseeking failed, _readData failed!", "clip finished playing"]) := by
  refine ⟨?_, rfl, rfl⟩
  intro fuel st h
  unfold fineSeekFails at h
  unfold executeSeek
  cases hp : seekPrepare fuel st with
  | none => rw [hp] at h; simp at h
  | some r =>
    obtain ⟨st1, time, paused, granuleSet, frame⟩ := r
    have h1 := seekPrepare_seekFrame fuel st _ hp
    rw [hp] at h
    simp only [] at h h1 ⊢
    cases hf : fineSeekLoop fuel st1 granuleSet frame with
    | none => rw [hf] at h; simp at h
    | some res =>
      cases res with
      | reached st2 fr => rw [hf] at h; simp at h
      | failed st2 =>
        have h2 := fineSeekLoop_failed_seekFrame fuel st1 granuleSet frame st2 hf
        simp only [Outcome.returnedClip, Option.map_some', Option.some.injEq]
        rw [h2, h1]

/-- Witness of the general part of C10: the three-frame clip asked to seek to frame 5. -/
theorem executeSeek_failed_seek_stays_pending_witness :
    (executeSeek 5 { exampleClip shortVideoReads with seekFrame := 5 }).returnedClip.map
        (fun st' => st'.seekFrame) = some 5 :=
  executeSeek_failed_seek_stays_pending.1 5
    { exampleClip shortVideoReads with seekFrame := 5 } rfl

/-- The call `_readData` leaves the bookkeeping fields of the clip as they are. -/
theorem readData_bookkeeping (st : Clip) : (readData st).1.bookkeeping = st.bookkeeping := by
  obtain ⟨rs, sy, ts, vd, eof, lg, h, _⟩ := readData_shape st
  rw [h]; rfl

/-- The rounds of `_readData` leave `endOfFile` as it is when they succeed, and set it on
exhaustion unless `autoRestart` is on. -/
theorem readDataRounds_endOfFile (time : ℚ) (l : List ReadResult) :
    ∀ (st : Clip) (audioEos : Int) (audioTime : ℚ),
      ((readDataRounds time l st audioEos audioTime).2 = true →
        (readDataRounds time l st audioEos audioTime).1.endOfFile = st.endOfFile) ∧
      ((readDataRounds time l st audioEos audioTime).2 = false →
        (readDataRounds time l st audioEos audioTime).1.endOfFile =
          (!st.autoRestart || st.endOfFile)) := by
  have hex : ∀ st : Clip, (readDataExhausted st).endOfFile =
      (!st.autoRestart || st.endOfFile) := by
    intro st
    unfold readDataExhausted
    cases ha : st.autoRestart <;> simp
  induction l with
  | nil =>
    intro st e t
    unfold readDataRounds
    exact ⟨fun h => by simp at h, fun _ => hex _⟩
  | cons r rest ih =>
    intro st e t
    unfold readDataRounds
    simp only []
    by_cases hr : r.bytesRead = 0
    · rw [if_pos hr]
      exact ⟨fun h => by simp at h, fun _ => hex _⟩
    · rw [if_neg hr]
      obtain ⟨sy1, ts1, vd1, h1, _⟩ := readDataPages_shape
        (ogg_sync_wrote st.info.OggSyncState r)
        ({ st with stream.reads := rest
                   info.OggSyncState := ogg_sync_wrote st.info.OggSyncState r }) e t
      rcases hp : readDataPages (ogg_sync_wrote st.info.OggSyncState r)
        ({ st with stream.reads := rest
                   info.OggSyncState := ogg_sync_wrote st.info.OggSyncState r }) e t
        with ⟨st1, e1, t1⟩
      rw [hp] at h1
      simp only [] at h1 ⊢
      have ha : st1.autoRestart = st.autoRestart := by rw [h1]; rfl
      have he : st1.endOfFile = st.endOfFile := by rw [h1]; rfl
      split_ifs with hc
      · rw [← ha, ← he]
        exact ih st1 e1 t1
      · exact ⟨fun _ => he, fun h => by simp at h⟩

/-- The call `_readData` leaves `endOfFile` as it is when it succeeds, and sets it on exhaustion
unless `autoRestart` is on. -/
theorem readData_endOfFile (st : Clip) :
    ((readData st).2 = true → (readData st).1.endOfFile = st.endOfFile) ∧
    ((readData st).2 = false →
      (readData st).1.endOfFile = (!st.autoRestart || st.endOfFile)) :=
  readDataRounds_endOfFile _ _ st 0 0

/-- Every clip keeps its own bookkeeping. -/
theorem Clip.keptBy_refl (st : Clip) : st.keptBy st := ⟨rfl, fun h => h⟩

/-- Steps that keep the bookkeeping compose. -/
theorem Clip.keptBy_trans (a b c : Clip) (h1 : a.keptBy b) (h2 : b.keptBy c) : a.keptBy c :=
  ⟨h2.1.trans h1.1, fun h => h2.2 (h1.2 h)⟩

/-- The call `_readData` keeps the bookkeeping. -/
theorem readData_keptBy (st : Clip) : st.keptBy (readData st).1 := by
  refine ⟨readData_bookkeeping st, fun h => ?_⟩
  have he := readData_endOfFile st
  cases hr : (readData st).2 with
  | true => rw [he.1 hr]; exact h
  | false => rw [he.2 hr, h]; simp

/-- The end of a pass of `_decodeAudio` without a packet keeps the bookkeeping. -/
theorem decodeAudioStarved_keptBy (st : Clip) (timeStamp : ℚ) (readPast : Bool) :
    (∀ st' t' r', decodeAudioStarved st timeStamp readPast = LoopStep.next (st', t', r') →
      st.keptBy st') ∧
    (∀ st' t', decodeAudioStarved st timeStamp readPast = LoopStep.leave (st', t') →
      st.keptBy st') := by
  unfold decodeAudioStarved
  simp only []
  have hk := readData_keptBy st
  rcases hr : readData st with ⟨st1, ok⟩
  rw [hr] at hk
  simp only [] at hk
  constructor
  · intro st' t' r' h
    split_ifs at h
    cases ok with
    | false => simp at h
    | true =>
      simp only [LoopStep.next.injEq, Prod.mk.injEq] at h
      rw [← h.1]; exact hk
  · intro st' t' h
    split_ifs at h
    · simp only [LoopStep.leave.injEq, Prod.mk.injEq] at h
      rw [← h.1]; exact Clip.keptBy_refl st
    · cases ok with
      | false =>
        simp only [LoopStep.leave.injEq, Prod.mk.injEq] at h
        rw [← h.1]; exact hk
      | true => simp at h

/-- A pass through the loop of `_decodeAudio` keeps the bookkeeping. -/
theorem decodeAudioBody_keptBy (st : Clip) (timeStamp : ℚ) (readPast : Bool) :
    (∀ st' t' r', decodeAudioBody st timeStamp readPast = LoopStep.next (st', t', r') →
      st.keptBy st') ∧
    (∀ st' t', decodeAudioBody st timeStamp readPast = LoopStep.leave (st', t') →
      st.keptBy st') := by
  unfold decodeAudioBody
  cases hv : st.info.VorbisData with
  | none =>
    simp only [reduceCtorEq, false_implies, implies_true, true_and, LoopStep.leave.injEq,
      Prod.mk.injEq, and_imp]
    intro st' t' h _
    rw [← h]; exact Clip.keptBy_refl st
  | some vorbis =>
    simp only []
    have starved : ∀ os : ogg_stream_state,
        (∀ st' t' r', decodeAudioStarved
            { st with info.VorbisData := some { vorbis with VorbisStreamState := os } }
            timeStamp readPast = LoopStep.next (st', t', r') → st.keptBy st') ∧
        (∀ st' t', decodeAudioStarved
            { st with info.VorbisData := some { vorbis with VorbisStreamState := os } }
            timeStamp readPast = LoopStep.leave (st', t') → st.keptBy st') := by
      intro os
      have hs := decodeAudioStarved_keptBy
        { st with info.VorbisData := some { vorbis with VorbisStreamState := os } }
        timeStamp readPast
      have h0 : st.keptBy
          { st with info.VorbisData := some { vorbis with VorbisStreamState := os } } :=
        ⟨rfl, fun h => h⟩
      exact ⟨fun st' t' r' h => Clip.keptBy_trans _ _ _ h0 (hs.1 st' t' r' h),
        fun st' t' h => Clip.keptBy_trans _ _ _ h0 (hs.2 st' t' h)⟩
    by_cases hlen : ((vorbis.VorbisDSPState.length : Nat) : Int) = 0
    · rw [if_pos hlen]
      unfold ogg_stream_packetout
      cases hp : vorbis.VorbisStreamState.packets with
      | nil => exact starved _
      | cons x rest =>
        cases x with
        | hole => exact starved _
        | packet op =>
          simp only []
          refine ⟨?_, ?_⟩
          · intro st' t' r' h
            split_ifs at h <;> simp only [LoopStep.next.injEq, Prod.mk.injEq] at h <;>
              rw [← h.1] <;> exact ⟨rfl, fun h => h⟩
          · intro st' t' h
            split_ifs at h
    · rw [if_neg hlen]
      constructor
      · intro st' t' r' h
        simp only [LoopStep.next.injEq, Prod.mk.injEq] at h
        rw [← h.1]
        exact ⟨rfl, fun h => h⟩
      · intro st' t' h
        simp at h

/-- The loop of `_decodeAudio` keeps the bookkeeping. -/
theorem decodeAudioLoop_keptBy (fuel : Nat) :
    ∀ (st : Clip) (timeStamp : ℚ) (readPast : Bool) (result : Clip × ℚ),
      decodeAudioLoop fuel st timeStamp readPast = some result → st.keptBy result.1 := by
  induction fuel with
  | zero => intro st t r result h; simp [decodeAudioLoop] at h
  | succ n ih =>
    intro st t r result h
    unfold decodeAudioLoop at h
    have hb := decodeAudioBody_keptBy st t r
    cases hbody : decodeAudioBody st t r with
    | next x =>
      obtain ⟨st1, t1, r1⟩ := x
      rw [hbody] at h
      simp only [] at h
      exact Clip.keptBy_trans _ _ _ (hb.1 _ _ _ hbody) (ih _ _ _ _ h)
    | leave x =>
      obtain ⟨st1, t1⟩ := x
      rw [hbody] at h
      simp only [Option.some.injEq] at h
      rw [← h]
      exact hb.2 _ _ hbody

/-- The call `_decodeAudio` keeps the bookkeeping. -/
theorem decodeAudio_keptBy (fuel : Nat) (st : Clip) (result : Clip × ℚ)
    (h : decodeAudio fuel st = some result) : st.keptBy result.1 := by
  unfold decodeAudio at h
  split_ifs at h
  · simp only [Option.some.injEq] at h
    rw [← h]; exact Clip.keptBy_refl st
  · exact decodeAudioLoop_keptBy fuel st _ _ result h

/-- A pass through the loop of `_decodeNextFrame` that goes round again keeps the bookkeeping; a
pass that leaves the loop without a packet releases the frame slot, answers `autoRestart`, and
has set `endOfFile` unless `autoRestart` is on. -/
theorem decodeNextFrameBody_keptBy (frame : Nat) (st : Clip) :
    (∀ st', decodeNextFrameBody frame st = LoopStep.next st' → st.keptBy st') ∧
    (∀ st' b, decodeNextFrameBody frame st = LoopStep.leave (st', b) →
      (∀ op os, packetoutAttempts 100 st.info.TheoraStreamState ≠
        (some (PacketOut.packet op), os)) →
      Clip.keptBy
          { st with frameQueue := updateFrame (fun slot => { slot with inUse := false }) frame
                      st.frameQueue } st' ∧
        b = st.autoRestart ∧ (st.autoRestart = false → st'.endOfFile = true)) := by
  unfold decodeNextFrameBody
  rcases hpo : packetoutAttempts 100 st.info.TheoraStreamState with ⟨ans, os⟩
  have key : (∀ st', (match readData { st with info.TheoraStreamState := os } with
        | (st, false) => (LoopStep.leave
            ({ st with frameQueue :=
                updateFrame (fun slot => { slot with inUse := false }) frame st.frameQueue },
              st.autoRestart) : LoopStep Clip (Clip × Bool))
        | (st, true) => LoopStep.next st) = LoopStep.next st' → st.keptBy st') ∧
      (∀ st' b, (match readData { st with info.TheoraStreamState := os } with
        | (st, false) => (LoopStep.leave
            ({ st with frameQueue :=
                updateFrame (fun slot => { slot with inUse := false }) frame st.frameQueue },
              st.autoRestart) : LoopStep Clip (Clip × Bool))
        | (st, true) => LoopStep.next st) = LoopStep.leave (st', b) →
        Clip.keptBy
            { st with frameQueue := updateFrame (fun slot => { slot with inUse := false }) frame
                        st.frameQueue } st' ∧
          b = st.autoRestart ∧ (st.autoRestart = false → st'.endOfFile = true)) := by
    have hk := readData_keptBy { st with info.TheoraStreamState := os }
    have he := readData_endOfFile { st with info.TheoraStreamState := os }
    rcases hr : readData { st with info.TheoraStreamState := os } with ⟨st1, ok⟩
    rw [hr] at hk he
    simp only [] at hk he
    have hb : st1.bookkeeping = st.bookkeeping := hk.1
    simp only [Clip.bookkeeping, Prod.mk.injEq] at hb
    cases ok with
    | true =>
      refine ⟨fun st' h => ?_, fun st' b h => by simp at h⟩
      simp only [LoopStep.next.injEq] at h
      rw [← h]; exact hk
    | false =>
      refine ⟨fun st' h => by simp at h, fun st' b h => ?_⟩
      simp only [LoopStep.leave.injEq, Prod.mk.injEq] at h
      rw [← h.1, ← h.2]
      refine ⟨⟨?_, fun h0 => hk.2 h0⟩, hb.2.2.2.2.1, fun ha => ?_⟩
      · simp only [Clip.bookkeeping, Prod.mk.injEq]
        simp only [hb, and_self]
      · have := he.2 rfl
        simp only [ha, Bool.not_false, Bool.true_or] at this
        exact this
  cases ans with
  | none => exact ⟨key.1, fun st' b h _ => key.2 st' b h⟩
  | some a =>
    cases a with
    | hole => exact ⟨key.1, fun st' b h _ => key.2 st' b h⟩
    | packet op =>
      simp only []
      refine ⟨fun st' h => ?_, fun st' b _ hn => absurd rfl (hn op os)⟩
      split_ifs at h <;> simp only [LoopStep.next.injEq] at h <;> rw [← h] <;>
        exact ⟨rfl, fun h => h⟩

/-- When the loop of `_decodeNextFrame` ends on the exhaustion of the data source, it returns
with the frame slot released and `shouldRestart` equal to `autoRestart`; the bookkeeping is
otherwise as before, and `endOfFile` is set unless `autoRestart` is on. -/
theorem decodeNextFrameLoop_exhausted (frame : Nat) (fuel : Nat) :
    ∀ st : Clip, frameLoopExhausted frame fuel st = true →
      ∃ st', decodeNextFrameLoop frame fuel st = some (st', st.autoRestart) ∧
        Clip.keptBy
          { st with frameQueue := updateFrame (fun slot => { slot with inUse := false }) frame
                      st.frameQueue } st' ∧
        (st.autoRestart = false → st'.endOfFile = true) ∧
        clipMeasure st' ≤ clipMeasure st := by
  induction fuel with
  | zero => intro st h; simp [frameLoopExhausted] at h
  | succ n ih =>
    intro st h
    unfold frameLoopExhausted at h
    unfold decodeNextFrameLoop
    have hb := decodeNextFrameBody_keptBy frame st
    have hm := decodeNextFrameBody_measure frame st
    cases hbody : decodeNextFrameBody frame st with
    | next st1 =>
      rw [hbody] at h
      simp only [] at h ⊢
      have hk := hb.1 st1 hbody
      have hlt := hm.1 st1 hbody
      obtain ⟨st', h1, h2, h3, h4⟩ := ih st1 h
      have hbk : st1.bookkeeping = st.bookkeeping := hk.1
      simp only [Clip.bookkeeping, Prod.mk.injEq] at hbk
      refine ⟨st', ?_, ⟨?_, fun h0 => h2.2 (hk.2 h0)⟩, ?_, by omega⟩
      · rw [h1, hbk.2.2.2.2.1]
      · rw [h2.1]
        simp only [Clip.bookkeeping, Prod.mk.injEq]
        simp only [hbk, and_self]
      · intro ha
        exact h3 (hbk.2.2.2.2.1.trans ha)
    | leave r =>
      obtain ⟨st1, b⟩ := r
      rw [hbody] at h
      simp only [] at h ⊢
      have hn : ∀ op os, packetoutAttempts 100 st.info.TheoraStreamState ≠
          (some (PacketOut.packet op), os) := by
        intro op os heq
        rw [heq] at h
        simp at h
      obtain ⟨h1, h2, h3⟩ := hb.2 st1 b hbody hn
      exact ⟨st1, by rw [h2], h1, h3, hm.2 st1 b hbody⟩

/-- The call `_executeRestart` clears `endOfFile` and sets `restarted`; it writes neither
`lastDecodedFrameNumber`, nor `iteration`, nor the frame queue. -/
theorem executeRestart_fields (st : Clip) :
    (executeRestart st).endOfFile = false ∧ (executeRestart st).restarted = true ∧
    (executeRestart st).lastDecodedFrameNumber = st.lastDecodedFrameNumber ∧
    (executeRestart st).iteration = st.iteration ∧
    (executeRestart st).frameQueue = st.frameQueue := by
  unfold executeRestart
  cases hp : st.timer.paused <;> cases ha : st.audioInterface <;>
    cases hv : st.info.VorbisData <;> simp [hp, ha, hv]

/-- A call of `_decodeNextFrame` that takes a frame slot and then finds the data source
exhausted before any frame is decoded returns `true` with the slot released and
`lastDecodedFrameNumber` as it was; with `autoRestart` off `endOfFile` is set and `iteration`
and `restarted` are as before, with `autoRestart` on the restart has run. -/
theorem decodeNextFrame_exhausted (fuel : Nat) (st : Clip) (frame : Nat)
    (queue : List VideoFrame) (h0 : st.endOfFile = false)
    (hq : requestEmptyFrame st.frameQueue = some (frame, queue))
    (hex : frameLoopExhausted frame fuel { st with frameQueue := queue } = true)
    (hfuel : clipMeasure st < fuel) :
    ∃ st', decodeNextFrame fuel st = some (st', true) ∧
      st'.frameQueue = updateFrame (fun slot => { slot with inUse := false }) frame queue ∧
      st'.lastDecodedFrameNumber = st.lastDecodedFrameNumber ∧
      (st.autoRestart = false →
        st'.endOfFile = true ∧ st'.iteration = st.iteration ∧ st'.restarted = st.restarted) ∧
      (st.autoRestart = true →
        st'.endOfFile = false ∧ st'.iteration = st.iteration + 1 ∧ st'.restarted = true) := by
  obtain ⟨st1, hl, hk1, he1, hm1⟩ :=
    decodeNextFrameLoop_exhausted frame fuel { st with frameQueue := queue } hex
  have hfuel1 : clipMeasure st1 < fuel := lt_of_le_of_lt hm1 hfuel
  -- the audio decoding that follows the loop
  obtain ⟨st2, haud, hk2⟩ : ∃ st2,
      (if st1.audioInterface then (decodeAudio fuel st1).map (fun result => result.1)
        else some st1) = some st2 ∧ st1.keptBy st2 := by
    by_cases ha : st1.audioInterface = true
    · obtain ⟨st2, t2, hd, _⟩ := decodeAudio_terminates fuel st1 hfuel1
      refine ⟨st2, ?_, decodeAudio_keptBy fuel st1 (st2, t2) hd⟩
      rw [if_pos ha, hd]; rfl
    · exact ⟨st1, by rw [if_neg ha], Clip.keptBy_refl st1⟩
  have hk := Clip.keptBy_trans _ _ _ hk1 hk2
  have hb : st2.bookkeeping = Clip.bookkeeping
      { st with frameQueue := updateFrame (fun slot => { slot with inUse := false }) frame
                  queue } := hk.1
  simp only [Clip.bookkeeping, Prod.mk.injEq] at hb
  obtain ⟨_, _, hld, hit, har, hre, hfq⟩ := hb
  have hr := executeRestart_fields { st2 with iteration := st2.iteration + 1 }
  unfold decodeNextFrame
  rw [if_neg (by rw [h0]; decide), hq]
  simp only []
  rw [hl]
  simp only []
  rw [haud]
  simp only []
  cases hauto : st.autoRestart with
  | false =>
    refine ⟨st2, by simp, hfq, hld, fun _ => ⟨hk2.2 (he1 hauto), hit, hre⟩,
      fun h => by simp at h⟩
  | true =>
    refine ⟨_, by simp, ?_, ?_, fun h => by simp at h, fun _ => ⟨hr.1, ?_, hr.2.1⟩⟩
    · rw [hr.2.2.2.2]; exact hfq
    · rw [hr.2.2.1]; exact hld
    · rw [hr.2.2.2.1]; simp only []; rw [hit]

/-- The slot that `requestEmptyFrame` hands out is a slot of the queue, and the queue afterwards
is the queue before with this slot marked in use and not ready. -/
theorem requestEmptyFrame_eq :
    ∀ (fq : List VideoFrame) (frame : Nat) (queue : List VideoFrame),
      requestEmptyFrame fq = some (frame, queue) →
      frame < fq.length ∧
        queue = updateFrame (fun slot => { slot with inUse := true, ready := false }) frame fq
  | [], frame, queue, h => by simp [requestEmptyFrame] at h
  | slot :: rest, frame, queue, h => by
    unfold requestEmptyFrame at h
    by_cases hu : slot.inUse = true
    · rw [if_neg (by simpa using hu)] at h
      cases hr : requestEmptyFrame rest with
      | none => rw [hr] at h; simp at h
      | some r =>
        obtain ⟨index, rest'⟩ := r
        rw [hr] at h
        simp only [Option.some.injEq, Prod.mk.injEq] at h
        obtain ⟨h1, h2⟩ := requestEmptyFrame_eq rest index rest' hr
        rw [← h.1, ← h.2, h2]
        exact ⟨by simp only [List.length_cons]; omega, rfl⟩
    · rw [if_pos (by simpa using hu)] at h
      simp only [Option.some.injEq, Prod.mk.injEq] at h
      rw [← h.1, ← h.2]
      exact ⟨by simp, rfl⟩

/-- Two writes to the same slot are one write. -/
theorem updateFrame_updateFrame (f g : VideoFrame → VideoFrame) :
    ∀ (index : Nat) (fq : List VideoFrame),
      updateFrame g index (updateFrame f index fq) = updateFrame (fun slot => g (f slot)) index fq
  | index, [] => by cases index <;> rfl
  | 0, _ :: _ => rfl
  | index + 1, slot :: rest => by
    show slot :: updateFrame g index (updateFrame f index rest) = _
    rw [updateFrame_updateFrame f g index rest]
    rfl

/-- Reading the slot that was written. -/
theorem updateFrame_getElem? (f : VideoFrame → VideoFrame) :
    ∀ (index : Nat) (fq : List VideoFrame),
      (updateFrame f index fq)[index]? = (fq[index]?).map f
  | index, [] => by cases index <;> simp [updateFrame]
  | 0, _ :: _ => by simp [updateFrame]
  | index + 1, slot :: rest => by
    show (slot :: updateFrame f index rest)[index + 1]? = _
    simp only [List.getElem?_cons_succ]
    exact updateFrame_getElem? f index rest

/-! ### Restart and exhaustion in `_decodeNextFrame` -/

/-- C11 (amended). `_executeRestart` does not write `lastDecodedFrameNumber`: when
`_decodeNextFrame` reaches exhaustion with `autoRestart` set and runs the restart, the call
returns with `restarted` set, `iteration` one higher, and `lastDecodedFrameNumber` equal to its
value before the restart; and every later call of `_decodeNextFrame` that publishes no frame (it
returns `false`, or ends on exhaustion) leaves `lastDecodedFrameNumber` as it is. -/
theorem decodeNextFrame_restart_keeps_lastDecodedFrameNumber :
    (∀ (fuel : Nat) (st : Clip) (frame : Nat) (queue : List VideoFrame),
      st.endOfFile = false → requestEmptyFrame st.frameQueue = some (frame, queue) →
      frameLoopExhausted frame fuel { st with frameQueue := queue } = true →
      st.autoRestart = true → clipMeasure st < fuel →
      ∃ st', decodeNextFrame fuel st = some (st', true) ∧ st'.restarted = true ∧
        st'.iteration = st.iteration + 1 ∧
        st'.lastDecodedFrameNumber = st.lastDecodedFrameNumber) ∧
    (∀ (fuel : Nat) (st : Clip) (result : Clip × Bool),
      decodeNextFrame fuel st = some result → clipMeasure st < fuel →
      (∀ frame queue, requestEmptyFrame st.frameQueue = some (frame, queue) →
        frameLoopExhausted frame fuel { st with frameQueue := queue } = true) →
      result.1.lastDecodedFrameNumber = st.lastDecodedFrameNumber) := by
  constructor
  · intro fuel st frame queue h0 hq hex hauto hfuel
    obtain ⟨st', h1, _, h3, _, h5⟩ := decodeNextFrame_exhausted fuel st frame queue h0 hq hex hfuel
    exact ⟨st', h1, (h5 hauto).2.2, (h5 hauto).2.1, h3⟩
  · intro fuel st result h hfuel hex
    by_cases h0 : st.endOfFile = true
    · unfold decodeNextFrame at h
      rw [if_pos h0] at h
      simp only [Option.some.injEq] at h
      rw [← h]
    · cases hq : requestEmptyFrame st.frameQueue with
      | none =>
        unfold decodeNextFrame at h
        rw [if_neg h0, hq] at h
        simp only [Option.some.injEq] at h
        rw [← h]
      | some slot =>
        obtain ⟨frame, queue⟩ := slot
        obtain ⟨st', h1, _, h3, _⟩ := decodeNextFrame_exhausted fuel st frame queue
          (by simpa using h0) hq (hex frame queue hq) hfuel
        rw [h1] at h
        simp only [Option.some.injEq] at h
        rw [← h]; exact h3

/-- Witness of C11 (amended): a clip with `autoRestart` on that has published frame 9 and whose
data source is exhausted. -/
theorem decodeNextFrame_restart_keeps_lastDecodedFrameNumber_witness :
    ∃ st', decodeNextFrame 1
        { exampleClip [] with autoRestart := true, lastDecodedFrameNumber := 9 } =
          some (st', true) ∧
      st'.restarted = true ∧ st'.iteration = 0 + 1 ∧ st'.lastDecodedFrameNumber = 9 :=
  decodeNextFrame_restart_keeps_lastDecodedFrameNumber.1 1
    { exampleClip [] with autoRestart := true, lastDecodedFrameNumber := 9 } 0
    [{ timeToDisplay := 0, iteration := 0, frameNumber := 0, inUse := true, ready := false }]
    rfl rfl rfl rfl (by decide)

/-- C11, counterexample. A clip with `autoRestart` on whose last published frame was frame 9 and
whose data source is exhausted: `_decodeNextFrame` runs the restart (`restarted` is set and
`iteration` goes from 0 to 1), and `lastDecodedFrameNumber` is 9 afterwards, not 0. -/
theorem decodeNextFrame_restart_lastDecodedFrameNumber_counterexample :
    (decodeNextFrame 1
        { exampleClip [] with autoRestart := true, lastDecodedFrameNumber := 9 }).map
      (fun result => (result.2, result.1.restarted, result.1.iteration,
        result.1.lastDecodedFrameNumber)) = some (true, true, 1, 9) ∧
    ¬ ((9 : Nat) = 0) :=
  ⟨rfl, by decide⟩

/-- C13. When `_decodeNextFrame` has obtained the empty slot `frame` and the data source is
exhausted before any frame is decoded, the call returns `true` once its loops are given as many
passes as the clip has input; the slot is released (`inUse` is false) and nothing is published:
the frame queue is the one before the call with this slot not in use and not ready, and
`lastDecodedFrameNumber` is as before.  With `autoRestart` off `endOfFile` is then true and
`iteration` unchanged; with `autoRestart` on `iteration` is exactly one higher, `endOfFile` is
false and `restarted` is true. -/
theorem decodeNextFrame_exhaustion_behaviour (fuel : Nat) (st : Clip) (frame : Nat)
    (queue : List VideoFrame) (h0 : st.endOfFile = false)
    (hq : requestEmptyFrame st.frameQueue = some (frame, queue))
    (hex : frameLoopExhausted frame fuel { st with frameQueue := queue } = true)
    (hfuel : clipMeasure st < fuel) :
    ∃ st', decodeNextFrame fuel st = some (st', true) ∧
      (st'.frameQueue[frame]?).map (fun slot => slot.inUse) = some false ∧
      st'.frameQueue =
        updateFrame (fun slot => { slot with inUse := false, ready := false }) frame
          st.frameQueue ∧
      st'.lastDecodedFrameNumber = st.lastDecodedFrameNumber ∧
      (st.autoRestart = false → st'.endOfFile = true ∧ st'.iteration = st.iteration) ∧
      (st.autoRestart = true →
        st'.iteration = st.iteration + 1 ∧ st'.endOfFile = false ∧ st'.restarted = true) := by
  obtain ⟨st', h1, h2, h3, h4, h5⟩ := decodeNextFrame_exhausted fuel st frame queue h0 hq hex hfuel
  obtain ⟨hlt, hqueue⟩ := requestEmptyFrame_eq st.frameQueue frame queue hq
  have hfq : st'.frameQueue =
      updateFrame (fun slot => { slot with inUse := false, ready := false }) frame
        st.frameQueue := by
    rw [h2, hqueue, updateFrame_updateFrame]
  refine ⟨st', h1, ?_, hfq, h3, fun ha => ⟨(h4 ha).1, (h4 ha).2.1⟩,
    fun ha => ⟨(h5 ha).2.1, (h5 ha).1, (h5 ha).2.2⟩⟩
  rw [hfq, updateFrame_getElem?, List.getElem?_eq_getElem hlt]
  rfl

/-- Witness of C13: a clip with a free slot and `autoRestart` on, whose data source holds one
video packet that the decoder rejects and nothing else. -/
theorem decodeNextFrame_exhaustion_behaviour_witness :
    ∃ st', decodeNextFrame 7 { exampleClip rejectedVideoReads with autoRestart := true } =
        some (st', true) ∧
      (st'.frameQueue[0]?).map (fun slot => slot.inUse) = some false ∧
      st'.frameQueue =
        updateFrame (fun slot => { slot with inUse := false, ready := false }) 0
          (exampleClip rejectedVideoReads).frameQueue ∧
      st'.lastDecodedFrameNumber = 0 ∧
      (true = false → st'.endOfFile = true ∧ st'.iteration = 0) ∧
      (true = true → st'.iteration = 0 + 1 ∧ st'.endOfFile = false ∧ st'.restarted = true) :=
  decodeNextFrame_exhaustion_behaviour 7
    { exampleClip rejectedVideoReads with autoRestart := true } 0
    [{ timeToDisplay := 0, iteration := 0, frameNumber := 0, inUse := true, ready := false }]
    rfl rfl rfl (by decide)

/-! ### The audio re-alignment of `_executeSeek` -/

/-- The conversion `(int)` of a non-negative number is its floor. -/
theorem truncToInt_of_nonneg (q : ℚ) (h : 0 ≤ q) :
    truncToInt q = ⌊q⌋ ∧ 0 ≤ truncToInt q ∧ (truncToInt q : ℚ) ≤ q ∧ q < truncToInt q + 1 := by
  have h1 : truncToInt q = ⌊q⌋ := by unfold truncToInt; rw [if_pos h]
  rw [h1]
  exact ⟨rfl, Int.floor_nonneg.mpr h, Int.floor_le q, Int.lt_floor_add_one q⟩

/-- C12, the code in the trimming case.  On the packet that straddles the target `time` (it starts
at `timeStamp - queuedTime` and ends `samplesCount / rate` later), the walk of lines 499-520
computes `trimmedCount` from the distance between the target and the END of the packet, and then
removes that many samples from its front.  So the trimmed head starts at
`start + (end - time)`, to within one sample period, rather than at `time`: the part it keeps is
as long as the part that lay before the target.  At 44100 Hz with two channels (`rate` 88200)
and the target `2 / 25` (frame 2 at 25 fps), a packet of ten samples that starts two samples
before the target is trimmed by 8 samples, not by 2: the queue then starts with the samples 8
and 9 of the packet, six samples after the target, which is more than `1 / 44100`. -/
theorem seekTrimQueue_trims_from_the_end :
    (∀ (time timeStamp rate queuedTime : ℚ) (head : AudioPacket) (rest : List AudioPacket),
      0 < rate → time ≤ timeStamp - queuedTime + (head.samplesCount : ℚ) / rate →
      ∃ trimmedCount : Int,
        trimmedCount =
          truncToInt ((timeStamp - queuedTime + (head.samplesCount : ℚ) / rate - time) * rate) ∧
        seekTrimQueue time timeStamp rate (head :: rest) queuedTime =
          (if head.samplesCount - trimmedCount ≤ 0 then some rest
            else (copyLoop true (head.samplesCount - trimmedCount).toNat trimmedCount 0
                head.pcmData head.pcmData).map
              (fun pcmData =>
                { pcmData := pcmData, samplesCount := head.samplesCount - trimmedCount } ::
                  rest)) ∧
        0 ≤ trimmedCount ∧
        |(timeStamp - queuedTime + (trimmedCount : ℚ) / rate) -
          (timeStamp - queuedTime +
            (timeStamp - queuedTime + (head.samplesCount : ℚ) / rate - time))| < 1 / rate) ∧
    (seekTrimQueue (2 / 25) (2 / 25 + 8 / 88200) 88200 [tenSamples] (10 / 88200) =
        some [{ pcmData := [8, 9, 2, 3, 4, 5, 6, 7, 8, 9], samplesCount := 2 }] ∧
      truncToInt (((2 : ℚ) / 25 + 8 / 88200 - 10 / 88200 +
        (tenSamples.samplesCount : ℚ) / 88200 - 2 / 25) * 88200) = 8 ∧
      ¬ (|((2 : ℚ) / 25 + 8 / 88200 - 10 / 88200 + ((8 : Int) : ℚ) / 88200) - 2 / 25| ≤
        1 / 44100)) := by
  refine ⟨?_, ?_, ?_, ?_⟩
  · intro time timeStamp rate queuedTime head rest hrate hstraddle
    have hx : 0 ≤ (timeStamp - queuedTime + (head.samplesCount : ℚ) / rate - time) * rate :=
      mul_nonneg (by linarith) hrate.le
    obtain ⟨_, h0, hle, hlt⟩ := truncToInt_of_nonneg _ hx
    refine ⟨_, rfl, ?_, h0, ?_⟩
    · unfold seekTrimQueue
      rw [if_pos hstraddle]
      simp only []
      split_ifs
      · rfl
      · cases copyLoop true _ _ 0 head.pcmData head.pcmData <;> rfl
    · have h1 : (truncToInt
          ((timeStamp - queuedTime + (head.samplesCount : ℚ) / rate - time) * rate) : ℚ) / rate ≤
          timeStamp - queuedTime + (head.samplesCount : ℚ) / rate - time := by
        rw [div_le_iff₀ hrate]; exact hle
      have h2 : timeStamp - queuedTime + (head.samplesCount : ℚ) / rate - time <
          (truncToInt
            ((timeStamp - queuedTime + (head.samplesCount : ℚ) / rate - time) * rate) : ℚ) / rate +
            1 / rate := by
        rw [← add_div, lt_div_iff₀ hrate]; exact hlt
      rw [abs_lt]
      constructor <;> linarith
  · have hc : truncToInt (((2 : ℚ) / 25 + 8 / 88200 - 10 / 88200 +
        (tenSamples.samplesCount : ℚ) / 88200 - 2 / 25) * 88200) = 8 := by
      norm_num [truncToInt, tenSamples]
    unfold seekTrimQueue
    rw [if_pos (by norm_num [tenSamples])]
    simp only [hc]
    rfl
  · norm_num [truncToInt, tenSamples]
  · have hx : ((2 : ℚ) / 25 + 8 / 88200 - 10 / 88200 + ((8 : Int) : ℚ) / 88200) - 2 / 25 =
        1 / 14700 := by norm_num
    rw [hx, abs_of_pos (by norm_num)]
    norm_num

/-- Witness of the general part of C12: the ten-sample packet that starts two samples before the
target `2 / 25`, at `rate` 88200. -/
theorem seekTrimQueue_trims_from_the_end_witness :
    ∃ trimmedCount : Int,
      trimmedCount =
        truncToInt (((2 : ℚ) / 25 + 8 / 88200 - 10 / 88200 +
          (tenSamples.samplesCount : ℚ) / 88200 - 2 / 25) * 88200) ∧
      0 ≤ trimmedCount ∧
      |((2 : ℚ) / 25 + 8 / 88200 - 10 / 88200 + (trimmedCount : ℚ) / 88200) -
        (2 / 25 + 8 / 88200 - 10 / 88200 +
          (2 / 25 + 8 / 88200 - 10 / 88200 + (tenSamples.samplesCount : ℚ) / 88200 - 2 / 25))| <
        1 / 88200 :=
  Exists.elim
    (seekTrimQueue_trims_from_the_end.1 (2 / 25) (2 / 25 + 8 / 88200) 88200 (10 / 88200)
      tenSamples [] (by norm_num)
      (by norm_num [tenSamples]))
    (fun trimmedCount h => ⟨trimmedCount, h.1, h.2.2.1, h.2.2.2⟩)

/-- A probe of `_seekPage` leaves the bookkeeping fields as they are. -/
theorem seekPageProbe_bookkeeping (targetFrame : Int) (fuel : Nat) :
    ∀ (st : Clip) (loc : SeekPageLocals) (result : Clip × SeekPageLocals × Bool),
      seekPageProbe targetFrame fuel st loc = some result →
      result.1.bookkeeping = st.bookkeeping := by
  induction fuel with
  | zero => intro st loc result h; simp [seekPageProbe] at h
  | succ n ih =>
    intro st loc result h
    unfold seekPageProbe ogg_sync_pageout at h
    cases hs : st.info.OggSyncState with
    | nil =>
      rw [hs] at h
      simp only [] at h
      cases hr : st.stream.reads with
      | nil =>
        rw [hr] at h
        simp only [Option.some.injEq] at h
        rw [← h]
      | cons r rest =>
        rw [hr] at h
        simp only [] at h
        split_ifs at h
        · simp only [Option.some.injEq] at h
          rw [← h]
        · exact (ih _ _ _ h).trans rfl
    | cons x rest =>
      rw [hs] at h
      cases x with
      | unsynced =>
        simp only [] at h
        cases hr : st.stream.reads with
        | nil =>
          rw [hr] at h
          simp only [Option.some.injEq] at h
          rw [← h]
        | cons r rest =>
          rw [hr] at h
          simp only [] at h
          split_ifs at h
          · simp only [Option.some.injEq] at h
            rw [← h]
          · exact (ih _ _ _ h).trans rfl
      | page og =>
        simp only [] at h
        split_ifs at h
        all_goals first
          | (simp only [Option.some.injEq] at h
             rw [← h])
          | exact (ih _ _ _ h).trans rfl

/-- The probes of `_seekPage` leave the bookkeeping fields as they are. -/
theorem seekPageFor_bookkeeping (targetFrame : Int) (fuel : Nat) (remaining : Nat) :
    ∀ (st : Clip) (loc : SeekPageLocals) (result : Clip × SeekPageLocals),
      seekPageFor targetFrame fuel remaining st loc = some result →
      result.1.bookkeeping = st.bookkeeping := by
  induction remaining with
  | zero =>
    intro st loc result h
    simp only [seekPageFor, Option.some.injEq] at h
    rw [← h]
  | succ n ih =>
    intro st loc result h
    unfold seekPageFor at h
    simp only [] at h
    cases hp : seekPageProbe targetFrame fuel
        { st with info.OggSyncState := []
                  stream := st.stream.seek (loc.seekMin / 2 + loc.seekMax / 2) } loc with
    | none => rw [hp] at h; simp at h
    | some r =>
      obtain ⟨st1, loc1, close⟩ := r
      have h1 := seekPageProbe_bookkeeping targetFrame fuel _ _ _ hp
      rw [hp] at h
      cases close with
      | true =>
        simp only [Option.some.injEq] at h
        rw [← h]; exact h1
      | false =>
        simp only [] at h
        rw [ih _ _ _ h]; exact h1

/-- The call `_seekPage` leaves the bookkeeping fields as they are. -/
theorem seekPage_bookkeeping (fuel : Nat) (st : Clip) (targetFrame : Int) (returnKeyFrame : Bool)
    (result : Clip × Int) (h : seekPage fuel st targetFrame returnKeyFrame = some result) :
    result.1.bookkeeping = st.bookkeeping := by
  unfold seekPage at h
  simp only [] at h
  by_cases ht : targetFrame = 0
  · simp only [ht, if_true, ne_eq, not_true_eq_false, if_false] at h
    split_ifs at h <;> simp only [Option.some.injEq] at h <;> rw [← h]
  · simp only [ht, if_false, ne_eq, not_false_eq_true, if_true] at h
    cases hf : seekPageFor targetFrame fuel 100 st
        { seekMin := 0, seekMax := st.stream.size, frame := 0, granule := 0 } with
    | none => rw [hf] at h; simp at h
    | some r =>
      obtain ⟨st1, loc1⟩ := r
      have h1 := seekPageFor_bookkeeping targetFrame fuel 100 _ _ _ hf
      rw [hf] at h
      simp only [] at h
      split_ifs at h <;> simp only [Option.some.injEq] at h <;> rw [← h] <;> exact h1

/-- The part of `_executeSeek` before the fine seek loop leaves `seekFrame`, `audioInterface` and
`lastDecodedFrameNumber` as they are. -/
theorem seekPrepare_fields (fuel : Nat) (st : Clip)
    (result : Clip × ℚ × Bool × Bool × Int) (h : seekPrepare fuel st = some result) :
    result.1.seekFrame = st.seekFrame ∧ result.1.audioInterface = st.audioInterface ∧
      result.1.lastDecodedFrameNumber = st.lastDecodedFrameNumber := by
  unfold seekPrepare at h
  simp only [] at h
  split at h
  · simp at h
  · rename_i st1 keyFrame hk
    have h1 := seekPage_bookkeeping _ _ _ _ _ hk
    split at h
    · simp at h
    · rename_i st2 x hk2
      have h2 := seekPage_bookkeeping _ _ _ _ _ hk2
      simp only [Clip.bookkeeping, Prod.mk.injEq] at h1 h2
      have h3 : st1.seekFrame = st.seekFrame ∧ st1.audioInterface = st.audioInterface ∧
          st1.lastDecodedFrameNumber = st.lastDecodedFrameNumber := by
        rw [h1.1, h1.2.1, h1.2.2.1]
        cases st.timer.paused <;> cases st.audioInterface <;> exact ⟨rfl, rfl, rfl⟩
      split_ifs at h <;> simp only [Option.some.injEq] at h <;> rw [← h] <;>
        simp only [] <;> rw [h2.1, h2.2.1, h2.2.2.1] <;> exact h3

/-- A pass through the fine seek loop leaves the bookkeeping fields as they are, however it
ends. -/
theorem fineSeekBody_bookkeeping (st : Clip) (granuleSet : Bool) (frame : Int) :
    (∀ st' g f, fineSeekBody st granuleSet frame = LoopStep.next (st', g, f) →
      st'.bookkeeping = st.bookkeeping) ∧
    (∀ st', fineSeekBody st granuleSet frame = LoopStep.leave (FineSeek.failed st') →
      st'.bookkeeping = st.bookkeeping) ∧
    (∀ st' f, fineSeekBody st granuleSet frame = LoopStep.leave (FineSeek.reached st' f) →
      st'.bookkeeping = st.bookkeeping) := by
  unfold fineSeekBody ogg_stream_packetout
  have starved : ∀ os : ogg_stream_state,
      (∀ st' g f, (match readData { st with info.TheoraStreamState := os } with
          | (st, false) => (LoopStep.leave (FineSeek.failed
              { st with log :=
                  (st.name ++ " [seek]: fineseeking failed, _readData failed!") :: st.log }) :
                LoopStep (Clip × Bool × Int) FineSeek)
          | (st, true) => LoopStep.next (st, granuleSet, frame)) = LoopStep.next (st', g, f) →
        st'.bookkeeping = st.bookkeeping) ∧
      (∀ st', (match readData { st with info.TheoraStreamState := os } with
          | (st, false) => (LoopStep.leave (FineSeek.failed
              { st with log :=
                  (st.name ++ " [seek]: fineseeking failed, _readData failed!") :: st.log }) :
                LoopStep (Clip × Bool × Int) FineSeek)
          | (st, true) => LoopStep.next (st, granuleSet, frame)) =
            LoopStep.leave (FineSeek.failed st') →
        st'.bookkeeping = st.bookkeeping) ∧
      (∀ st' f, (match readData { st with info.TheoraStreamState := os } with
          | (st, false) => (LoopStep.leave (FineSeek.failed
              { st with log :=
                  (st.name ++ " [seek]: fineseeking failed, _readData failed!") :: st.log }) :
                LoopStep (Clip × Bool × Int) FineSeek)
          | (st, true) => LoopStep.next (st, granuleSet, frame)) =
            LoopStep.leave (FineSeek.reached st' f) →
        st'.bookkeeping = st.bookkeeping) := by
    intro os
    have hrd := readData_bookkeeping { st with info.TheoraStreamState := os }
    rcases hr : readData { st with info.TheoraStreamState := os } with ⟨st1, ok⟩
    rw [hr] at hrd
    simp only [] at hrd
    cases ok with
    | false =>
      refine ⟨fun st' g f h => by simp at h, fun st' h => ?_, fun st' f h => by simp at h⟩
      simp only [LoopStep.leave.injEq, FineSeek.failed.injEq] at h
      rw [← h]; exact hrd
    | true =>
      refine ⟨fun st' g f h => ?_, fun st' h => by simp at h, fun st' f h => by simp at h⟩
      simp only [LoopStep.next.injEq, Prod.mk.injEq] at h
      rw [← h.1]; exact hrd
  by_cases hz : st.seekFrame ≠ 0
  · rw [if_pos hz]
    cases hp : st.info.TheoraStreamState.packets with
    | nil => exact starved _
    | cons x rest =>
      cases x with
      | hole => exact starved _
      | packet op =>
        simp only []
        refine ⟨?_, ?_, ?_⟩
        · intro st' g f h
          split_ifs at h <;> simp only [LoopStep.next.injEq, Prod.mk.injEq] at h <;>
            rw [← h.1]
        · intro st' h
          split_ifs at h <;> simp at h
        · intro st' f h
          split_ifs at h <;>
            simp only [LoopStep.leave.injEq, FineSeek.reached.injEq, reduceCtorEq] at h <;>
            rw [← h.1]
  · rw [if_neg hz]
    refine ⟨fun st' g f h => by simp at h, fun st' h => by simp at h, fun st' f h => ?_⟩
    simp only [LoopStep.leave.injEq, FineSeek.reached.injEq] at h
    rw [← h.1]

/-- A fine seek loop that reaches its frame leaves the bookkeeping fields as they are. -/
theorem fineSeekLoop_reached_bookkeeping (fuel : Nat) :
    ∀ (st : Clip) (granuleSet : Bool) (frame : Int) (st' : Clip) (frame' : Int),
      fineSeekLoop fuel st granuleSet frame = some (FineSeek.reached st' frame') →
      st'.bookkeeping = st.bookkeeping := by
  induction fuel with
  | zero => intro st g f st' f' h; simp [fineSeekLoop] at h
  | succ n ih =>
    intro st g f st' f' h
    unfold fineSeekLoop at h
    have hb := fineSeekBody_bookkeeping st g f
    cases hbody : fineSeekBody st g f with
    | next r =>
      obtain ⟨st1, g1, f1⟩ := r
      rw [hbody] at h
      simp only [] at h
      rw [ih _ _ _ _ _ h]
      exact hb.1 _ _ _ hbody
    | leave r =>
      rw [hbody] at h
      simp only [Option.some.injEq] at h
      rw [h] at hbody
      exact hb.2.2 _ _ hbody

/-- The loop of `_executeSeek` that waits for an audio time stamp keeps the bookkeeping. -/
theorem seekAudioWait_keptBy (fuel : Nat) (rounds : Nat) :
    ∀ (st : Clip) (result : Clip × ℚ),
      seekAudioWait fuel rounds st = some result → st.keptBy result.1 := by
  induction rounds with
  | zero => intro st result h; simp [seekAudioWait] at h
  | succ n ih =>
    intro st result h
    unfold seekAudioWait at h
    cases hd : decodeAudio fuel st with
    | none => rw [hd] at h; simp at h
    | some r =>
      obtain ⟨st1, timeStamp⟩ := r
      have h1 := decodeAudio_keptBy fuel st _ hd
      rw [hd] at h
      simp only [] at h
      split_ifs at h
      · simp only [Option.some.injEq] at h
        rw [← h]; exact h1
      · exact Clip.keptBy_trans _ _ _ h1
          (Clip.keptBy_trans _ _ _ (readData_keptBy st1) (ih _ _ h))

/-- A non-negative C++ `int` is its own conversion to `unsigned long`. -/
theorem toUnsignedLong_of_nonneg (z : Int) (h0 : 0 ≤ z) (h1 : z < 2 ^ 31) :
    (toUnsignedLong z : Int) = z := by
  unfold toUnsignedLong
  rw [Int.emod_eq_of_lt h0 (by omega)]
  exact Int.toNat_of_nonneg h0

/-- C14 (amended). When `_executeSeek` returns after a fine seek that completed, `seekFrame` is
cleared, and `lastDecodedFrameNumber` is the target frame F if the clip has an audio interface
(line 543 stands inside the `if (audioInterface != NULL)` block); without an audio interface
`lastDecodedFrameNumber` is what it was before the seek. -/
theorem executeSeek_lastDecodedFrameNumber (fuel : Nat) (st st' : Clip)
    (h : (executeSeek fuel st).returnedClip = some st')
    (hfine : fineSeekFails fuel st = false) :
    st'.seekFrame = -1 ∧
    (st.audioInterface = true →
      st'.lastDecodedFrameNumber = toUnsignedLong st.seekFrame ∧
      (0 ≤ st.seekFrame → st.seekFrame < 2 ^ 31 →
        (st'.lastDecodedFrameNumber : Int) = st.seekFrame)) ∧
    (st.audioInterface = false → st'.lastDecodedFrameNumber = st.lastDecodedFrameNumber) := by
  unfold fineSeekFails at hfine
  unfold executeSeek at h
  cases hp : seekPrepare fuel st with
  | none => rw [hp] at h; simp [Outcome.returnedClip] at h
  | some r =>
    obtain ⟨st1, time, paused, granuleSet, frame⟩ := r
    obtain ⟨hs1, ha1, hl1⟩ := seekPrepare_fields fuel st _ hp
    rw [hp] at h hfine
    simp only [] at h hfine hs1 ha1 hl1
    cases hf : fineSeekLoop fuel st1 granuleSet frame with
    | none => rw [hf] at h; simp [Outcome.returnedClip] at h
    | some res =>
      cases res with
      | failed st2 => rw [hf] at hfine; simp at hfine
      | reached st2 fr =>
        have hb2 := fineSeekLoop_reached_bookkeeping fuel st1 granuleSet frame st2 fr hf
        simp only [Clip.bookkeeping, Prod.mk.injEq] at hb2
        obtain ⟨hs2, ha2, hl2, _⟩ := hb2
        rw [hf] at h
        simp only [] at h
        by_cases ha : st2.audioInterface = true
        · rw [if_pos ha] at h
          have hast : st.audioInterface = true := by rw [← ha1, ← ha2]; exact ha
          unfold seekRealignAudio at h
          cases hw : seekAudioWait fuel fuel st2 with
          | none => rw [hw] at h; simp [Outcome.returnedClip] at h
          | some w =>
            obtain ⟨st3, timeStamp⟩ := w
            have hk := (seekAudioWait_keptBy fuel fuel st2 _ hw).1
            simp only [Clip.bookkeeping, Prod.mk.injEq] at hk
            rw [hw] at h
            simp only [] at h
            have hseek : st3.seekFrame = st.seekFrame := by rw [hk.1, hs2, hs1]
            split at h
            · rename_i realigned stR heq
              have hR : stR.seekFrame = st3.seekFrame ∧
                  stR.lastDecodedFrameNumber = toUnsignedLong st3.seekFrame := by
                split at heq
                · simp at heq
                · simp only [Outcome.returned.injEq] at heq
                  rw [← heq]; exact ⟨rfl, rfl⟩
              have hres : st'.seekFrame = -1 ∧
                  st'.lastDecodedFrameNumber = toUnsignedLong st.seekFrame := by
                cases paused <;>
                  simp only [Outcome.returnedClip, Option.some.injEq, Bool.not_eq_true,
                    if_true, if_false, Bool.false_eq_true, not_false_eq_true,
                    not_true_eq_false] at h <;>
                  rw [← h, ← hseek, ← hR.2] <;> exact ⟨rfl, rfl⟩
              refine ⟨hres.1, fun _ => ⟨hres.2, fun h0 h1 => ?_⟩, fun hn => ?_⟩
              · rw [hres.2]; exact toUnsignedLong_of_nonneg _ h0 h1
              · rw [hast] at hn; exact absurd hn (by decide)
            · simp [Outcome.returnedClip] at h
            · simp [Outcome.returnedClip] at h
        · rw [if_neg ha] at h
          have hast : st.audioInterface = false := by
            rw [← ha1, ← ha2]; simpa using ha
          have hres : st'.seekFrame = -1 ∧
              st'.lastDecodedFrameNumber = st.lastDecodedFrameNumber := by
            cases paused <;>
              simp only [Outcome.returnedClip, Option.some.injEq, Bool.not_eq_true,
                if_true, if_false, Bool.false_eq_true, not_false_eq_true,
                not_true_eq_false] at h <;>
              rw [← h, ← hl1, ← hl2] <;> exact ⟨rfl, rfl⟩
          refine ⟨hres.1, fun hn => ?_, fun _ => hres.2⟩
          rw [hast] at hn; exact absurd hn (by decide)

/-- Witness of C14 (amended): a clip with an audio interface, whose last published frame was
frame 7, seeks to frame 2; the seek returns with `lastDecodedFrameNumber` 2. -/
theorem executeSeek_lastDecodedFrameNumber_witness :
    ∃ st', (executeSeek 9 { audioClip seekableAudioReads with
          seekFrame := 2, lastDecodedFrameNumber := 7 }).returnedClip = some st' ∧
      st'.seekFrame = -1 ∧ (st'.lastDecodedFrameNumber : Int) = 2 := by
  have hsome : ((executeSeek 9 { audioClip seekableAudioReads with
      seekFrame := 2, lastDecodedFrameNumber := 7 }).returnedClip).isSome = true := by decide!
  have hthm := executeSeek_lastDecodedFrameNumber 9
    { audioClip seekableAudioReads with seekFrame := 2, lastDecodedFrameNumber := 7 }
    (Option.get _ hsome) (Option.some_get hsome).symm (by decide!)
  exact ⟨Option.get _ hsome, (Option.some_get hsome).symm, hthm.1,
    (hthm.2.1 rfl).2 (by decide) (by decide)⟩

/-- C14, counterexample. A clip without an audio interface, whose last published frame was
frame 7, seeks to frame 2: the coarse seek stops at the page of frame 1, the fine seek decodes
the packet of frame 1 and completes, and `_executeSeek` returns with `seekFrame` cleared and the
clock running again, but `lastDecodedFrameNumber` is 7, not 2. -/
theorem executeSeek_lastDecodedFrameNumber_counterexample :
    fineSeekFails 9
      { exampleClip seekableVideoReads with seekFrame := 2, lastDecodedFrameNumber := 7 } =
        false ∧
    (executeSeek 9
        { exampleClip seekableVideoReads with seekFrame := 2, lastDecodedFrameNumber := 7 }
      ).returnedClip.map
        (fun st => (st.seekFrame, st.timer.paused, st.lastDecodedFrameNumber)) =
      some (-1, false, 7) ∧
    ¬ ((7 : Nat) = 2) :=
  ⟨rfl, rfl, by decide⟩

/-! ### The copy loops of the audio re-alignment -/

/-- Reading at a natural index. -/
theorem readAt_natCast (pcmData : List ℚ) (k : Nat) : readAt pcmData (k : Int) = pcmData[k]? := by
  unfold readAt
  rw [if_pos (Int.natCast_nonneg k), Int.toNat_natCast]

/-- Writing at a natural index. -/
theorem writeAt_natCast (pcmData : List ℚ) (k : Nat) (x : ℚ) :
    writeAt pcmData (k : Int) x = if k < pcmData.length then some (pcmData.set k x) else none := by
  unfold writeAt
  simp only [Int.natCast_nonneg, Int.toNat_natCast, true_and]

/-- One pass of the copy loop at natural indices. -/
theorem copyLoop_succ (inPlace : Bool) (count r w : Nat) (source target : List ℚ) :
    copyLoop inPlace (count + 1) (r : Int) (w : Int) source target =
      match source[r]? with
      | none => none
      | some x =>
        if w < target.length then
          copyLoop inPlace count ((r + 1 : Nat) : Int) ((w + 1 : Nat) : Int)
            (if inPlace then target.set w x else source) (target.set w x)
        else none := by
  rw [copyLoop, readAt_natCast]
  cases source[r]? with
  | none => rfl
  | some x =>
    simp only [writeAt_natCast]
    by_cases hw : w < target.length
    · rw [if_pos hw, if_pos hw]
      simp only [Nat.cast_add, Nat.cast_one]
    · rw [if_neg hw, if_neg hw]

/-- A copy loop whose reads and writes all fall inside the arrays runs to its end. -/
theorem copyLoop_inside (inPlace : Bool) (count : Nat) :
    ∀ (r w : Nat) (source target : List ℚ),
      r + count ≤ source.length → w + count ≤ target.length →
      (inPlace = true → source.length = target.length) →
      ∃ out, copyLoop inPlace count (r : Int) (w : Int) source target = some out ∧
        out.length = target.length := by
  induction count with
  | zero => intro r w source target _ _ _; exact ⟨target, rfl, rfl⟩
  | succ n ih =>
    intro r w source target hr hw hin
    have hr1 : r < source.length := by omega
    have hw1 : w < target.length := by omega
    rw [copyLoop_succ, List.getElem?_eq_getElem hr1]
    simp only []
    rw [if_pos hw1]
    obtain ⟨out, h1, h2⟩ := ih (r + 1) (w + 1)
      (if inPlace then target.set w source[r] else source) (target.set w source[r])
      (by cases inPlace
          · simp only [Bool.false_eq_true, if_false]; omega
          · simp only [if_true, List.length_set]; have := hin rfl; omega)
      (by simp only [List.length_set]; omega)
      (by intro h; simp only [h, if_true])
    exact ⟨out, h1, by rw [h2, List.length_set]⟩

/-- A copy loop between two arrays that runs to its end has read `count` elements of the source
from `readIndex` on, so the source holds that many. -/
theorem copyLoop_reads_inside (count : Nat) :
    ∀ (r w : Nat) (source target out : List ℚ),
      copyLoop false count (r : Int) (w : Int) source target = some out →
      r + count ≤ source.length ∨ count = 0 := by
  induction count with
  | zero => intro r w source target out _; exact Or.inr rfl
  | succ n ih =>
    intro r w source target out h
    rw [copyLoop_succ] at h
    cases hx : source[r]? with
    | none => rw [hx] at h; simp at h
    | some x =>
      have hlt : r < source.length := by
        by_contra hc
        rw [List.getElem?_eq_none (by omega)] at hx
        simp at hx
      rw [hx] at h
      simp only [Bool.false_eq_true, if_false] at h
      split_ifs at h
      rcases ih _ _ _ _ _ h with h1 | h1
      · exact Or.inl (by omega)
      · exact Or.inl (by omega)

/-- A copy loop between two arrays that starts both indices at `k` leaves in the target, at the
places `k` to `k + count - 1`, the elements the source has there, and every other element as
it was. -/
theorem copyLoop_content (count : Nat) :
    ∀ (k : Nat) (source target out : List ℚ),
      copyLoop false count (k : Int) (k : Int) source target = some out →
      out.length = target.length ∧
      ∀ i, out[i]? = if k ≤ i ∧ i < k + count then source[i]? else target[i]? := by
  induction count with
  | zero =>
    intro k source target out h
    simp only [copyLoop, Option.some.injEq] at h
    subst h
    refine ⟨rfl, fun i => ?_⟩
    rw [if_neg (by omega)]
  | succ n ih =>
    intro k source target out h
    rw [copyLoop_succ] at h
    cases hx : source[k]? with
    | none => rw [hx] at h; simp at h
    | some x =>
      rw [hx] at h
      simp only [Bool.false_eq_true, if_false] at h
      by_cases hk : k < target.length
      · rw [if_pos hk] at h
        obtain ⟨h1, h2⟩ := ih _ _ _ _ h
        refine ⟨by rw [h1, List.length_set], fun i => ?_⟩
        rw [h2 i]
        by_cases hi : i = k
        · subst hi
          rw [if_neg (by omega), if_pos (by omega), hx, List.getElem?_set_self hk]
        · by_cases hin : k + 1 ≤ i ∧ i < k + 1 + n
          · rw [if_pos hin, if_pos (by omega)]
          · rw [if_neg hin, if_neg (by omega), List.getElem?_set_ne (fun h => hi h.symm)]
      · rw [if_neg hk] at h
        simp at h

/-- What the copy loop of the silence branch (lines 535-538) makes of the new array: with `i`
and `j` both starting at `0`, a loop that runs to its end has overwritten the whole array, zeros
included, with the first `count` elements of the old buffer, which must hold that many. -/
theorem copyLoop_from_zero (count : Nat) (source out : List ℚ) (hc : 0 < count)
    (h : copyLoop false count 0 0 source (List.replicate count 0) = some out) :
    out = source.take count ∧ count ≤ source.length := by
  have h0 : copyLoop false count ((0 : Nat) : Int) ((0 : Nat) : Int) source
      (List.replicate count 0) = some out := h
  obtain ⟨hlen, hget⟩ := copyLoop_content count 0 source _ out h0
  have hin : count ≤ source.length := by
    rcases copyLoop_reads_inside count 0 0 source _ out h0 with h1 | h1 <;> omega
  refine ⟨List.ext_getElem? (fun i => ?_), hin⟩
  rw [hget i, List.getElem?_take]
  by_cases hi : i < count
  · rw [if_pos ⟨Nat.zero_le i, by omega⟩, if_pos hi]
  · rw [if_neg (by omega), if_neg hi, List.getElem?_eq_none (by simp; omega)]

/-- C15, the code in the silence case.  The copy loop of lines 535-538 starts `i` at `0`, not at
`missingCount`, so it writes `pcmData[0 .. missingCount + samplesCount - 1]` over the whole new
array.  Whenever the branch produces a buffer at all, that buffer is the first
`missingCount + samplesCount` elements of the old buffer, so none of the zeros written by the
`memset` is left, `samplesCount` is not raised, and the old buffer must have held more than
`samplesCount` elements; on a packet whose buffer holds exactly its `samplesCount` samples the
loop reads past the end of the buffer and there is no defined result.  At `rate` 88200 with the
target `2 / 25`, a queue of two samples 5 and 6 that starts one sample after the target has one
missing sample, and the claim asks for the buffer 0, 5, 6: a buffer of exactly two elements
gives no result, and a buffer with a spare third element 9 gives 5, 6, 9. -/
theorem seekPadQueue_overwrites_silence :
    (∀ (time timeStamp rate queuedTime : ℚ) (head : AudioPacket) (rest q : List AudioPacket),
      0 < truncToInt ((timeStamp - queuedTime - time) * rate) → 0 ≤ head.samplesCount →
      seekPadQueue time timeStamp rate queuedTime (head :: rest) = some q →
      ∃ missingCount : Int,
        missingCount = truncToInt ((timeStamp - queuedTime - time) * rate) ∧
        q = { head with
              pcmData := head.pcmData.take (missingCount + head.samplesCount).toNat } :: rest ∧
        (missingCount + head.samplesCount).toNat ≤ head.pcmData.length) ∧
    (∀ (time timeStamp rate queuedTime : ℚ) (head : AudioPacket) (rest : List AudioPacket),
      0 < truncToInt ((timeStamp - queuedTime - time) * rate) → 0 ≤ head.samplesCount →
      head.pcmData.length = head.samplesCount.toNat →
      seekPadQueue time timeStamp rate queuedTime (head :: rest) = none) ∧
    truncToInt (((2 : ℚ) / 25 + 3 / 88200 - 2 / 88200 - 2 / 25) * 88200) = 1 ∧
    seekPadQueue (2 / 25) (2 / 25 + 3 / 88200) 88200 (2 / 88200) [twoSamples] = none ∧
    seekPadQueue (2 / 25) (2 / 25 + 3 / 88200) 88200 (2 / 88200) [twoSamplesSpare] =
      some [{ pcmData := [5, 6, 9], samplesCount := 2 }] ∧
    ¬ (([5, 6, 9] : List ℚ) = List.replicate 1 0 ++ [5, 6]) := by
  have general : ∀ (time timeStamp rate queuedTime : ℚ) (head : AudioPacket)
      (rest q : List AudioPacket),
      0 < truncToInt ((timeStamp - queuedTime - time) * rate) → 0 ≤ head.samplesCount →
      seekPadQueue time timeStamp rate queuedTime (head :: rest) = some q →
      q = { head with
            pcmData := head.pcmData.take
              (truncToInt ((timeStamp - queuedTime - time) * rate) +
                head.samplesCount).toNat } :: rest ∧
      (truncToInt ((timeStamp - queuedTime - time) * rate) + head.samplesCount).toNat ≤
        head.pcmData.length := by
    intro time timeStamp rate queuedTime head rest q hm hn h
    unfold seekPadQueue at h
    simp only [] at h
    rw [if_pos hm] at h
    cases hc : copyLoop false
        (truncToInt ((timeStamp - queuedTime - time) * rate) + head.samplesCount).toNat 0 0
        head.pcmData
        (List.replicate
          (truncToInt ((timeStamp - queuedTime - time) * rate) + head.samplesCount).toNat 0) with
    | none => rw [hc] at h; simp at h
    | some samples =>
      rw [hc] at h
      simp only [Option.some.injEq] at h
      obtain ⟨h1, h2⟩ := copyLoop_from_zero _ head.pcmData samples (by omega) hc
      exact ⟨by rw [← h, h1], h2⟩
  have hone : truncToInt (((2 : ℚ) / 25 + 3 / 88200 - 2 / 88200 - 2 / 25) * 88200) = 1 := by
    norm_num [truncToInt]
  refine ⟨?_, ?_, hone, ?_, ?_, by decide⟩
  · intro time timeStamp rate queuedTime head rest q hm hn h
    exact ⟨_, rfl, general time timeStamp rate queuedTime head rest q hm hn h⟩
  · intro time timeStamp rate queuedTime head rest hm hn hlen
    cases hs : seekPadQueue time timeStamp rate queuedTime (head :: rest) with
    | none => rfl
    | some q =>
      have := (general time timeStamp rate queuedTime head rest q hm hn hs).2
      omega
  · unfold seekPadQueue
    simp only [hone]
    rfl
  · unfold seekPadQueue
    simp only [hone]
    rfl

/-- Witness of the general parts of C15: one missing sample (the queue of two samples starts one
sample after the target `2 / 25`, at `rate` 88200) before the packet with a spare element, and
before the packet without. -/
theorem seekPadQueue_overwrites_silence_witness :
    (∃ missingCount : Int,
      missingCount = truncToInt (((2 : ℚ) / 25 + 3 / 88200 - 2 / 88200 - 2 / 25) * 88200) ∧
      [{ pcmData := [5, 6, 9], samplesCount := 2 }] =
        { twoSamplesSpare with
          pcmData := twoSamplesSpare.pcmData.take
            (missingCount + twoSamplesSpare.samplesCount).toNat } :: [] ∧
      (missingCount + twoSamplesSpare.samplesCount).toNat ≤ twoSamplesSpare.pcmData.length) ∧
    seekPadQueue (2 / 25) (2 / 25 + 3 / 88200) 88200 (2 / 88200) (twoSamples :: []) = none :=
  ⟨seekPadQueue_overwrites_silence.1 (2 / 25) (2 / 25 + 3 / 88200) 88200 (2 / 88200)
      twoSamplesSpare []
      [{ pcmData := [5, 6, 9], samplesCount := 2 }]
      (by norm_num [truncToInt]) (by decide)
      (by
        unfold seekPadQueue
        simp only [show truncToInt (((2 : ℚ) / 25 + 3 / 88200 - 2 / 88200 - 2 / 25) * 88200) = 1
          by norm_num [truncToInt]]
        rfl),
    seekPadQueue_overwrites_silence.2.1 (2 / 25) (2 / 25 + 3 / 88200) 88200 (2 / 88200)
      twoSamples []
      (by norm_num [truncToInt]) (by decide) rfl⟩

/-! ### The probes of `_seekPage` -/

/-- A probe of `_seekPage` leaves the size of the stream and the offsets sought as they are, and
does one of three things to the bounds: it leaves both as they are, it sets `seekMin` to
`seekMin / 2 + seekMax / 2`, or it sets `seekMax` to `seekMin / 2 + seekMax / 2`. -/
theorem seekPageProbe_update (targetFrame : Int) (fuel : Nat) :
    ∀ (st : Clip) (loc : SeekPageLocals) (result : Clip × SeekPageLocals × Bool),
      seekPageProbe targetFrame fuel st loc = some result →
      result.1.stream.size = st.stream.size ∧ result.1.stream.seeks = st.stream.seeks ∧
      ((result.2.1.seekMin = loc.seekMin ∧ result.2.1.seekMax = loc.seekMax) ∨
        (result.2.1.seekMin = loc.seekMin / 2 + loc.seekMax / 2 ∧
          result.2.1.seekMax = loc.seekMax) ∨
        (result.2.1.seekMin = loc.seekMin ∧
          result.2.1.seekMax = loc.seekMin / 2 + loc.seekMax / 2)) := by
  induction fuel with
  | zero => intro st loc result h; simp [seekPageProbe] at h
  | succ n ih =>
    intro st loc result h
    unfold seekPageProbe ogg_sync_pageout at h
    cases hs : st.info.OggSyncState with
    | nil =>
      rw [hs] at h
      simp only [] at h
      cases hr : st.stream.reads with
      | nil =>
        rw [hr] at h
        simp only [Option.some.injEq] at h
        rw [← h]
        exact ⟨rfl, rfl, Or.inl ⟨rfl, rfl⟩⟩
      | cons r rest =>
        rw [hr] at h
        simp only [] at h
        split_ifs at h
        · simp only [Option.some.injEq] at h
          rw [← h]
          exact ⟨rfl, rfl, Or.inl ⟨rfl, rfl⟩⟩
        · have hih := ih _ _ _ h
          exact hih
    | cons x rest =>
      rw [hs] at h
      cases x with
      | unsynced =>
        simp only [] at h
        cases hr : st.stream.reads with
        | nil =>
          rw [hr] at h
          simp only [Option.some.injEq] at h
          rw [← h]
          exact ⟨rfl, rfl, Or.inl ⟨rfl, rfl⟩⟩
        | cons r rest =>
          rw [hr] at h
          simp only [] at h
          split_ifs at h
          · simp only [Option.some.injEq] at h
            rw [← h]
            exact ⟨rfl, rfl, Or.inl ⟨rfl, rfl⟩⟩
          · have hih := ih _ _ _ h
            exact hih
      | page og =>
        simp only [] at h
        split_ifs at h
        all_goals first
          | (simp only [Option.some.injEq] at h
             rw [← h]
             first
               | exact ⟨rfl, rfl, Or.inl ⟨rfl, rfl⟩⟩
               | exact ⟨rfl, rfl, Or.inr (Or.inl ⟨rfl, rfl⟩)⟩
               | exact ⟨rfl, rfl, Or.inr (Or.inr ⟨rfl, rfl⟩)⟩)
          | (have hih := ih _ _ _ h
             exact hih)

/-- A run of probes that follows the bounds stays within the stream: every offset sought and
both bounds at the end are at most `size`. -/
theorem probesFollowBounds_within (size : Nat) :
    ∀ (probes : List Nat) (lo hi lo' hi' : Nat),
      probesFollowBounds size lo hi probes lo' hi' →
      (∀ offset ∈ probes, offset ≤ size) ∧ lo' ≤ size ∧ hi' ≤ size
  | [], lo, hi, lo', hi', h => by
    simp only [probesFollowBounds] at h
    obtain ⟨h1, h2, h3, h4⟩ := h
    exact ⟨fun _ hm => by simp at hm, by omega, by omega⟩
  | offset :: rest, lo, hi, lo', hi', h => by
    simp only [probesFollowBounds] at h
    obtain ⟨h1, h2, h3, h4⟩ := h
    have hoff : offset ≤ size := by omega
    have hrest : (∀ o ∈ rest, o ≤ size) ∧ lo' ≤ size ∧ hi' ≤ size := by
      rcases h4 with h4 | h4 | h4
      · exact probesFollowBounds_within size rest _ _ _ _ h4
      · exact probesFollowBounds_within size rest _ _ _ _ h4
      · exact probesFollowBounds_within size rest _ _ _ _ h4
    refine ⟨fun o ho => ?_, hrest.2⟩
    rw [List.mem_cons] at ho
    rcases ho with ho | ho
    · rw [ho]; exact hoff
    · exact hrest.1 o ho

/-- The probes of `_seekPage`: with `remaining` iterations to go and bounds within the stream,
the loop seeks the data source at most `remaining` times (at least once if `remaining` is not
zero), and the offsets it seeks follow the bounds, from the bounds it starts with to the bounds
it ends with. -/
theorem seekPageFor_follows_bounds (targetFrame : Int) (fuel : Nat) (remaining : Nat) :
    ∀ (st : Clip) (loc : SeekPageLocals) (result : Clip × SeekPageLocals),
      seekPageFor targetFrame fuel remaining st loc = some result →
      loc.seekMin ≤ st.stream.size → loc.seekMax ≤ st.stream.size →
      result.1.stream.size = st.stream.size ∧
      ∃ probes : List Nat, result.1.stream.seeks = probes.reverse ++ st.stream.seeks ∧
        probes.length ≤ remaining ∧ (0 < remaining → probes ≠ []) ∧
        probesFollowBounds st.stream.size loc.seekMin loc.seekMax probes
          result.2.seekMin result.2.seekMax := by
  induction remaining with
  | zero =>
    intro st loc result h hlo hhi
    simp only [seekPageFor, Option.some.injEq] at h
    rw [← h]
    exact ⟨rfl, [], rfl, le_refl _, fun h => by omega, hlo, hhi, rfl, rfl⟩
  | succ n ih =>
    intro st loc result h hlo hhi
    unfold seekPageFor at h
    simp only [] at h
    cases hp : seekPageProbe targetFrame fuel
        { st with info.OggSyncState := []
                  stream := st.stream.seek (loc.seekMin / 2 + loc.seekMax / 2) } loc with
    | none => rw [hp] at h; simp at h
    | some r =>
      obtain ⟨st1, loc1, close⟩ := r
      obtain ⟨hsize, hseeks, hupd⟩ := seekPageProbe_update targetFrame fuel _ _ _ hp
      simp only [DataSource.seek] at hsize hseeks hupd
      have hlo1 : loc1.seekMin ≤ st.stream.size := by
        rcases hupd with h1 | h1 | h1 <;> omega
      have hhi1 : loc1.seekMax ≤ st.stream.size := by
        rcases hupd with h1 | h1 | h1 <;> omega
      rw [hp] at h
      cases close with
      | true =>
        simp only [Option.some.injEq] at h
        rw [← h]
        refine ⟨hsize, [loc.seekMin / 2 + loc.seekMax / 2], ?_, ?_, fun _ => by simp, ?_⟩
        · rw [hseeks]; rfl
        · simp
        · refine ⟨hlo, hhi, rfl, ?_⟩
          rcases hupd with h1 | h1 | h1
          · exact Or.inl ⟨hlo, hhi, h1.1, h1.2⟩
          · exact Or.inr (Or.inl ⟨by omega, hhi, h1.1, h1.2⟩)
          · exact Or.inr (Or.inr ⟨hlo, by omega, h1.1, h1.2⟩)
      | false =>
        simp only [] at h
        obtain ⟨h1, probes, h4, h5, _, h7⟩ := ih st1 loc1 result h
          (by rw [hsize]; exact hlo1) (by rw [hsize]; exact hhi1)
        rw [hsize] at h1 h7
        refine ⟨h1, (loc.seekMin / 2 + loc.seekMax / 2) :: probes, ?_, ?_, fun _ => by simp,
          ?_⟩
        · rw [h4, hseeks, List.reverse_cons, List.append_assoc]; rfl
        · simp only [List.length_cons]; omega
        · refine ⟨hlo, hhi, rfl, ?_⟩
          rcases hupd with h8 | h8 | h8
          · rw [h8.1, h8.2] at h7; exact Or.inl h7
          · rw [h8.1, h8.2] at h7; exact Or.inr (Or.inl h7)
          · rw [h8.1, h8.2] at h7; exact Or.inr (Or.inr h7)

/-- C16 (amended). In `_seekPage` with `targetFrame != 0` and stream size `S`, whatever pages are
observed, the offsets the call seeks the data source to are those of at most 100 probes (and at
least one), followed, when `returnKeyFrame` is false, by the final seek of line 665 to
`(lo + hi) / 2` of the bounds the probes end with.  The probes follow the bounds from `lo = 0`,
`hi = S`: each probe seeks to `lo / 2 + hi / 2` of the bounds current at that probe (each half
rounded down), and leaves the bounds as they are or sets one of them to its offset.  Every probe
offset, the offset of the final seek and both bounds stay between `0` and `S`; and
`lo / 2 + hi / 2` is `(lo + hi) / 2` rounded down, or one less. -/
theorem seekPage_probes :
    (∀ (fuel : Nat) (st : Clip) (targetFrame : Int) (returnKeyFrame : Bool)
        (result : Clip × Int),
      targetFrame ≠ 0 → seekPage fuel st targetFrame returnKeyFrame = some result →
      ∃ (probes : List Nat) (lo hi : Nat),
        probes.length ≤ 100 ∧ probes ≠ [] ∧
        probesFollowBounds st.stream.size 0 st.stream.size probes lo hi ∧
        probes.head? = some (0 / 2 + st.stream.size / 2) ∧
        (∀ offset ∈ probes, offset ≤ st.stream.size) ∧
        lo ≤ st.stream.size ∧ hi ≤ st.stream.size ∧
        (lo + hi) % 2 ^ 64 / 2 ≤ st.stream.size ∧
        result.1.stream.seeks =
          (if returnKeyFrame then probes.reverse ++ st.stream.seeks
            else (lo + hi) % 2 ^ 64 / 2 :: (probes.reverse ++ st.stream.seeks))) ∧
    (∀ lo hi : Nat, ∀ rest : List Nat, ∀ size offset lo' hi' : Nat,
      probesFollowBounds size lo hi (offset :: rest) lo' hi' →
      offset = lo / 2 + hi / 2 ∧ offset ≤ (lo + hi) / 2 ∧ (lo + hi) / 2 ≤ offset + 1) := by
  constructor
  · intro fuel st targetFrame returnKeyFrame result ht h
    unfold seekPage at h
    simp only [ht, if_false, ne_eq, not_false_eq_true, if_true] at h
    cases hf : seekPageFor targetFrame fuel 100 st
        { seekMin := 0, seekMax := st.stream.size, frame := 0, granule := 0 } with
    | none => rw [hf] at h; simp at h
    | some r =>
      obtain ⟨st1, loc1⟩ := r
      obtain ⟨_, probes, hseeks, hlen, hne, hchain⟩ :=
        seekPageFor_follows_bounds targetFrame fuel 100 _ _ _ hf (Nat.zero_le _) (le_refl _)
      simp only [] at hseeks hchain
      obtain ⟨hall, hlo, hhi⟩ := probesFollowBounds_within _ _ _ _ _ _ hchain
      have hfinal : (loc1.seekMin + loc1.seekMax) % 2 ^ 64 / 2 ≤ st.stream.size := by
        have := Nat.mod_le (loc1.seekMin + loc1.seekMax) (2 ^ 64)
        omega
      have hhead : probes.head? = some (0 / 2 + st.stream.size / 2) := by
        cases probes with
        | nil => exact absurd rfl (hne (by decide))
        | cons offset rest =>
          simp only [probesFollowBounds] at hchain
          rw [hchain.2.2.1]; rfl
      rw [hf] at h
      simp only [] at h
      refine ⟨probes, loc1.seekMin, loc1.seekMax, hlen, hne (by decide), hchain, hhead, hall,
        hlo, hhi, hfinal, ?_⟩
      cases returnKeyFrame with
      | true =>
        simp only [if_true, Option.some.injEq] at h ⊢
        rw [← h]; exact hseeks
      | false =>
        simp only [Bool.false_eq_true, if_false, Option.some.injEq] at h ⊢
        rw [← h]
        show _ :: st1.stream.seeks = _
        rw [hseeks]
  · intro lo hi rest size offset lo' hi' h
    simp only [probesFollowBounds] at h
    obtain ⟨_, _, h3, _⟩ := h
    rw [h3]
    exact ⟨rfl, by omega, by omega⟩

/-- Witness of C16 (amended): the coarse seek to frame 100 on the stream of 100000 bytes that
observes a page at frame 0 and then pages at frame 200, with the final seek.  The call seeks to
50000, 75000, 62500 and then 97 times to 56250, and at last to 56250 again. -/
theorem seekPage_probes_witness :
    (seekPage 5 (exampleClip crossingReads) 100 false).map (fun r => r.1.stream.seeks) =
      some (56250 :: (List.replicate 97 56250 ++ [62500, 75000, 50000])) ∧
    ∃ (result : Clip × Int) (probes : List Nat) (lo hi : Nat),
      seekPage 5 (exampleClip crossingReads) 100 false = some result ∧
      probes.length ≤ 100 ∧ probes ≠ [] ∧
      probesFollowBounds (exampleClip crossingReads).stream.size 0
        (exampleClip crossingReads).stream.size probes lo hi ∧
      probes.head? = some (0 / 2 + (exampleClip crossingReads).stream.size / 2) ∧
      (∀ offset ∈ probes, offset ≤ (exampleClip crossingReads).stream.size) ∧
      lo ≤ (exampleClip crossingReads).stream.size ∧
      hi ≤ (exampleClip crossingReads).stream.size ∧
      (lo + hi) % 2 ^ 64 / 2 ≤ (exampleClip crossingReads).stream.size ∧
      result.1.stream.seeks =
        (if false then probes.reverse ++ (exampleClip crossingReads).stream.seeks
          else (lo + hi) % 2 ^ 64 / 2 ::
            (probes.reverse ++ (exampleClip crossingReads).stream.seeks)) := by
  have hsome : (seekPage 5 (exampleClip crossingReads) 100 false).isSome = true := rfl
  obtain ⟨probes, lo, hi, h⟩ := seekPage_probes.1 5 (exampleClip crossingReads) 100 false
    (Option.get _ hsome) (by decide) (Option.some_get hsome).symm
  exact ⟨rfl, Option.get _ hsome, probes, lo, hi, (Option.some_get hsome).symm, h⟩

/-- C16, counterexample. A coarse seek to frame 100 on a stream of three bytes that observes a
page at frame 0 and then pages at frame 200.  The first probe seeks to offset 1 and the bounds
become `lo = 1`, `hi = 3`; the second probe seeks to `1 / 2 + 3 / 2 = 1`, not to
`(1 + 3) / 2 = 2`, and the bounds become `lo = 1`, `hi = 1`; the third probe seeks to
`1 / 2 + 1 / 2 = 0`, below `lo = 1`, and the bounds become `lo = 1`, `hi = 0`, so `lo <= hi` is
not preserved.  All 100 probes are made. -/
theorem seekPage_probes_counterexample :
    (seekPageFor 100 5 1 (threeByteClip crossingReads)
        { seekMin := 0, seekMax := 3, frame := 0, granule := 0 }).map
      (fun r => (r.1.stream.seeks, r.2.seekMin, r.2.seekMax)) = some ([1], 1, 3) ∧
    (seekPageFor 100 5 2 (threeByteClip crossingReads)
        { seekMin := 0, seekMax := 3, frame := 0, granule := 0 }).map
      (fun r => (r.1.stream.seeks, r.2.seekMin, r.2.seekMax)) = some ([1, 1], 1, 1) ∧
    (seekPageFor 100 5 3 (threeByteClip crossingReads)
        { seekMin := 0, seekMax := 3, frame := 0, granule := 0 }).map
      (fun r => (r.1.stream.seeks, r.2.seekMin, r.2.seekMax)) = some ([0, 1, 1], 1, 0) ∧
    (seekPage 5 (threeByteClip crossingReads) 100 true).map (fun r => r.1.stream.seeks) =
      some (List.replicate 98 0 ++ [1, 1]) ∧
    ¬ ((1 + 3) / 2 = 1 / 2 + 3 / 2) ∧ ¬ (1 ≤ 1 / 2 + 1 / 2) ∧ ¬ (1 ≤ 0) :=
  ⟨rfl, rfl, rfl, rfl, by decide, by decide, by decide⟩

/-- C17, the code at the reads of `pcmData`.  The buffer of a packet is an array of exactly
`samplesCount` elements.  In the trimming branch every read and write of the loop of lines
510-513 falls inside the buffer: with a positive `rate` the walk over any queue of such packets
ends without leaving an array.  In the silence branch the loop of lines 535-538 reads
`pcmData[j]` for `j` from `0` to `missingCount + samplesCount - 1`: its first `samplesCount`
passes stay inside, and the next pass, which the loop always makes when `missingCount > 0`,
reads `pcmData[samplesCount]`, outside the buffer.  With one missing sample before a packet of
two samples the read of `pcmData[2]` is that read. -/
theorem seekRealign_pcmData_reads :
    (∀ (time timeStamp rate : ℚ) (queue : List AudioPacket) (queuedTime : ℚ),
      0 < rate →
      (∀ packet ∈ queue, packet.pcmData.length = packet.samplesCount.toNat) →
      ∃ q, seekTrimQueue time timeStamp rate queue queuedTime = some q) ∧
    (∀ (time timeStamp rate queuedTime : ℚ) (head : AudioPacket) (rest : List AudioPacket),
      0 < truncToInt ((timeStamp - queuedTime - time) * rate) → 0 ≤ head.samplesCount →
      head.pcmData.length = head.samplesCount.toNat →
      (∃ out, copyLoop false head.samplesCount.toNat 0 0 head.pcmData
          (List.replicate
            (truncToInt ((timeStamp - queuedTime - time) * rate) + head.samplesCount).toNat 0) =
        some out) ∧
      head.samplesCount.toNat <
        (truncToInt ((timeStamp - queuedTime - time) * rate) + head.samplesCount).toNat ∧
      readAt head.pcmData head.samplesCount = none ∧
      copyLoop false
          (truncToInt ((timeStamp - queuedTime - time) * rate) + head.samplesCount).toNat 0 0
          head.pcmData
          (List.replicate
            (truncToInt ((timeStamp - queuedTime - time) * rate) + head.samplesCount).toNat 0) =
        none ∧
      seekPadQueue time timeStamp rate queuedTime (head :: rest) = none) ∧
    (readAt twoSamples.pcmData 0 = some 5 ∧ readAt twoSamples.pcmData 1 = some 6 ∧
      readAt twoSamples.pcmData 2 = none ∧
      copyLoop false 3 0 0 twoSamples.pcmData (List.replicate 3 0) = none) := by
  refine ⟨?_, ?_, rfl, rfl, rfl, rfl⟩
  · intro time timeStamp rate queue
    induction queue with
    | nil => intro queuedTime _ _; exact ⟨[], rfl⟩
    | cons head rest ih =>
      intro queuedTime hrate hwf
      have hlen := hwf head (List.mem_cons_self _ _)
      unfold seekTrimQueue
      by_cases hs : time ≤ timeStamp - queuedTime + (head.samplesCount : ℚ) / rate
      · rw [if_pos hs]
        simp only []
        have hx : 0 ≤
            (timeStamp - queuedTime + (head.samplesCount : ℚ) / rate - time) * rate :=
          mul_nonneg (by linarith) hrate.le
        obtain ⟨_, h0, _, _⟩ := truncToInt_of_nonneg _ hx
        obtain ⟨c, hc⟩ : ∃ c : Int, c =
            truncToInt ((timeStamp - queuedTime + (head.samplesCount : ℚ) / rate - time) *
              rate) := ⟨_, rfl⟩
        rw [← hc] at h0 ⊢
        by_cases hle : head.samplesCount - c ≤ 0
        · rw [if_pos hle]; exact ⟨rest, rfl⟩
        · rw [if_neg hle]
          obtain ⟨out, hout, _⟩ := copyLoop_inside true (head.samplesCount - c).toNat c.toNat 0
            head.pcmData head.pcmData (by omega) (by omega) (fun _ => rfl)
          rw [Int.toNat_of_nonneg h0] at hout
          have hzero : ((0 : Nat) : Int) = 0 := rfl
          rw [hzero] at hout
          rw [hout]
          exact ⟨_, rfl⟩
      · rw [if_neg hs]
        exact ih _ hrate (fun packet hp => hwf packet (List.mem_cons_of_mem _ hp))
  · intro time timeStamp rate queuedTime head rest hm hn hlen
    obtain ⟨m, hmdef⟩ : ∃ m : Int, m = truncToInt ((timeStamp - queuedTime - time) * rate) :=
      ⟨_, rfl⟩
    rw [← hmdef] at hm ⊢
    have hnone : copyLoop false (m + head.samplesCount).toNat 0 0 head.pcmData
        (List.replicate (m + head.samplesCount).toNat 0) = none := by
      cases hc : copyLoop false (m + head.samplesCount).toNat 0 0 head.pcmData
          (List.replicate (m + head.samplesCount).toNat 0) with
      | none => rfl
      | some out =>
        have := (copyLoop_from_zero _ head.pcmData out (by omega) hc).2
        omega
    refine ⟨?_, by omega, ?_, hnone, ?_⟩
    · obtain ⟨out, hout, _⟩ := copyLoop_inside false head.samplesCount.toNat 0 0
        head.pcmData (List.replicate (m + head.samplesCount).toNat 0) (by omega)
        (by simp only [List.length_replicate]; omega) (fun h => by simp at h)
      exact ⟨out, hout⟩
    · unfold readAt
      rw [if_pos hn, List.getElem?_eq_none (by omega)]
    · unfold seekPadQueue
      simp only []
      rw [← hmdef, if_pos hm, hnone]

/-- Witness of the general parts of C17: the trimming walk over the ten-sample packet, and one
missing sample before the packet of two samples, at `rate` 88200 with the target `2 / 25`. -/
theorem seekRealign_pcmData_reads_witness :
    (∃ q, seekTrimQueue (2 / 25) (2 / 25 + 8 / 88200) 88200 [tenSamples] (10 / 88200) =
      some q) ∧
    readAt twoSamples.pcmData twoSamples.samplesCount = none ∧
    seekPadQueue (2 / 25) (2 / 25 + 3 / 88200) 88200 (2 / 88200) (twoSamples :: []) = none :=
  ⟨seekRealign_pcmData_reads.1 (2 / 25) (2 / 25 + 8 / 88200) 88200 [tenSamples] (10 / 88200)
      (by norm_num)
      (fun packet hp => by
        rw [List.mem_singleton] at hp
        rw [hp]; rfl),
    (seekRealign_pcmData_reads.2.1 (2 / 25) (2 / 25 + 3 / 88200) 88200 (2 / 88200)
      twoSamples []
      (by norm_num [truncToInt]) (by decide) rfl).2.2.1,
    (seekRealign_pcmData_reads.2.1 (2 / 25) (2 / 25 + 3 / 88200) 88200 (2 / 88200)
      twoSamples []
      (by norm_num [truncToInt]) (by decide) rfl).2.2.2.2⟩

end theoraplayer
